import Mathlib

/-!
# ros-spamhaus: Spamhaus DROP feeds to RouterOS address-list scripts

A shallow embedding of `src/index.js`.

JavaScript strings are modelled as lists of characters (`JSString`).  The values the
program handles are the values `JSON.parse` can produce (`JSValue`); `undefined`, the
result of reading a missing property, is the `none` of an `Option JSValue`.
Thrown errors are the `Except.error` side of `Except JSError`.

A number is represented by the two things this program can observe of it: its
`ToBoolean` and its `Number::toString` text.  The conversion of a JSON number token
to a number is IEEE-754 arithmetic of the platform and is taken as a parameter
(`toNumber`) wherever `JSON.parse` is involved.
-/

namespace RosSpamhaus

/-! ## Values -/

/-- A JavaScript string. -/
abbrev JSString := List Char

/-- A thrown JavaScript error, carrying its `message`. -/
structure JSError where
  message : JSString
deriving DecidableEq, Repr

deriving instance DecidableEq for Except

/-- A JavaScript number as far as the program observes it. -/
structure JSNumber where
  /-- `ToBoolean`: false exactly for `+0`, `-0` and `NaN`. -/
  truthy : Bool
  /-- `Number::toString`. -/
  text : JSString
deriving DecidableEq, Repr

/-- The values produced by `JSON.parse`. An object keeps its members in source order;
a later member with the same key overrides an earlier one on lookup. -/
inductive JSValue where
  | null : JSValue
  | bool (b : Bool) : JSValue
  | num (n : JSNumber) : JSValue
  | str (s : JSString) : JSValue
  | arr (items : List JSValue) : JSValue
  | obj (members : List (JSString × JSValue)) : JSValue

/-- `ToBoolean`. -/
def JSValue.truthy : JSValue → Bool
  | .null => false
  | .bool b => b
  | .num n => n.truthy
  | .str s => !s.isEmpty
  | .arr _ => true
  | .obj _ => true

/-- Own-property test on the members of an object. -/
def hasKey (key : JSString) : List (JSString × JSValue) → Bool
  | [] => false
  | (k, _) :: rest => k == key || hasKey key rest

/-- Own-property read on the members of an object: the last member with that key. -/
def getKey (key : JSString) : List (JSString × JSValue) → Option JSValue
  | [] => none
  | (k, v) :: rest =>
    match getKey key rest with
    | some w => some w
    | none => if k == key then some v else none

/-- The `TypeError` of `OrdinaryToPrimitive` when neither `toString` nor `valueOf`
yields a primitive. -/
def cannotConvert : JSError := ⟨"Cannot convert object to primitive value".toList⟩

mutual
/-- `ToString` of a value, as applied by a template literal and by `RegExp.prototype.test`.
An array is joined with commas.  An object without an own `toString` member gives
`[object Object]`; with one (never callable in a JSON value) the conversion throws,
because `valueOf` is either an own non-callable member or `Object.prototype.valueOf`,
which returns the object. -/
def toStringJS : JSValue → Except JSError JSString
  | .null => .ok "null".toList
  | .bool true => .ok "true".toList
  | .bool false => .ok "false".toList
  | .num n => .ok n.text
  | .str s => .ok s
  | .arr items => joinJS items
  | .obj members =>
    if hasKey "toString".toList members then .error cannotConvert
    else .ok "[object Object]".toList
termination_by structural v => v
/-- `Array.prototype.join` with the default separator `,`: a `null` element contributes
the empty string, any other element its `ToString`. -/
def joinJS : List JSValue → Except JSError JSString
  | [] => .ok []
  | v :: rest =>
    let first : Except JSError JSString :=
      match v with
      | .null => .ok []
      | w => toStringJS w
    match first with
    | .error e => .error e
    | .ok s =>
      match rest with
      | [] => .ok s
      | _ :: _ =>
        match joinJS rest with
        | .error e => .error e
        | .ok t => .ok (s ++ ',' :: t)
termination_by structural vs => vs
end

/-! ## Configuration -/

def TIMEOUT : Nat := 1
def OUTPUT_DIR : JSString := "build".toList
def MAX_RETRIES : Nat := 3
def RETRY_DELAY : Nat := 1000

/-- Decimal text of a natural number (`ToString` of a small non-negative integer). -/
def natText (n : Nat) : JSString := (Nat.repr n).toList

/-! ## Script renderer -/

/-- The `ips.forEach((ip, index) => ...)` loop of `generateRouterOSScript`: `len` is
`ips.length`, `script` the text built so far. -/
def forEachIp (len : Nat) : List JSValue → Nat → JSString → Except JSError JSString
  | [], _, script => .ok script
  | ip :: rest, index, script =>
    match toStringJS ip with
    | .error e => .error e
    | .ok s =>
      let script := script ++ "\x7b \"".toList ++ s ++ "\" \x7d".toList
      let script := if index < len - 1 then script ++ [';'] else script
      forEachIp len rest (index + 1) (script ++ ['\\', '\n'])

/-- `generateRouterOSScript(ips, listName, commandPath)`; `dateTime` is the text
returned by `getFormattedDateTime()` when the function runs. -/
def generateRouterOSScript (dateTime : JSString) (ips : List JSValue)
    (listName commandPath : JSString) : Except JSError JSString :=
  let script := "# Generated on ".toList ++ dateTime ++ ['\n']
  let script := script ++ (commandPath ++ " firewall address-list remove [find list=".toList
    ++ listName ++ "]\n".toList)
  let script := script ++ ":local ips \x7b \\\n".toList
  match forEachIp ips.length ips 0 script with
  | .error e => .error e
  | .ok script =>
    let script := script ++ "\x7d;\n".toList
    let script := script ++ ":foreach ip in=$ips do=\x7b\n".toList
    let script := script ++ ('\t' :: commandPath ++ " firewall address-list add list=".toList
      ++ listName ++ " address=$ip dynamic=yes timeout=".toList ++ natText TIMEOUT
      ++ "d\n".toList)
    let script := script ++ "\x7d\n".toList
    let script := script ++ ":set ips\n".toList
    .ok script

/-! ## Regular expressions

The two validators are regular-expression tests.  The patterns use only literal
characters, character classes, concatenation, alternation and bounded repetition, and are
anchored at both ends; `RE` is the syntax of that fragment and `RE.run` a backtracking
matcher for it. -/

/-- The regular-expression fragment used by the validators. -/
inductive RE where
  | eps : RE
  | cls (p : Char → Bool) : RE
  | seq (a b : RE) : RE
  | alt (a b : RE) : RE

/-- A literal character. -/
def RE.chr (c : Char) : RE := .cls (fun x => x == c)

/-- The class `[lo-hi]`. -/
def inRange (lo hi : Char) (c : Char) : Bool := lo.toNat ≤ c.toNat && c.toNat ≤ hi.toNat

/-- The quantifier `r?` (greedy: the non-empty alternative is tried first). -/
def RE.opt (r : RE) : RE := .alt r .eps

/-- The quantifier `r{n}`. -/
def RE.times : Nat → RE → RE
  | 0, _ => .eps
  | n + 1, r => .seq r (RE.times n r)

/-- The quantifier `r{0,n}`. -/
def RE.upTo : Nat → RE → RE
  | 0, _ => .eps
  | n + 1, r => RE.opt (.seq r (RE.upTo n r))

/-- The quantifier `r{lo,hi}`. -/
def RE.quant (lo hi : Nat) (r : RE) : RE := .seq (RE.times lo r) (RE.upTo (hi - lo) r)

/-- All the ways `r` can match a prefix of `s`, each given by the input left over, in
the order a backtracking matcher tries them. -/
def RE.run : RE → JSString → List JSString
  | .eps, s => [s]
  | .cls _, [] => []
  | .cls p, c :: rest => if p c then [rest] else []
  | .seq a b, s => (RE.run a s).flatMap (fun t => RE.run b t)
  | .alt a b, s => RE.run a s ++ RE.run b s

/-- The method `/^r$/.test(s)` on a string: without the `m` flag `^` matches only at the
start of the input and `$` only at its end, so the test asks for a match of `r` against
the whole of `s`. -/
def RE.test (r : RE) (s : JSString) : Bool := (RE.run r s).any (fun t => t.isEmpty)

/-! ## Address validators -/

/-- The class `[0-9]`. -/
def digit : RE := .cls (inRange '0' '9')

/-- Membership in the class `[0-9a-fA-F]`. -/
def isHexChar (c : Char) : Bool := inRange '0' '9' c || inRange 'a' 'f' c || inRange 'A' 'F' c

/-- The class `[0-9a-fA-F]`. -/
def hexDigit : RE := .cls isHexChar

/-- The octet pattern `25[0-5]|2[0-4][0-9]|[01]?[0-9][0-9]?`. -/
def octetRE : RE :=
  .alt (.seq (.chr '2') (.seq (.chr '5') (.cls (inRange '0' '5'))))
    (.alt (.seq (.chr '2') (.seq (.cls (inRange '0' '4')) digit))
      (.seq (RE.opt (.cls (fun c => c == '0' || c == '1'))) (.seq digit (RE.opt digit))))

/-- The pattern of `isIPv4` between `^` and `$`:
`(?:(?:octet)\.){3}(?:octet)(?:\/[0-9]{1,2})?`. -/
def ipv4RE : RE :=
  .seq (RE.times 3 (.seq octetRE (.chr '.')))
    (.seq octetRE (RE.opt (.seq (.chr '/') (RE.quant 1 2 digit))))

/-- The pattern of `isIPv6` between `^` and `$`:
`([0-9a-fA-F]{1,4}:){1,7}(:[0-9a-fA-F]{1,4}|:)(?:\/[0-9]{1,3})?`. -/
def ipv6RE : RE :=
  .seq (RE.quant 1 7 (.seq (RE.quant 1 4 hexDigit) (.chr ':')))
    (.seq (.alt (.seq (.chr ':') (RE.quant 1 4 hexDigit)) (.chr ':'))
      (RE.opt (.seq (.chr '/') (RE.quant 1 3 digit))))

/-- `isIPv4(ip)` on a string. -/
def isIPv4 (ip : JSString) : Bool := RE.test ipv4RE ip

/-- `isIPv6(ip)` on a string. -/
def isIPv6 (ip : JSString) : Bool := RE.test ipv6RE ip

/-! ## Words matched by a pattern, and the shapes named by the specification -/

/-- The words matched by `r`. -/
def RE.Matches : RE → JSString → Prop
  | .eps, w => w = []
  | .cls p, w => ∃ c, w = [c] ∧ p c = true
  | .seq a b, w => ∃ u v, w = u ++ v ∧ RE.Matches a u ∧ RE.Matches b v
  | .alt a b, w => RE.Matches a w ∨ RE.Matches b w

/-- Numeric value of a string of decimal digits. -/
def decimalValue (w : JSString) : Nat :=
  w.foldl (fun acc c => 10 * acc + (c.toNat - '0'.toNat)) 0

/-- A string of one to three decimal digits whose value is between 0 and 255. -/
def IsOctet (w : JSString) : Prop :=
  1 ≤ w.length ∧ w.length ≤ 3 ∧ (∀ c ∈ w, inRange '0' '9' c = true) ∧ decimalValue w ≤ 255

instance : DecidablePred IsOctet := fun w => by
  unfold IsOctet; infer_instance

/-- An optional CIDR suffix: nothing, or `/` followed by one to `n` decimal digits. -/
def IsCidrSuffix (n : Nat) (w : JSString) : Prop :=
  w = [] ∨ ∃ ds : JSString, w = '/' :: ds ∧ 1 ≤ ds.length ∧ ds.length ≤ n
    ∧ ∀ c ∈ ds, inRange '0' '9' c = true

/-- A group of one to four hexadecimal digits. -/
def IsHexGroup (g : JSString) : Prop :=
  1 ≤ g.length ∧ g.length ≤ 4 ∧ ∀ c ∈ g, isHexChar c = true

instance : DecidablePred IsHexGroup := fun g => by
  unfold IsHexGroup; infer_instance

/-- The text of a sequence of groups, each followed by a colon. -/
def colonGroups (gs : List JSString) : JSString := (gs.map (fun g => g ++ [':'])).flatten

/-! ## Strings: `split` and `trim` -/

/-- `s.split('\n')` for the separator character `sep`: the segments between the
separators; a string without separator, the empty one included, is one segment. -/
def splitOn (sep : Char) : JSString → List JSString
  | [] => [[]]
  | c :: rest =>
    if c == sep then [] :: splitOn sep rest
    else
      match splitOn sep rest with
      | [] => [[c]]
      | seg :: segs => (c :: seg) :: segs

/-- The characters removed by `String.prototype.trim`: `WhiteSpace` (TAB, VT, FF, the
space separators of Unicode, U+FEFF) and `LineTerminator` (LF, CR, U+2028, U+2029). -/
def isTrimChar (c : Char) : Bool :=
  let n := c.toNat
  n == 0x09 || n == 0x0A || n == 0x0B || n == 0x0C || n == 0x0D || n == 0x20
    || n == 0xA0 || n == 0x1680 || (0x2000 ≤ n && n ≤ 0x200A) || n == 0x2028 || n == 0x2029
    || n == 0x202F || n == 0x205F || n == 0x3000 || n == 0xFEFF

/-- `line.trim()`. -/
def trim (s : JSString) : JSString :=
  ((s.dropWhile isTrimChar).reverse.dropWhile isTrimChar).reverse

/-! ## `JSON.parse`

The JSON grammar of ECMA-404 as `JSON.parse` reads it.  Nested values are read by
recursive descent with a step budget (`fuel`); `JSON.parse` supplies a budget that is
never used up (`parseValue_fuel`). -/

/-- Outcome of reading one grammar element from the front of the input. -/
inductive Res (α : Type) where
  | ok (value : α) (rest : JSString) : Res α
  | syntaxError : Res α
  | outOfFuel : Res α

/-- JSON whitespace: space, tab, line feed, carriage return. -/
def isJsonWs (c : Char) : Bool := c == ' ' || c == '\t' || c == '\n' || c == '\r'

def skipWs (s : JSString) : JSString := s.dropWhile isJsonWs

/-- Value of a hexadecimal digit. -/
def hexVal (c : Char) : Option Nat :=
  if inRange '0' '9' c then some (c.toNat - '0'.toNat)
  else if inRange 'a' 'f' c then some (c.toNat - 'a'.toNat + 10)
  else if inRange 'A' 'F' c then some (c.toNat - 'A'.toNat + 10)
  else none

/-- Value of the four hexadecimal digits of a `\uXXXX` escape. -/
def hex4 (a b c d : Char) : Option Nat :=
  match hexVal a, hexVal b, hexVal c, hexVal d with
  | some w, some x, some y, some z => some (((w * 16 + x) * 16 + y) * 16 + z)
  | _, _, _, _ => none

/-- The character of a `\uXXXX` escape.  A string of this model is a list of Unicode
scalar values, so an escape naming half of a surrogate pair is kept as U+FFFD (the
value such a half has once the text is written out as UTF-8). -/
def escapeChar (code : Nat) : Char :=
  if 0xD800 ≤ code ∧ code ≤ 0xDFFF then Char.ofNat 0xFFFD else Char.ofNat code

/-- The character a two-character escape (a backslash and `e`) stands for. -/
def plainEscape (e : Char) : Option Char :=
  if e == '"' then some '"'
  else if e == '\\' then some '\\'
  else if e == '/' then some '/'
  else if e == 'b' then some (Char.ofNat 8)
  else if e == 'f' then some (Char.ofNat 12)
  else if e == 'n' then some '\n'
  else if e == 'r' then some '\r'
  else if e == 't' then some '\t'
  else none

/-- The characters of a JSON string after its opening quote, up to the closing quote. -/
def parseChars : JSString → Option (JSString × JSString)
  | [] => none
  | '"' :: rest => some ([], rest)
  | '\\' :: 'u' :: a :: b :: c :: d :: '\\' :: 'u' :: e :: f :: g :: h :: rest =>
    match hex4 a b c d with
    | none => none
    | some hi =>
      match hex4 e f g h with
      | some lo =>
        if 0xD800 ≤ hi ∧ hi ≤ 0xDBFF ∧ 0xDC00 ≤ lo ∧ lo ≤ 0xDFFF then
          (parseChars rest).map
            (fun r => (Char.ofNat (0x10000 + (hi - 0xD800) * 0x400 + (lo - 0xDC00)) :: r.1, r.2))
        else
          (parseChars ('\\' :: 'u' :: e :: f :: g :: h :: rest)).map
            (fun r => (escapeChar hi :: r.1, r.2))
      | none =>
        (parseChars ('\\' :: 'u' :: e :: f :: g :: h :: rest)).map
          (fun r => (escapeChar hi :: r.1, r.2))
  | '\\' :: 'u' :: a :: b :: c :: d :: rest =>
    match hex4 a b c d with
    | none => none
    | some code => (parseChars rest).map (fun r => (escapeChar code :: r.1, r.2))
  | '\\' :: e :: rest =>
    match plainEscape e with
    | none => none
    | some ch => (parseChars rest).map (fun r => (ch :: r.1, r.2))
  | c :: rest =>
    if c.toNat < 0x20 then none
    else (parseChars rest).map (fun r => (c :: r.1, r.2))

/-- The class `[0-9]` as a predicate. -/
def isDigitChar (c : Char) : Bool := inRange '0' '9' c

/-- The digits of `frac` or `exp`: at least one. -/
def scanDigits (s : JSString) : Option (JSString × JSString) :=
  match s.takeWhile isDigitChar with
  | [] => none
  | ds => some (ds, s.dropWhile isDigitChar)

/-- The integer part of a JSON number: `0`, or a non-zero digit followed by digits. -/
def scanInt : JSString → Option (JSString × JSString)
  | [] => none
  | c :: rest =>
    if c == '0' then some (['0'], rest)
    else if isDigitChar c then
      some (c :: rest.takeWhile isDigitChar, rest.dropWhile isDigitChar)
    else none

/-- The optional fraction of a JSON number. -/
def scanFrac : JSString → Option (JSString × JSString)
  | '.' :: rest => (scanDigits rest).map (fun r => ('.' :: r.1, r.2))
  | s => some ([], s)

/-- The optional exponent of a JSON number. -/
def scanExp : JSString → Option (JSString × JSString)
  | [] => some ([], [])
  | e :: rest =>
    if e == 'e' || e == 'E' then
      match rest with
      | [] => none
      | sign :: rest' =>
        if sign == '+' || sign == '-' then
          (scanDigits rest').map (fun r => (e :: sign :: r.1, r.2))
        else (scanDigits rest).map (fun r => (e :: r.1, r.2))
    else some ([], e :: rest)

/-- The optional minus sign of a JSON number. -/
def scanSign : JSString → JSString × JSString
  | '-' :: rest => (['-'], rest)
  | s => ([], s)

/-- A JSON number token at the front of the input: `-? int frac? exp?`. -/
def scanNumber (s : JSString) : Option (JSString × JSString) :=
  match scanInt (scanSign s).2 with
  | none => none
  | some (int, r1) =>
    match scanFrac r1 with
    | none => none
    | some (frac, r2) =>
      match scanExp r2 with
      | none => none
      | some (exp, r3) => some ((scanSign s).1 ++ int ++ frac ++ exp, r3)

/-- The input after the literal `lit`, when the input starts with it. -/
def takeLiteral : JSString → JSString → Option JSString
  | [], s => some s
  | _ :: _, [] => none
  | l :: lit, c :: s => if c == l then takeLiteral lit s else none

mutual
/-- A JSON value at the front of the input (no leading whitespace). -/
def parseValue (toNumber : JSString → JSNumber) : Nat → JSString → Res JSValue
  | 0, _ => .outOfFuel
  | fuel + 1, s =>
    match s with
    | [] => .syntaxError
    | c :: rest =>
      if c == '\x7b' then
        match skipWs rest with
        | '\x7d' :: rest' => .ok (.obj []) rest'
        | rest' => parseMembers toNumber fuel rest' []
      else if c == '[' then
        match skipWs rest with
        | ']' :: rest' => .ok (.arr []) rest'
        | rest' => parseElements toNumber fuel rest' []
      else if c == '"' then
        match parseChars rest with
        | none => .syntaxError
        | some (str, rest') => .ok (.str str) rest'
      else
        match takeLiteral "true".toList s with
        | some rest' => .ok (.bool true) rest'
        | none =>
          match takeLiteral "false".toList s with
          | some rest' => .ok (.bool false) rest'
          | none =>
            match takeLiteral "null".toList s with
            | some rest' => .ok .null rest'
            | none =>
              match scanNumber s with
              | none => .syntaxError
              | some (token, rest') => .ok (.num (toNumber token)) rest'
/-- The elements of an array after `[` or `,` (leading whitespace skipped), up to and
including the closing `]`; `acc` holds the elements read so far. -/
def parseElements (toNumber : JSString → JSNumber) :
    Nat → JSString → List JSValue → Res JSValue
  | 0, _, _ => .outOfFuel
  | fuel + 1, s, acc =>
    match parseValue toNumber fuel s with
    | .syntaxError => .syntaxError
    | .outOfFuel => .outOfFuel
    | .ok v rest =>
      match skipWs rest with
      | ',' :: rest' => parseElements toNumber fuel (skipWs rest') (acc ++ [v])
      | ']' :: rest' => .ok (.arr (acc ++ [v])) rest'
      | _ => .syntaxError
/-- The members of an object after `{` or `,` (leading whitespace skipped), up to and
including the closing `}`; `acc` holds the members read so far. -/
def parseMembers (toNumber : JSString → JSNumber) :
    Nat → JSString → List (JSString × JSValue) → Res JSValue
  | 0, _, _ => .outOfFuel
  | fuel + 1, s, acc =>
    match s with
    | '"' :: rest =>
      match parseChars rest with
      | none => .syntaxError
      | some (key, rest1) =>
        match skipWs rest1 with
        | ':' :: rest2 =>
          match parseValue toNumber fuel (skipWs rest2) with
          | .syntaxError => .syntaxError
          | .outOfFuel => .outOfFuel
          | .ok v rest3 =>
            match skipWs rest3 with
            | ',' :: rest4 => parseMembers toNumber fuel (skipWs rest4) (acc ++ [(key, v)])
            | '\x7d' :: rest4 => .ok (.obj (acc ++ [(key, v)])) rest4
            | _ => .syntaxError
        | _ => .syntaxError
    | _ => .syntaxError
end

/-- The `SyntaxError` of `JSON.parse`. -/
def jsonSyntaxError : JSError := ⟨"Unexpected token in JSON".toList⟩

/-- `JSON.parse(text)`: one value surrounded by optional whitespace. -/
def JSON.parse (toNumber : JSString → JSNumber) (text : JSString) : Except JSError JSValue :=
  match parseValue toNumber (2 * text.length + 1) (skipWs text) with
  | .ok v rest => if (skipWs rest).isEmpty then .ok v else .error jsonSyntaxError
  | .syntaxError => .error jsonSyntaxError
  | .outOfFuel => .error jsonSyntaxError

/-! ## The feed parser (the `end` handler of `fetchIPList`) -/

/-- A validator function: its `name` and the outcome of calling it on a value, either
the truthiness of what it returns or the error it throws. -/
structure Validator where
  name : JSString
  call : JSValue → Except JSError Bool

/-- `isIPv4` as the function passed around: `RegExp.prototype.test` converts its
argument to a string first. -/
def isIPv4Fn : Validator where
  name := "isIPv4".toList
  call := fun v => (toStringJS v).map isIPv4

/-- `isIPv6` as the function passed around. -/
def isIPv6Fn : Validator where
  name := "isIPv6".toList
  call := fun v => (toStringJS v).map isIPv6

/-- The `TypeError` of calling `validator` when the argument is `undefined`. -/
def notAFunction : JSError := ⟨"validator is not a function".toList⟩

/-- The `TypeError` of reading `validator.name` when the argument is `undefined`. -/
def cannotReadName : JSError :=
  ⟨"Cannot read properties of undefined (reading 'name')".toList⟩

/-- The `TypeError` of reading `obj.cidr` when `obj` is `null`. -/
def cannotReadCidr : JSError := ⟨"Cannot read properties of null (reading 'cidr')".toList⟩

/-- The call `validator(x)`, where the argument `validator` of `fetchIPList` is either a
function or `undefined` (`none`). -/
def callValidator : Option Validator → JSValue → Except JSError Bool
  | none, _ => .error notAFunction
  | some v, x => v.call x

/-- The read `validator.name`. -/
def validatorName : Option Validator → Except JSError JSString
  | none => .error cannotReadName
  | some v => .ok v.name

/-- The read `obj.cidr`: a `TypeError` on `null`, the own member of an object, and
`undefined` (`none`) on a boolean, number, string or array. -/
def readCidr : JSValue → Except JSError (Option JSValue)
  | .null => .error cannotReadCidr
  | .obj members => .ok (getKey "cidr".toList members)
  | _ => .ok none

/-- The body of the inner `try` of the `.map` callback: the value returned and whether
`skippedLines++` ran. -/
def tryLine (toNumber : JSString → JSNumber) (validator : Option Validator)
    (line : JSString) : Except JSError (JSValue × Bool) :=
  match JSON.parse toNumber (trim line) with
  | .error e => .error e
  | .ok obj =>
    match readCidr obj with
    | .error e => .error e
    | .ok none => .ok (.null, true)
    | .ok (some cidr) =>
      if cidr.truthy then
        match callValidator validator cidr with
        | .error e => .error e
        | .ok true => .ok (cidr, false)
        | .ok false => .ok (.null, true)
      else .ok (.null, true)

/-- The `.map` callback with its `catch`: any error counts the line as skipped and
returns `null`. -/
def mapLine (toNumber : JSString → JSNumber) (validator : Option Validator)
    (line : JSString) : JSValue × Bool :=
  match tryLine toNumber validator line with
  | .error _ => (.null, true)
  | .ok r => r

/-- The `.map(...)` over the lines, threading the counter `skippedLines`. -/
def mapLines (toNumber : JSString → JSNumber) (validator : Option Validator) :
    List JSString → Nat → List JSValue × Nat
  | [], skippedLines => ([], skippedLines)
  | line :: rest, skippedLines =>
    let r := mapLine toNumber validator line
    let tail := mapLines toNumber validator rest (if r.2 then skippedLines + 1 else skippedLines)
    (r.1 :: tail.1, tail.2)

/-- The test `cidr !== null`. -/
def JSValue.notNull : JSValue → Bool
  | .null => false
  | _ => true

/-- The parser: `ipList` and `skippedLines` once the `.map(...).filter(...)` chain over
`data.split('\n')` has run. -/
def parseFeed (toNumber : JSString → JSNumber) (validator : Option Validator)
    (data : JSString) : List JSValue × Nat :=
  let mapped := mapLines toNumber validator (splitOn '\n' data) 0
  (mapped.1.filter JSValue.notNull, mapped.2)

/-- What the program does that the outside can see. -/
inductive Event where
  | request (url : JSString) : Event
  | log (message : JSString) : Event
  | sleep (ms : Nat) : Event
deriving DecidableEq

/-- The notice for a feed without valid entries. -/
def noValidNotice (name : JSString) : Event :=
  .log ("Warning: No valid ".toList ++ name ++ " addresses found after parsing.".toList)

/-- The notice for skipped lines. -/
def skippedNotice (skippedLines : Nat) (name : JSString) : Event :=
  .log ("Skipped ".toList ++ natText skippedLines
    ++ " invalid or non-CIDR lines for ".toList ++ name ++ ['.'])

/-- The `end` handler on the full response body `data`: the notices it logs and how it
settles the promise, `resolve(ipList)` or, from its outer `catch`,
`reject(new Error('Failed to parse IP list: ...'))`. -/
def onEnd (toNumber : JSString → JSNumber) (validator : Option Validator)
    (data : JSString) : List Event × Except JSError (List JSValue) :=
  let parsed := parseFeed toNumber validator data
  let ipList := parsed.1
  let skippedLines := parsed.2
  let outcome : Except JSError (List Event) :=
    match (if ipList.length == 0 then (validatorName validator).map (fun n => [noValidNotice n])
           else .ok []) with
    | .error e => .error e
    | .ok logs1 =>
      match (if skippedLines > 0 then
              (validatorName validator).map (fun n => [skippedNotice skippedLines n])
             else .ok []) with
      | .error e => .error e
      | .ok logs2 => .ok (logs1 ++ logs2)
  match outcome with
  | .ok logs => (logs, .ok ipList)
  | .error e => ([], .error ⟨"Failed to parse IP list: ".toList ++ e.message⟩)

/-! ## Fetch with retry -/

/-- How one `https.get` ends: an `error` event on the request, or a response with its
status code and the body its `data` events add up to. -/
inductive Attempt where
  | requestError (message : JSString) : Attempt
  | response (statusCode : Nat) (body : JSString) : Attempt

/-- The promise of one attempt: the events of the attempt and how the promise settles. -/
def attemptPromise (toNumber : JSString → JSNumber) (validator : Option Validator)
    (url : JSString) (attempt : Attempt) : List Event × Except JSError (List JSValue) :=
  match attempt with
  | .requestError message =>
    ([.request url], .error ⟨"Request error: ".toList ++ message⟩)
  | .response statusCode body =>
    if statusCode != 200 then
      ([.request url], .error ⟨"Request failed with status ".toList ++ natText statusCode⟩)
    else
      let r := onEnd toNumber validator body
      (.request url :: r.1, r.2)

/-- How a call of `fetchIPList` ends. -/
inductive FetchResult where
  | resolved (ipList : List JSValue) : FetchResult
  | thrown (error : JSError) : FetchResult
  | undefinedResult : FetchResult
  | outOfFuel : FetchResult

/-- The notice logged before a retry. -/
def retryNotice (retries : Nat) (url message : JSString) : Event :=
  .log ("Retrying (".toList ++ natText retries ++ ['/'] ++ natText MAX_RETRIES
    ++ ") for ".toList ++ url ++ ": ".toList ++ message)

/-- The error thrown once the retries are used up. -/
def exhausted (message : JSString) : JSError :=
  ⟨"Failed after ".toList ++ natText MAX_RETRIES ++ " retries: ".toList ++ message⟩

/-- The `while (retries < MAX_RETRIES)` loop of `fetchIPList`.  `env n` is the way the
`n`-th request of the call ends, `issued` the number of requests made so far, and `fuel`
bounds the number of iterations. -/
def fetchLoop (toNumber : JSString → JSNumber) (env : Nat → Attempt) (url : JSString)
    (validator : Option Validator) : Nat → Nat → Nat → List Event × FetchResult
  | 0, _, _ => ([], .outOfFuel)
  | fuel + 1, retries, issued =>
    if retries < MAX_RETRIES then
      match attemptPromise toNumber validator url (env issued) with
      | (events, .ok ipList) => (events, .resolved ipList)
      | (events, .error error) =>
        let retries := retries + 1
        if retries == MAX_RETRIES then
          (events, .thrown (exhausted error.message))
        else
          let events := events ++ [retryNotice retries url error.message, .sleep RETRY_DELAY]
          let next := fetchLoop toNumber env url validator fuel retries (issued + 1)
          (events ++ next.1, next.2)
    else ([], .undefinedResult)

/-- `fetchIPList(url, validator)`: the events of the call, in order, and its result. -/
def fetchIPList (toNumber : JSString → JSNumber) (env : Nat → Attempt) (url : JSString)
    (validator : Option Validator) : List Event × FetchResult :=
  fetchLoop toNumber env url validator (MAX_RETRIES + 1) 0 0

/-- The entry a line stands for: the line, trimmed, decodes as a record whose `cidr`
member is truthy and accepted by the validator. -/
def acceptedCidr (toNumber : JSString → JSNumber) (v : Validator) (line : JSString) :
    Option JSValue :=
  match JSON.parse toNumber (trim line) with
  | .ok (.obj members) =>
    match getKey "cidr".toList members with
    | some cidr => if cidr.truthy && (v.call cidr == .ok true) then some cidr else none
    | none => none
  | _ => none

/-- The entry a line stands for, in the words of the specification: the line, trimmed,
decodes as a record whose `cidr` member is accepted by the validator. -/
def validCidr (toNumber : JSString → JSNumber) (v : Validator) (line : JSString) :
    Option JSValue :=
  match JSON.parse toNumber (trim line) with
  | .ok (.obj members) =>
    match getKey "cidr".toList members with
    | some cidr => if v.call cidr == .ok true then some cidr else none
    | none => none
  | _ => none

/-- The falsy values `JSON.parse` can produce: `null`, `false`, the number zero (`0` and
`-0` both print as `0`) and the empty string. -/
def falsyValues : List JSValue :=
  [.null, .bool false, .num ⟨false, "0".toList⟩, .str []]

/-- A `toNumber` for closed examples: the token itself as text, truthy when it has a
non-zero digit.  It is exact on plain integer tokens below 2^53 other than `-0`. -/
def decimalNumber (token : JSString) : JSNumber :=
  ⟨token.any (fun c => inRange '1' '9' c), token⟩

/-- A `toNumber` for closed examples that is also exact on every token of value zero: a
token without a non-zero digit denotes `0` or `-0`, which is falsy and prints as `0`; any
other token is kept as its own text, which is exact on plain integer tokens below 2^53. -/
def zeroExactNumber (token : JSString) : JSNumber :=
  if token.any (fun c => inRange '1' '9' c) then ⟨true, token⟩ else ⟨false, "0".toList⟩

/-- Whether an attempt fails as a request: a transport error or a status other than 200. -/
def Attempt.fails : Attempt → Bool
  | .requestError _ => true
  | .response statusCode _ => statusCode != 200

/-- The message with which the promise of a failed request is rejected. -/
def Attempt.rejection : Attempt → JSString
  | .requestError message => "Request error: ".toList ++ message
  | .response statusCode _ => "Request failed with status ".toList ++ natText statusCode

def Event.isRequest : Event → Bool
  | .request _ => true
  | _ => false

def Event.isSleep : Event → Bool
  | .sleep _ => true
  | _ => false

/-- The characters `0-9`, `a-f`, `A-F`, `.`, `:` and `/`. -/
def isAddressChar (c : Char) : Bool := isHexChar c || c == '.' || c == ':' || c == '/'

/-- The number of occurrences of `::` in a string: the positions at which a colon is
directly followed by a colon. -/
def countDoubleColon : JSString → Nat
  | [] => 0
  | c :: rest => (if c == ':' && rest.head? == some ':' then 1 else 0) + countDoubleColon rest

/-- The entry lines of a script, without their newlines: every entry but the last is
followed by a semicolon, and each line ends in a backslash. -/
def entryLines : List JSString → List JSString
  | [] => []
  | [t] => ["\x7b \"".toList ++ t ++ "\" \x7d\\".toList]
  | t :: u :: rest => ("\x7b \"".toList ++ t ++ "\" \x7d;\\".toList) :: entryLines (u :: rest)

/-- The lines of the script for the entries with string forms `texts`, without their
newlines. -/
def scriptLines (dateTime listName commandPath : JSString) (texts : List JSString) :
    List JSString :=
  ["# Generated on ".toList ++ dateTime,
    commandPath ++ " firewall address-list remove [find list=".toList ++ listName ++ [']'],
    ":local ips \x7b \\".toList]
  ++ entryLines texts
  ++ ["\x7d;".toList,
    ":foreach ip in=$ips do=\x7b".toList,
    '\t' :: commandPath ++ " firewall address-list add list=".toList ++ listName
      ++ " address=$ip dynamic=yes timeout=1d".toList,
    "\x7d".toList,
    ":set ips".toList]

/-- The text made of the given lines, each followed by a newline. -/
def unlines (lines : List JSString) : JSString := lines.flatMap (fun l => l ++ ['\n'])

/-- Characters of the script syntax that no accepted address contains. -/
def scriptSyntaxChars : List Char :=
  ['"', '\\', ';', '$', '[', ']', '\x7b', '\x7d', ' ', '\n']

/-! ## The orchestrator -/

def IP_VERSIONS : List JSString := ["v4".toList, "v6".toList]

/-- One element of `LISTS`. -/
structure ListConfig where
  version : JSString
  url : JSString
  listName : JSString
  commandPath : JSString
  validator : Validator

/-- The callback of `IP_VERSIONS.map(...)`. -/
def listConfig (version : JSString) : ListConfig where
  version := version
  url := "https://www.spamhaus.org/drop/drop_".toList ++ version ++ ".json".toList
  listName := "spamhaus-drop-".toList ++ version
  commandPath := "/ip".toList ++ (if version == "v6".toList then "v6".toList else [])
  validator := if version == "v4".toList then isIPv4Fn else isIPv6Fn

def LISTS : List ListConfig := IP_VERSIONS.map listConfig

/-- The outside of one run: how the `n`-th request of the fetch of `url` ends, the text
`getFormattedDateTime()` returns while the list at position `index` is rendered, whether
the output directory exists, and the errors, if any, that `fs.mkdirSync` and
`fs.writeFileSync` (by path) throw.  Paths are joined the POSIX way. -/
structure World where
  net : JSString → Nat → Attempt
  now : Nat → JSString
  dirExists : Bool
  mkdirError : Option JSError
  writeError : JSString → Option JSError

/-- What a run does, in order: the events of the fetches and the lines of `console.log`
(`io`), a directory created, a call of `generateRouterOSScript`, a file written, the line
of `console.error`, and `process.exit`. -/
inductive MainEvent where
  | io (event : Event) : MainEvent
  | mkdir (dir : JSString) : MainEvent
  | render (ips : List JSValue) (listName commandPath : JSString) : MainEvent
  | writeFile (path content : JSString) : MainEvent
  | errorLog (message : JSString) : MainEvent
  | exit (code : Nat) : MainEvent

/-- How the `for` loop of `main` ends. -/
inductive LoopOutcome where
  | done : LoopOutcome
  | threw (error : JSError) : LoopOutcome
  | outOfFuel : LoopOutcome

/-- How a run ends: `main` returns, or the process exits with a code. -/
inductive RunResult where
  | completed : RunResult
  | exited (code : Nat) : RunResult
  | outOfFuel : RunResult
deriving DecidableEq

/-- The `TypeError` of reading `ipData.length` when `ipData` is `undefined`. -/
def cannotReadLength : JSError :=
  ⟨"Cannot read properties of undefined (reading 'length')".toList⟩

def fetchingNotice (list : ListConfig) : MainEvent :=
  .io (.log ("Fetching ".toList ++ list.version ++ " addresses from ".toList ++ list.url
    ++ "...".toList))

def noAddressesNotice (list : ListConfig) : MainEvent :=
  .io (.log ("No valid ".toList ++ list.version ++ " addresses found for ".toList
    ++ list.listName ++ ['.']))

def foundNotice (list : ListConfig) (count : Nat) : MainEvent :=
  .io (.log ("Found ".toList ++ natText count ++ [' '] ++ list.version
    ++ " addresses. Generating RouterOS script for ".toList ++ list.listName
    ++ "...".toList))

def savedNotice (outputFile : JSString) : MainEvent :=
  .io (.log ("Script saved to ".toList ++ outputFile))

/-- `path.join(OUTPUT_DIR, listName + '.rsc')`. -/
def outputFile (list : ListConfig) : JSString :=
  OUTPUT_DIR ++ '/' :: list.listName ++ ".rsc".toList

/-- The `for (const list of LISTS)` loop of `main`, from the list at position `index`. -/
def processLists (toNumber : JSString → JSNumber) (w : World) :
    List ListConfig → Nat → List MainEvent × LoopOutcome
  | [], _ => ([], .done)
  | list :: rest, index =>
    match fetchIPList toNumber (w.net list.url) list.url (some list.validator) with
    | (events, .outOfFuel) => (fetchingNotice list :: events.map .io, .outOfFuel)
    | (events, .thrown error) => (fetchingNotice list :: events.map .io, .threw error)
    | (events, .undefinedResult) =>
      (fetchingNotice list :: events.map .io, .threw cannotReadLength)
    | (events, .resolved ipData) =>
      if ipData.length == 0 then
        let next := processLists toNumber w rest (index + 1)
        (fetchingNotice list :: events.map .io ++ [noAddressesNotice list] ++ next.1, next.2)
      else
        match generateRouterOSScript (w.now index) ipData list.listName list.commandPath with
        | .error error =>
          (fetchingNotice list :: events.map .io
            ++ [foundNotice list ipData.length,
                .render ipData list.listName list.commandPath], .threw error)
        | .ok routerOsScript =>
          match w.writeError (outputFile list) with
          | some error =>
            (fetchingNotice list :: events.map .io
              ++ [foundNotice list ipData.length,
                  .render ipData list.listName list.commandPath], .threw error)
          | none =>
            let next := processLists toNumber w rest (index + 1)
            (fetchingNotice list :: events.map .io
              ++ [foundNotice list ipData.length,
                  .render ipData list.listName list.commandPath,
                  .writeFile (outputFile list) routerOsScript,
                  savedNotice (outputFile list)]
              ++ next.1, next.2)

/-- The start of `main`: the output directory is created when it does not exist. -/
def ensureOutputDir (w : World) : List MainEvent × Option JSError :=
  if w.dirExists then ([], none)
  else
    match w.mkdirError with
    | some error => ([], some error)
    | none => ([.mkdir OUTPUT_DIR], none)

/-- `main()`: the events of the run and how it ends.  Any error thrown inside the `try`
is reported with `console.error` and ends the process with code 1. -/
def main (toNumber : JSString → JSNumber) (w : World) : List MainEvent × RunResult :=
  match ensureOutputDir w with
  | (setup, some error) => (setup ++ [.errorLog error.message, .exit 1], .exited 1)
  | (setup, none) =>
    match processLists toNumber w LISTS 0 with
    | (events, .done) => (setup ++ events, .completed)
    | (events, .threw error) =>
      (setup ++ events ++ [.errorLog error.message, .exit 1], .exited 1)
    | (events, .outOfFuel) => (setup ++ events, .outOfFuel)

/-- The files written during a run, in order: path and content. -/
def writtenFiles : List MainEvent → List (JSString × JSString)
  | [] => []
  | .writeFile path content :: rest => (path, content) :: writtenFiles rest
  | _ :: rest => writtenFiles rest

/-- A run in which the v4 feed answers 200 with one record and every request for the v6
feed ends in a transport error. -/
def worldV6Down : World where
  net := fun url _ =>
    if url == "https://www.spamhaus.org/drop/drop_v4.json".toList then
      .response 200 "\x7b\"cidr\":\"192.0.2.0/24\"\x7d".toList
    else .requestError "down".toList
  now := fun _ => "2024-01-01 00:00:00".toList
  dirExists := false
  mkdirError := none
  writeError := fun _ => none

/-- A run in which the v4 feed answers 200 with an empty body and the v6 feed answers 200
with one record. -/
def worldV4Empty : World where
  net := fun url _ =>
    if url == "https://www.spamhaus.org/drop/drop_v4.json".toList then .response 200 []
    else .response 200 "\x7b\"cidr\":\"2001:db8::/32\"\x7d".toList
  now := fun _ => "2024-01-01 00:00:00".toList
  dirExists := true
  mkdirError := none
  writeError := fun _ => none

/-- A run in which every request for the v4 feed answers 503. -/
def worldV4Down : World where
  net := fun _ _ => .response 503 []
  now := fun _ => "2024-01-01 00:00:00".toList
  dirExists := true
  mkdirError := none
  writeError := fun _ => none

/-! # Properties -/

/-! ## Regular expressions: the words matched -/

theorem RE.mem_run (r : RE) : ∀ s t : JSString,
    t ∈ RE.run r s ↔ ∃ w, RE.Matches r w ∧ s = w ++ t := by
  induction r with
  | eps =>
    intro s t
    simp only [RE.run, List.mem_singleton, RE.Matches]
    constructor
    · intro h; exact ⟨[], rfl, by simp [h]⟩
    · rintro ⟨w, rfl, h⟩; simp [h]
  | cls p =>
    intro s t
    cases s with
    | nil =>
      simp only [RE.run, List.not_mem_nil, RE.Matches, false_iff]
      rintro ⟨w, ⟨c, rfl, _⟩, h⟩
      simp at h
    | cons c rest =>
      simp only [RE.run, RE.Matches]
      constructor
      · intro h
        by_cases hp : p c = true
        · simp only [hp, if_true, List.mem_singleton] at h
          exact ⟨[c], ⟨c, rfl, hp⟩, by simp [h]⟩
        · simp [hp] at h
      · rintro ⟨w, ⟨d, rfl, hd⟩, h⟩
        simp only [List.singleton_append, List.cons.injEq] at h
        obtain ⟨rfl, rfl⟩ := h
        simp [hd]
  | seq a b iha ihb =>
    intro s t
    simp only [RE.run, List.mem_flatMap, RE.Matches]
    constructor
    · rintro ⟨m, hm, ht⟩
      obtain ⟨u, hu, rfl⟩ := (iha _ _).1 hm
      obtain ⟨v, hv, rfl⟩ := (ihb _ _).1 ht
      exact ⟨u ++ v, ⟨u, v, rfl, hu, hv⟩, by simp⟩
    · rintro ⟨w, ⟨u, v, rfl, hu, hv⟩, rfl⟩
      refine ⟨v ++ t, (iha _ _).2 ⟨u, hu, by simp⟩, (ihb _ _).2 ⟨v, hv, rfl⟩⟩
  | alt a b iha ihb =>
    intro s t
    simp only [RE.run, List.mem_append, RE.Matches, iha, ihb]
    constructor
    · rintro (⟨w, hw, rfl⟩ | ⟨w, hw, rfl⟩)
      · exact ⟨w, Or.inl hw, rfl⟩
      · exact ⟨w, Or.inr hw, rfl⟩
    · rintro ⟨w, hw | hw, rfl⟩
      · exact Or.inl ⟨w, hw, rfl⟩
      · exact Or.inr ⟨w, hw, rfl⟩

/-- The anchored test succeeds exactly on the words the pattern matches. -/
theorem RE.test_iff (r : RE) (s : JSString) : RE.test r s = true ↔ RE.Matches r s := by
  simp only [RE.test, List.any_eq_true, List.isEmpty_iff]
  constructor
  · rintro ⟨t, ht, rfl⟩
    obtain ⟨w, hw, rfl⟩ := (RE.mem_run r _ _).1 ht
    simpa using hw
  · intro h
    exact ⟨[], (RE.mem_run r _ _).2 ⟨s, h, by simp⟩, rfl⟩

theorem RE.matches_opt (r : RE) (w : JSString) :
    RE.Matches (RE.opt r) w ↔ RE.Matches r w ∨ w = [] := by
  simp [RE.opt, RE.Matches]

theorem RE.matches_chr (c : Char) (w : JSString) : RE.Matches (RE.chr c) w ↔ w = [c] := by
  simp [RE.chr, RE.Matches]

theorem RE.matches_times (r : RE) : ∀ (n : Nat) (w : JSString),
    RE.Matches (RE.times n r) w ↔
      ∃ ws : List JSString, ws.length = n ∧ (∀ x ∈ ws, RE.Matches r x) ∧ w = ws.flatten := by
  intro n
  induction n with
  | zero =>
    intro w
    simp only [RE.times, RE.Matches]
    constructor
    · rintro rfl; exact ⟨[], rfl, by simp, rfl⟩
    · rintro ⟨ws, hl, _, rfl⟩
      rw [List.length_eq_zero] at hl
      simp [hl]
  | succ n ih =>
    intro w
    simp only [RE.times, RE.Matches, ih]
    constructor
    · rintro ⟨u, v, rfl, hu, ws, hl, hws, rfl⟩
      refine ⟨u :: ws, by simp [hl], ?_, by simp⟩
      intro x hx
      rcases List.mem_cons.1 hx with rfl | hx
      · exact hu
      · exact hws x hx
    · rintro ⟨ws, hl, hws, rfl⟩
      cases ws with
      | nil => simp at hl
      | cons u ws =>
        refine ⟨u, ws.flatten, by simp, hws u (by simp), ws, by simpa using hl, ?_, rfl⟩
        intro x hx
        exact hws x (List.mem_cons_of_mem _ hx)

theorem RE.matches_upTo (r : RE) : ∀ (n : Nat) (w : JSString),
    RE.Matches (RE.upTo n r) w ↔
      ∃ ws : List JSString, ws.length ≤ n ∧ (∀ x ∈ ws, RE.Matches r x) ∧ w = ws.flatten := by
  intro n
  induction n with
  | zero =>
    intro w
    simp only [RE.upTo, RE.Matches]
    constructor
    · rintro rfl; exact ⟨[], by simp, by simp, rfl⟩
    · rintro ⟨ws, hl, _, rfl⟩
      have : ws = [] := List.length_eq_zero.1 (Nat.le_zero.1 hl)
      simp [this]
  | succ n ih =>
    intro w
    simp only [RE.upTo, RE.matches_opt, RE.Matches, ih]
    constructor
    · rintro (⟨u, v, rfl, hu, ws, hl, hws, rfl⟩ | rfl)
      · refine ⟨u :: ws, by simp [hl], ?_, by simp⟩
        intro x hx
        rcases List.mem_cons.1 hx with rfl | hx
        · exact hu
        · exact hws x hx
      · exact ⟨[], by simp, by simp, rfl⟩
    · rintro ⟨ws, hl, hws, rfl⟩
      cases ws with
      | nil => exact Or.inr rfl
      | cons u ws =>
        refine Or.inl ⟨u, ws.flatten, by simp, hws u (by simp), ws, ?_, ?_, rfl⟩
        · simpa using hl
        · intro x hx
          exact hws x (List.mem_cons_of_mem _ hx)

theorem RE.matches_quant (r : RE) (lo hi : Nat) (h : lo ≤ hi) (w : JSString) :
    RE.Matches (RE.quant lo hi r) w ↔
      ∃ ws : List JSString, lo ≤ ws.length ∧ ws.length ≤ hi ∧ (∀ x ∈ ws, RE.Matches r x)
        ∧ w = ws.flatten := by
  simp only [RE.quant, RE.Matches, RE.matches_times, RE.matches_upTo]
  constructor
  · rintro ⟨u, v, rfl, ⟨us, hul, hus, rfl⟩, vs, hvl, hvs, rfl⟩
    refine ⟨us ++ vs, by simp [hul], by simp [hul]; omega, ?_, by simp⟩
    intro x hx
    rcases List.mem_append.1 hx with hx | hx
    · exact hus x hx
    · exact hvs x hx
  · rintro ⟨ws, hl, hh, hws, rfl⟩
    refine ⟨(ws.take lo).flatten, (ws.drop lo).flatten, ?_, ⟨ws.take lo, ?_, ?_, rfl⟩,
      ws.drop lo, ?_, ?_, rfl⟩
    · rw [← List.flatten_append, List.take_append_drop]
    · simp [hl]
    · intro x hx
      exact hws x (List.mem_of_mem_take hx)
    · simp; omega
    · intro x hx
      exact hws x (List.mem_of_mem_drop hx)

/-- A bounded repetition of a character class matches the words of a length within the
bounds all of whose characters are in the class. -/
theorem RE.matches_quant_cls (p : Char → Bool) (lo hi : Nat) (h : lo ≤ hi) (w : JSString) :
    RE.Matches (RE.quant lo hi (.cls p)) w ↔
      lo ≤ w.length ∧ w.length ≤ hi ∧ ∀ c ∈ w, p c = true := by
  rw [RE.matches_quant _ _ _ h]
  constructor
  · rintro ⟨ws, hl, hh, hws, rfl⟩
    have key : ∀ ws : List JSString, (∀ x ∈ ws, RE.Matches (.cls p) x) →
        ws.flatten.length = ws.length ∧ ∀ c ∈ ws.flatten, p c = true := by
      intro ws
      induction ws with
      | nil => intro _; simp
      | cons x xs ih =>
        intro hx
        obtain ⟨c, rfl, hc⟩ := hx x (by simp)
        obtain ⟨h1, h2⟩ := ih (fun y hy => hx y (List.mem_cons_of_mem _ hy))
        refine ⟨by simp [h1], ?_⟩
        intro d hd
        simp only [List.flatten_cons, List.singleton_append, List.mem_cons] at hd
        rcases hd with rfl | hd
        · exact hc
        · exact h2 d hd
    obtain ⟨h1, h2⟩ := key ws hws
    exact ⟨by omega, by omega, h2⟩
  · rintro ⟨hl, hh, hw⟩
    refine ⟨w.map (fun c => [c]), by simpa using hl, by simpa using hh, ?_, ?_⟩
    · intro x hx
      obtain ⟨c, hc, rfl⟩ := List.mem_map.1 hx
      exact ⟨c, rfl, hw c hc⟩
    · clear hl hh hw
      induction w with
      | nil => rfl
      | cons c w ih => simp [← ih]

/-! ## The validators: accepted strings -/

theorem char_eq_iff_toNat (c d : Char) : c = d ↔ c.toNat = d.toNat := by
  constructor
  · intro h; rw [h]
  · intro h; rw [← Char.ofNat_toNat c, ← Char.ofNat_toNat d, h]

theorem matches_octetRE (w : JSString) : RE.Matches octetRE w ↔ IsOctet w := by
  simp only [octetRE, digit, RE.Matches, RE.matches_opt, RE.matches_chr]
  constructor
  · rintro (⟨_, _, rfl, ⟨a, rfl, ha⟩, _, _, rfl, ⟨b, rfl, hb⟩, c, rfl, hc⟩
      | ⟨_, _, rfl, ⟨a, rfl, ha⟩, _, _, rfl, ⟨b, rfl, hb⟩, c, rfl, hc⟩
      | ⟨_, _, rfl, (⟨a, rfl, ha⟩ | rfl), _, _, rfl, ⟨b, rfl, hb⟩, (⟨c, rfl, hc⟩ | rfl)⟩)
    all_goals
      try simp only [Bool.or_eq_true, beq_iff_eq, char_eq_iff_toNat] at *
      simp [IsOctet, inRange, decimalValue] at *
      omega
  · rintro ⟨h1, h3, hd, hv⟩
    match w, h1, h3, hd, hv with
    | [a], _, _, hd, _ =>
      exact Or.inr (Or.inr ⟨[], [a], rfl, Or.inr rfl, [a], [], rfl, ⟨a, rfl, hd a (by simp)⟩,
        Or.inr rfl⟩)
    | [a, b], _, _, hd, _ =>
      exact Or.inr (Or.inr ⟨[], [a, b], rfl, Or.inr rfl, [a], [b], rfl,
        ⟨a, rfl, hd a (by simp)⟩, Or.inl ⟨b, rfl, hd b (by simp)⟩⟩)
    | [a, b, c], _, _, hd, hv =>
      have ha := hd a (by simp)
      have hb := hd b (by simp)
      have hc := hd c (by simp)
      simp [inRange] at ha hb hc
      simp [decimalValue] at hv
      by_cases h01 : a.toNat ≤ 49
      · refine Or.inr (Or.inr ⟨[a], [b, c], rfl, Or.inl ⟨a, rfl, ?_⟩, [b], [c], rfl,
          ⟨b, rfl, hd b (by simp)⟩, Or.inl ⟨c, rfl, hd c (by simp)⟩⟩)
        simp only [Bool.or_eq_true, beq_iff_eq, char_eq_iff_toNat]
        simp
        omega
      · have ha2 : a = '2' := by
          rw [char_eq_iff_toNat]; simp; omega
        by_cases h4 : b.toNat ≤ 52
        · refine Or.inr (Or.inl ⟨[a], [b, c], rfl, ⟨a, rfl, by simp [ha2]⟩, [b], [c], rfl,
            ⟨b, rfl, ?_⟩, c, rfl, hd c (by simp)⟩)
          simp [inRange]; omega
        · have hb5 : b = '5' := by
            rw [char_eq_iff_toNat]; simp; omega
          refine Or.inl ⟨[a], [b, c], rfl, ⟨a, rfl, by simp [ha2]⟩, [b], [c], rfl,
            ⟨b, rfl, by simp [hb5]⟩, c, rfl, ?_⟩
          simp [inRange]; omega

theorem matches_suffix (n : Nat) (hn : 1 ≤ n) (w : JSString) :
    RE.Matches (RE.opt (.seq (.chr '/') (RE.quant 1 n digit))) w ↔ IsCidrSuffix n w := by
  rw [RE.matches_opt]
  unfold IsCidrSuffix digit
  constructor
  · rintro (⟨u, v, rfl, hu, hv⟩ | rfl)
    · rw [RE.matches_chr] at hu
      rw [RE.matches_quant_cls _ _ _ hn] at hv
      subst hu
      exact Or.inr ⟨v, rfl, hv⟩
    · exact Or.inl rfl
  · rintro (rfl | ⟨ds, rfl, hds⟩)
    · exact Or.inr rfl
    · exact Or.inl ⟨['/'], ds, rfl, (RE.matches_chr _ _).2 rfl,
        (RE.matches_quant_cls _ _ _ hn _).2 hds⟩

theorem matches_ipv4RE (s : JSString) :
    RE.Matches ipv4RE s ↔
      ∃ o1 o2 o3 o4 suffix : JSString,
        s = o1 ++ '.' :: (o2 ++ '.' :: (o3 ++ '.' :: (o4 ++ suffix)))
        ∧ IsOctet o1 ∧ IsOctet o2 ∧ IsOctet o3 ∧ IsOctet o4 ∧ IsCidrSuffix 2 suffix := by
  unfold ipv4RE
  simp only [RE.times]
  constructor
  · intro h
    obtain ⟨u, v, rfl, h3, o4, suf, rfl, ho4, hsuf⟩ := h
    obtain ⟨_, r1, rfl, ⟨o1, _, rfl, ho1, hd1⟩, _, r2, rfl, ⟨o2, _, rfl, ho2, hd2⟩,
      _, r3, rfl, ⟨o3, _, rfl, ho3, hd3⟩, rfl⟩ := h3
    rw [RE.matches_chr] at hd1 hd2 hd3
    subst hd1 hd2 hd3
    refine ⟨o1, o2, o3, o4, suf, by simp, (matches_octetRE _).1 ho1, (matches_octetRE _).1 ho2,
      (matches_octetRE _).1 ho3, (matches_octetRE _).1 ho4, (matches_suffix 2 (by decide) _).1 hsuf⟩
  · rintro ⟨o1, o2, o3, o4, suf, rfl, h1, h2, h3, h4, hs⟩
    refine ⟨o1 ++ '.' :: (o2 ++ '.' :: (o3 ++ ['.'])), o4 ++ suf, by simp, ?_, o4, suf, rfl,
      (matches_octetRE _).2 h4, (matches_suffix 2 (by decide) _).2 hs⟩
    refine ⟨o1 ++ ['.'], o2 ++ '.' :: (o3 ++ ['.']), by simp,
      ⟨o1, ['.'], rfl, (matches_octetRE _).2 h1, (RE.matches_chr _ _).2 rfl⟩, ?_⟩
    refine ⟨o2 ++ ['.'], o3 ++ ['.'], by simp,
      ⟨o2, ['.'], rfl, (matches_octetRE _).2 h2, (RE.matches_chr _ _).2 rfl⟩, ?_⟩
    exact ⟨o3 ++ ['.'], [], by simp,
      ⟨o3, ['.'], rfl, (matches_octetRE _).2 h3, (RE.matches_chr _ _).2 rfl⟩, rfl⟩

theorem matches_hexGroup (g : JSString) :
    RE.Matches (RE.quant 1 4 hexDigit) g ↔ IsHexGroup g := by
  unfold hexDigit
  rw [RE.matches_quant_cls _ _ _ (by decide)]
  rfl

theorem matches_groupColon (x : JSString) :
    RE.Matches (.seq (RE.quant 1 4 hexDigit) (.chr ':')) x ↔
      ∃ g, x = g ++ [':'] ∧ IsHexGroup g := by
  constructor
  · rintro ⟨g, c, rfl, hg, hc⟩
    rw [RE.matches_chr] at hc
    subst hc
    exact ⟨g, rfl, (matches_hexGroup g).1 hg⟩
  · rintro ⟨g, rfl, hg⟩
    exact ⟨g, [':'], rfl, (matches_hexGroup g).2 hg, (RE.matches_chr _ _).2 rfl⟩

theorem exists_groups (ws : List JSString)
    (h : ∀ x ∈ ws, ∃ g, x = g ++ [':'] ∧ IsHexGroup g) :
    ∃ gs : List JSString, gs.length = ws.length ∧ (∀ g ∈ gs, IsHexGroup g)
      ∧ ws.flatten = colonGroups gs := by
  induction ws with
  | nil => exact ⟨[], rfl, by simp, rfl⟩
  | cons x xs ih =>
    obtain ⟨g, rfl, hg⟩ := h x (by simp)
    obtain ⟨gs, hl, hgs, hf⟩ := ih (fun y hy => h y (List.mem_cons_of_mem _ hy))
    refine ⟨g :: gs, by simp [hl], ?_, by simp [colonGroups, hf]⟩
    intro y hy
    rcases List.mem_cons.1 hy with rfl | hy
    · exact hg
    · exact hgs y hy

theorem matches_ipv6RE (s : JSString) :
    RE.Matches ipv6RE s ↔
      ∃ (gs : List JSString) (last suffix : JSString),
        s = colonGroups gs ++ ':' :: (last ++ suffix)
        ∧ 1 ≤ gs.length ∧ gs.length ≤ 7 ∧ (∀ g ∈ gs, IsHexGroup g)
        ∧ (IsHexGroup last ∨ last = []) ∧ IsCidrSuffix 3 suffix := by
  unfold ipv6RE
  constructor
  · rintro ⟨u, v, rfl, hu, t, suf, rfl, ht, hsuf⟩
    rw [RE.matches_quant _ _ _ (by decide)] at hu
    obtain ⟨ws, h1, h7, hws, rfl⟩ := hu
    obtain ⟨gs, hl, hgs, hf⟩ := exists_groups ws (fun x hx => (matches_groupColon x).1 (hws x hx))
    rw [matches_suffix 3 (by decide)] at hsuf
    rcases ht with ⟨c, g, rfl, hc, hg⟩ | hc
    · rw [RE.matches_chr] at hc
      subst hc
      exact ⟨gs, g, suf, by simp [hf], by omega, by omega, hgs,
        Or.inl ((matches_hexGroup g).1 hg), hsuf⟩
    · rw [RE.matches_chr] at hc
      subst hc
      exact ⟨gs, [], suf, by simp [hf], by omega, by omega, hgs, Or.inr rfl, hsuf⟩
  · rintro ⟨gs, last, suf, rfl, h1, h7, hgs, hlast, hsuf⟩
    refine ⟨colonGroups gs, ':' :: (last ++ suf), rfl, ?_, ':' :: last, suf, by simp, ?_,
      (matches_suffix 3 (by decide) _).2 hsuf⟩
    · rw [RE.matches_quant _ _ _ (by decide)]
      refine ⟨gs.map (fun g => g ++ [':']), by simpa using h1, by simpa using h7, ?_, rfl⟩
      intro x hx
      obtain ⟨g, hg, rfl⟩ := List.mem_map.1 hx
      exact (matches_groupColon _).2 ⟨g, rfl, hgs g hg⟩
    · rcases hlast with hg | rfl
      · exact Or.inl ⟨[':'], last, rfl, (RE.matches_chr _ _).2 rfl, (matches_hexGroup _).2 hg⟩
      · exact Or.inr ((RE.matches_chr _ _).2 rfl)

/-- A word is split in only one way around the first occurrence of a separator. -/
theorem split_unique (sep : Char) : ∀ (a b x y : JSString), sep ∉ a → sep ∉ b →
    a ++ sep :: x = b ++ sep :: y → a = b ∧ x = y := by
  intro a
  induction a with
  | nil =>
    intro b x y _ hb h
    cases b with
    | nil => simpa using h
    | cons c b =>
      simp only [List.nil_append, List.cons_append, List.cons.injEq] at h
      exact absurd (by simp [h.1]) hb
  | cons d a ih =>
    intro b x y ha hb h
    cases b with
    | nil =>
      simp only [List.nil_append, List.cons_append, List.cons.injEq] at h
      exact absurd (by simp [h.1]) ha
    | cons c b =>
      simp only [List.cons_append, List.cons.injEq] at h
      obtain ⟨rfl, h⟩ := h
      obtain ⟨rfl, rfl⟩ := ih b x y (fun hm => ha (List.mem_cons_of_mem _ hm))
        (fun hm => hb (List.mem_cons_of_mem _ hm)) h
      exact ⟨rfl, rfl⟩

theorem colon_not_mem_hexGroup {g : JSString} (hg : IsHexGroup g) : ':' ∉ g := by
  intro h
  have := hg.2.2 ':' h
  revert this
  decide

theorem mem_colonGroups {gs : List JSString} (hgs : ∀ g ∈ gs, IsHexGroup g) :
    ∀ c ∈ colonGroups gs, isHexChar c = true ∨ c = ':' := by
  induction gs with
  | nil => intro c hc; simp [colonGroups] at hc
  | cons g gs ih =>
    intro c hc
    simp only [colonGroups, List.map_cons, List.flatten_cons, List.mem_append,
      List.mem_singleton] at hc
    rcases hc with (hc | hc) | hc
    · exact Or.inl ((hgs g (by simp)).2.2 c hc)
    · exact Or.inr hc
    · exact ih (fun y hy => hgs y (List.mem_cons_of_mem _ hy)) c hc

/-- More leading groups than the pattern consumed cannot be followed by its `:`. -/
theorem groups_prefix_conflict : ∀ (gs' gs : List JSString) (rest rest' : JSString),
    (∀ g ∈ gs, IsHexGroup g) → (∀ g ∈ gs', IsHexGroup g) → gs'.length < gs.length →
    colonGroups gs ++ rest ≠ colonGroups gs' ++ ':' :: rest' := by
  intro gs'
  induction gs' with
  | nil =>
    intro gs rest rest' hgs _ hlen h
    cases gs with
    | nil => simp at hlen
    | cons g gs =>
      have hg := hgs g (by simp)
      cases g with
      | nil => exact absurd hg.1 (by simp)
      | cons c g =>
        simp only [colonGroups, List.map_cons, List.flatten_cons, List.cons_append,
          List.map_nil, List.flatten_nil, List.nil_append, List.cons.injEq] at h
        exact colon_not_mem_hexGroup hg (by simp [h.1])
  | cons g' gs' ih =>
    intro gs rest rest' hgs hgs' hlen h
    cases gs with
    | nil => simp at hlen
    | cons g gs =>
      simp only [colonGroups, List.map_cons, List.flatten_cons, List.append_assoc,
        List.singleton_append] at h
      obtain ⟨_, h⟩ := split_unique ':' _ _ _ _ (colon_not_mem_hexGroup (hgs g (by simp)))
        (colon_not_mem_hexGroup (hgs' g' (by simp))) h
      exact ih gs rest rest' (fun y hy => hgs y (List.mem_cons_of_mem _ hy))
        (fun y hy => hgs' y (List.mem_cons_of_mem _ hy)) (by simpa using hlen) h

theorem isIPv6_eight_groups (gs : List JSString) (rest : JSString) (h8 : 8 ≤ gs.length)
    (hgs : ∀ g ∈ gs, IsHexGroup g) : isIPv6 (colonGroups gs ++ rest) = false := by
  rw [Bool.eq_false_iff]
  intro h
  rw [isIPv6, RE.test_iff, matches_ipv6RE] at h
  obtain ⟨gs', last, suf, heq, _, h7, hgs', _, _⟩ := h
  exact groups_prefix_conflict gs' gs rest _ hgs hgs' (by omega) heq

theorem isIPv6_long_suffix (t ds : JSString) (h4 : 4 ≤ ds.length)
    (hds : ∀ c ∈ ds, inRange '0' '9' c = true) : isIPv6 (t ++ '/' :: ds) = false := by
  rw [Bool.eq_false_iff]
  intro h
  rw [isIPv6, RE.test_iff, matches_ipv6RE] at h
  obtain ⟨gs, last, suf, heq, _, _, hgs, hlast, hsuf⟩ := h
  have hcore : '/' ∉ colonGroups gs ++ ':' :: last := by
    intro hm
    rcases List.mem_append.1 hm with hm | hm
    · rcases mem_colonGroups hgs _ hm with hc | hc
      · revert hc; decide
      · revert hc; decide
    · rcases List.mem_cons.1 hm with hc | hm
      · revert hc; decide
      · rcases hlast with hl | rfl
        · have := hl.2.2 _ hm
          revert this; decide
        · simp at hm
  have hnd : ∀ w : JSString, (∀ c ∈ w, inRange '0' '9' c = true) → '/' ∉ w.reverse := by
    intro w hw hm
    have := hw _ (List.mem_reverse.1 hm)
    revert this; decide
  rcases hsuf with rfl | ⟨ds', rfl, _, h3, hds'⟩
  · apply hcore
    have : '/' ∈ t ++ '/' :: ds := by simp
    rw [heq] at this
    simpa using this
  · have hrev := congrArg List.reverse heq
    simp only [List.reverse_append, List.reverse_cons, List.append_assoc,
      List.singleton_append] at hrev
    have := (split_unique '/' _ _ _ _ (hnd ds hds) (hnd ds' hds') hrev).1
    have hl := congrArg List.length this
    simp at hl
    omega

/-- C3: `isIPv4(s)` is true exactly when `s` is `o1.o2.o3.o4`, optionally followed by `/`
and one or two decimal digits, each `oi` being one to three decimal digits of value 0 to
255 (leading zeros allowed); `001.02.3.4` and `1.2.3.4/99` are accepted, while
`256.1.1.1`, `1.2.3`, `1.2.3.4.5`, `1.2.3.4/100` and `1.2.3.4x` are rejected. -/
theorem isIPv4_accepts_iff :
    (∀ s : JSString, isIPv4 s = true ↔
      ∃ o1 o2 o3 o4 suffix : JSString,
        s = o1 ++ '.' :: (o2 ++ '.' :: (o3 ++ '.' :: (o4 ++ suffix)))
        ∧ IsOctet o1 ∧ IsOctet o2 ∧ IsOctet o3 ∧ IsOctet o4 ∧ IsCidrSuffix 2 suffix)
    ∧ isIPv4 "001.02.3.4".toList = true
    ∧ isIPv4 "1.2.3.4/99".toList = true
    ∧ isIPv4 "256.1.1.1".toList = false
    ∧ isIPv4 "1.2.3".toList = false
    ∧ isIPv4 "1.2.3.4.5".toList = false
    ∧ isIPv4 "1.2.3.4/100".toList = false
    ∧ isIPv4 "1.2.3.4x".toList = false := by
  refine ⟨fun s => ?_, by decide, by decide, by decide, by decide, by decide, by decide,
    by decide⟩
  rw [isIPv4, RE.test_iff, matches_ipv4RE]

/-- C4: `isIPv6(s)` is true exactly when `s` is one to seven groups of one to four
hexadecimal digits each followed by `:`, then `:` followed by one such group or a bare
`:`, optionally followed by `/` and one to three decimal digits; `2001:db8::`,
`2001:db8::1` and `2001:db8::/32` are accepted, and every string with eight leading
groups or ending in a suffix of four digits is rejected. -/
theorem isIPv6_accepts_iff :
    (∀ s : JSString, isIPv6 s = true ↔
      ∃ (gs : List JSString) (last suffix : JSString),
        s = colonGroups gs ++ ':' :: (last ++ suffix)
        ∧ 1 ≤ gs.length ∧ gs.length ≤ 7 ∧ (∀ g ∈ gs, IsHexGroup g)
        ∧ (IsHexGroup last ∨ last = []) ∧ IsCidrSuffix 3 suffix)
    ∧ isIPv6 "2001:db8::".toList = true
    ∧ isIPv6 "2001:db8::1".toList = true
    ∧ isIPv6 "2001:db8::/32".toList = true
    ∧ (∀ (gs : List JSString) (rest : JSString), gs.length = 8 → (∀ g ∈ gs, IsHexGroup g) →
        isIPv6 (colonGroups gs ++ rest) = false)
    ∧ (∀ (t ds : JSString), ds.length = 4 → (∀ c ∈ ds, inRange '0' '9' c = true) →
        isIPv6 (t ++ '/' :: ds) = false) := by
  refine ⟨fun s => ?_, by decide, by decide, by decide, ?_, ?_⟩
  · rw [isIPv6, RE.test_iff, matches_ipv6RE]
  · intro gs rest h8 hgs
    exact isIPv6_eight_groups gs rest (by omega) hgs
  · intro t ds h4 hds
    exact isIPv6_long_suffix t ds (by omega) hds

/-- An instance of the two rejections of C4: eight leading groups, and a four-digit
suffix. -/
theorem isIPv6_accepts_iff_witness :
    isIPv6 "1:2:3:4:5:6:7:8::".toList = false ∧ isIPv6 "2001:db8::/1234".toList = false :=
  ⟨isIPv6_accepts_iff.2.2.2.2.1
      [['1'], ['2'], ['3'], ['4'], ['5'], ['6'], ['7'], ['8']] [':', ':'] (by decide)
      (by decide),
    isIPv6_accepts_iff.2.2.2.2.2 "2001:db8::".toList "1234".toList (by decide) (by decide)⟩

/-! ## Renderer: the exact text -/

/-- The loop over a sequence of string entries that ends in `last`, started at index
`i` with `i + es.length + 1 = ips.length`: every entry but the last gets a semicolon. -/
theorem forEachIp_strings (es : List JSString) (last : JSString) (i : Nat)
    (script : JSString) :
    forEachIp (i + es.length + 1) ((es ++ [last]).map JSValue.str) i script
      = .ok (script
          ++ (es.map (fun e => "\x7b \"".toList ++ e ++ "\" \x7d;\\\n".toList)).flatten
          ++ ("\x7b \"".toList ++ last ++ "\" \x7d\\\n".toList)) := by
  induction es generalizing i script with
  | nil =>
    simp [forEachIp, toStringJS]
  | cons e es ih =>
    have h : i + (e :: es).length + 1 = (i + 1) + es.length + 1 := by
      simp only [List.length_cons]; omega
    rw [h]
    simp only [List.cons_append, List.map_cons, forEachIp, toStringJS]
    have hlt : i < i + 1 + es.length + 1 - 1 := by omega
    simp only [hlt, if_true, List.append_eq]
    rw [ih]
    simp [List.append_assoc]

set_option maxRecDepth 8000 in
/-- C1: for a non-empty sequence of string entries `es ++ [last]`, a list name `L`, a
command path `P` and a generation timestamp `T`, `generateRouterOSScript` returns exactly
the timestamp line, the remove line, the opening of the array, one line per entry in
input order (a semicolon after every entry but the last, a backslash after each), and
the five closing lines, each ended by one newline; for the two entries of scenario C
the first entry line ends in `;\` and the second only in `\`. -/
theorem generateRouterOSScript_exact_text :
    (∀ (T L P : JSString) (es : List JSString) (last : JSString),
      generateRouterOSScript T ((es ++ [last]).map JSValue.str) L P
        = .ok ("# Generated on ".toList ++ T ++ "\n".toList
            ++ P ++ " firewall address-list remove [find list=".toList ++ L ++ "]\n".toList
            ++ ":local ips \x7b \\\n".toList
            ++ (es.map (fun e => "\x7b \"".toList ++ e ++ "\" \x7d;\\\n".toList)).flatten
            ++ ("\x7b \"".toList ++ last ++ "\" \x7d\\\n".toList)
            ++ "\x7d;\n".toList
            ++ ":foreach ip in=$ips do=\x7b\n".toList
            ++ "\t".toList ++ P ++ " firewall address-list add list=".toList ++ L
            ++ " address=$ip dynamic=yes timeout=1d\n".toList
            ++ "\x7d\n".toList
            ++ ":set ips\n".toList))
    ∧ (∀ T : JSString,
      generateRouterOSScript T
          [.str "203.0.113.0/24".toList, .str "203.0.113.128/25".toList]
          "spamhaus-drop-v4".toList "/ip".toList
        = .ok ("# Generated on ".toList ++ T ++ "\n".toList
            ++ "/ip firewall address-list remove [find list=spamhaus-drop-v4]\n".toList
            ++ ":local ips \x7b \\\n".toList
            ++ "\x7b \"203.0.113.0/24\" \x7d;\\\n".toList
            ++ "\x7b \"203.0.113.128/25\" \x7d\\\n".toList
            ++ "\x7d;\n".toList
            ++ ":foreach ip in=$ips do=\x7b\n".toList
            ++ "\t/ip firewall address-list add list=spamhaus-drop-v4 address=$ip dynamic=yes timeout=1d\n".toList
            ++ "\x7d\n".toList
            ++ ":set ips\n".toList)) := by
  have general : ∀ (T L P : JSString) (es : List JSString) (last : JSString),
      generateRouterOSScript T ((es ++ [last]).map JSValue.str) L P
        = .ok ("# Generated on ".toList ++ T ++ "\n".toList
            ++ P ++ " firewall address-list remove [find list=".toList ++ L ++ "]\n".toList
            ++ ":local ips \x7b \\\n".toList
            ++ (es.map (fun e => "\x7b \"".toList ++ e ++ "\" \x7d;\\\n".toList)).flatten
            ++ ("\x7b \"".toList ++ last ++ "\" \x7d\\\n".toList)
            ++ "\x7d;\n".toList
            ++ ":foreach ip in=$ips do=\x7b\n".toList
            ++ "\t".toList ++ P ++ " firewall address-list add list=".toList ++ L
            ++ " address=$ip dynamic=yes timeout=1d\n".toList
            ++ "\x7d\n".toList
            ++ ":set ips\n".toList) := by
    intro T L P es last
    have hlen : ((es ++ [last]).map JSValue.str).length = 0 + es.length + 1 := by simp
    simp only [generateRouterOSScript, hlen, forEachIp_strings]
    have ht : " address=$ip dynamic=yes timeout=1d\n".toList
        = " address=$ip dynamic=yes timeout=".toList ++ (natText TIMEOUT ++ "d\n".toList) := by
      decide
    have hn : "\n".toList = ['\n'] := rfl
    have htab : "\t".toList = ['\t'] := rfl
    simp only [ht, hn, htab, List.append_assoc, List.cons_append, List.nil_append]
  refine ⟨general, ?_⟩
  intro T
  have h := general T "spamhaus-drop-v4".toList "/ip".toList ["203.0.113.0/24".toList]
    "203.0.113.128/25".toList
  simp only [List.cons_append, List.nil_append, List.map_cons, List.map_nil] at h
  rw [h]
  refine congrArg Except.ok ?_
  simp only [List.append_assoc, List.flatten_cons, List.flatten_nil, List.append_nil]
  refine congrArg (fun t => "# Generated on ".toList ++ (T ++ t)) ?_
  decide

/-! ## `JSON.parse`: the step budget suffices -/

theorem skipWs_length (s : JSString) : (skipWs s).length ≤ s.length := by
  unfold skipWs
  exact (List.dropWhile_suffix _).length_le

theorem parseChars_length : ∀ (s out rest : JSString),
    parseChars s = some (out, rest) → rest.length < s.length := by
  intro s
  induction s using parseChars.induct with
  | case1 => intro out rest h; simp [parseChars] at h
  | case2 rest0 =>
    intro out rest h
    simp only [parseChars, Option.some.injEq, Prod.mk.injEq] at h
    obtain ⟨_, rfl⟩ := h
    simp
  | case3 a b c d e f g h rest0 hn =>
    intro out rest hh
    simp [parseChars, hn] at hh
  | case4 a b c d e f g h rest0 hi hhi lo hlo hsur ih =>
    intro out rest hh
    simp only [parseChars, hhi, hlo, hsur, and_self, if_true, Option.map_eq_some'] at hh
    obtain ⟨⟨o, r⟩, hr, heq⟩ := hh
    simp only [Prod.mk.injEq] at heq
    obtain ⟨_, rfl⟩ := heq
    have := ih o r hr
    simp only [List.length_cons]
    omega
  | case5 a b c d e f g h rest0 hi hhi lo hlo hsur ih =>
    intro out rest hh
    simp only [parseChars, hhi, hlo, hsur, if_false, Option.map_eq_some'] at hh
    obtain ⟨⟨o, r⟩, hr, heq⟩ := hh
    simp only [Prod.mk.injEq] at heq
    obtain ⟨_, rfl⟩ := heq
    have := ih o r hr
    simp only [List.length_cons] at this ⊢
    omega
  | case6 a b c d e f g h rest0 hi hhi hlo ih =>
    intro out rest hh
    simp only [parseChars, hhi, hlo, Option.map_eq_some'] at hh
    obtain ⟨⟨o, r⟩, hr, heq⟩ := hh
    simp only [Prod.mk.injEq] at heq
    obtain ⟨_, rfl⟩ := heq
    have := ih o r hr
    simp only [List.length_cons] at this ⊢
    omega
  | case7 a b c d rest0 hne hn =>
    intro out rest hh
    rw [parseChars] at hh
    · simp [hn] at hh
    · exact hne
  | case8 a b c d rest0 hne hi hhi ih =>
    intro out rest hh
    rw [parseChars] at hh
    · simp only [hhi, Option.map_eq_some'] at hh
      obtain ⟨⟨o, r⟩, hr, heq⟩ := hh
      simp only [Prod.mk.injEq] at heq
      obtain ⟨_, rfl⟩ := heq
      have := ih o r hr
      simp only [List.length_cons]
      omega
    · exact hne
  | case9 e rest0 h1 h2 hp =>
    intro out rest hh
    rw [parseChars] at hh
    · simp [hp] at hh
    · exact h1
    · exact h2
  | case10 e rest0 h1 h2 ch hp ih =>
    intro out rest hh
    rw [parseChars] at hh
    · simp only [hp, Option.map_eq_some'] at hh
      obtain ⟨⟨o, r⟩, hr, heq⟩ := hh
      simp only [Prod.mk.injEq] at heq
      obtain ⟨_, rfl⟩ := heq
      have := ih o r hr
      simp only [List.length_cons]
      omega
    · exact h1
    · exact h2
  | case11 c rest0 h1 h2 h3 h4 hc =>
    intro out rest hh
    rw [parseChars] at hh
    · simp [hc] at hh
    · exact h1
    · exact h2
    · exact h3
    · exact h4
  | case12 c rest0 h1 h2 h3 h4 hc ih =>
    intro out rest hh
    rw [parseChars] at hh
    · simp only [hc, if_false, Option.map_eq_some'] at hh
      obtain ⟨⟨o, r⟩, hr, heq⟩ := hh
      simp only [Prod.mk.injEq] at heq
      obtain ⟨_, rfl⟩ := heq
      have := ih o r hr
      simp only [List.length_cons]
      omega
    · exact h1
    · exact h2
    · exact h3
    · exact h4

theorem scanDigits_length (s ds rest : JSString) (h : scanDigits s = some (ds, rest)) :
    rest.length ≤ s.length := by
  unfold scanDigits at h
  split at h
  · simp at h
  · simp only [Option.some.injEq, Prod.mk.injEq] at h
    obtain ⟨_, rfl⟩ := h
    exact (List.dropWhile_suffix _).length_le

theorem scanInt_length (s ds rest : JSString) (h : scanInt s = some (ds, rest)) :
    rest.length < s.length := by
  cases s with
  | nil => simp [scanInt] at h
  | cons c t =>
    simp only [scanInt] at h
    split at h
    · simp only [Option.some.injEq, Prod.mk.injEq] at h
      obtain ⟨_, rfl⟩ := h
      simp
    · split at h
      · simp only [Option.some.injEq, Prod.mk.injEq] at h
        obtain ⟨_, rfl⟩ := h
        have := (List.dropWhile_suffix (l := t) isDigitChar).length_le
        simp only [List.length_cons]
        omega
      · simp at h

theorem scanFrac_length (s ds rest : JSString) (h : scanFrac s = some (ds, rest)) :
    rest.length ≤ s.length := by
  unfold scanFrac at h
  split at h
  · simp only [Option.map_eq_some'] at h
    obtain ⟨⟨o, r⟩, hr, heq⟩ := h
    simp only [Prod.mk.injEq] at heq
    obtain ⟨_, rfl⟩ := heq
    have := scanDigits_length _ _ _ hr
    simp only [List.length_cons]
    omega
  · simp only [Option.some.injEq, Prod.mk.injEq] at h
    obtain ⟨_, rfl⟩ := h
    exact Nat.le_refl _

theorem scanExp_length (s ds rest : JSString) (h : scanExp s = some (ds, rest)) :
    rest.length ≤ s.length := by
  cases s with
  | nil =>
    simp only [scanExp, Option.some.injEq, Prod.mk.injEq] at h
    obtain ⟨_, rfl⟩ := h
    exact Nat.le_refl _
  | cons e t =>
    simp only [scanExp] at h
    split at h
    · cases t with
      | nil => simp at h
      | cons sign t' =>
        simp only at h
        split at h
        · simp only [Option.map_eq_some'] at h
          obtain ⟨⟨o, r⟩, hr, heq⟩ := h
          simp only [Prod.mk.injEq] at heq
          obtain ⟨_, rfl⟩ := heq
          have := scanDigits_length _ _ _ hr
          simp only [List.length_cons]
          omega
        · simp only [Option.map_eq_some'] at h
          obtain ⟨⟨o, r⟩, hr, heq⟩ := h
          simp only [Prod.mk.injEq] at heq
          obtain ⟨_, rfl⟩ := heq
          have := scanDigits_length _ _ _ hr
          simp only [List.length_cons] at this ⊢
          omega
    · simp only [Option.some.injEq, Prod.mk.injEq] at h
      obtain ⟨_, rfl⟩ := h
      exact Nat.le_refl _

theorem scanSign_length (s : JSString) : (scanSign s).2.length ≤ s.length := by
  unfold scanSign
  split
  · simp
  · exact Nat.le_refl _

theorem scanNumber_length (s tok rest : JSString) (h : scanNumber s = some (tok, rest)) :
    rest.length < s.length := by
  unfold scanNumber at h
  split at h
  · simp at h
  · rename_i int r1 hint
    split at h
    · simp at h
    · rename_i frac r2 hfrac
      split at h
      · simp at h
      · rename_i exp r3 hexp
        simp only [Option.some.injEq, Prod.mk.injEq] at h
        obtain ⟨_, rfl⟩ := h
        have h1 := scanInt_length _ _ _ hint
        have h2 := scanFrac_length _ _ _ hfrac
        have h3 := scanExp_length _ _ _ hexp
        have h0 := scanSign_length s
        omega

theorem takeLiteral_length : ∀ (lit s rest : JSString), lit ≠ [] →
    takeLiteral lit s = some rest → rest.length < s.length := by
  intro lit
  induction lit with
  | nil => intro s rest h; exact absurd rfl h
  | cons l lit ih =>
    intro s rest _ h
    cases s with
    | nil => simp [takeLiteral] at h
    | cons c s =>
      simp only [takeLiteral] at h
      split at h
      · cases lit with
        | nil =>
          simp only [takeLiteral, Option.some.injEq] at h
          subst h
          simp
        | cons l' lit' =>
          have := ih s rest (by simp) h
          simp only [List.length_cons]
          omega
      · simp at h

theorem parse_length (toNumber : JSString → JSNumber) : ∀ fuel : Nat,
    (∀ s v r, parseValue toNumber fuel s = .ok v r → r.length < s.length)
    ∧ (∀ s acc v r, parseElements toNumber fuel s acc = .ok v r → r.length < s.length)
    ∧ (∀ s acc v r, parseMembers toNumber fuel s acc = .ok v r → r.length < s.length) := by
  intro fuel
  induction fuel with
  | zero =>
    refine ⟨?_, ?_, ?_⟩
    · intro s v r h; simp [parseValue] at h
    · intro s acc v r h; simp [parseElements] at h
    · intro s acc v r h; simp [parseMembers] at h
  | succ fuel ih =>
    obtain ⟨ihv, ihe, ihm⟩ := ih
    refine ⟨?_, ?_, ?_⟩
    · intro s v r h
      cases s with
      | nil => simp [parseValue] at h
      | cons c rest =>
        simp only [parseValue] at h
        split at h
        · have hw := skipWs_length rest
          split at h
          · rename_i rest' heq
            simp only [Res.ok.injEq] at h
            obtain ⟨_, rfl⟩ := h
            rw [heq] at hw
            simp only [List.length_cons] at hw ⊢
            omega
          · have := ihm _ _ _ _ h
            simp only [List.length_cons]
            omega
        · split at h
          · have hw := skipWs_length rest
            split at h
            · rename_i rest' heq
              simp only [Res.ok.injEq] at h
              obtain ⟨_, rfl⟩ := h
              rw [heq] at hw
              simp only [List.length_cons] at hw ⊢
              omega
            · have := ihe _ _ _ _ h
              simp only [List.length_cons]
              omega
          · split at h
            · split at h
              · simp at h
              · rename_i str rest' heq
                simp only [Res.ok.injEq] at h
                obtain ⟨_, rfl⟩ := h
                have := parseChars_length _ _ _ heq
                simp only [List.length_cons]
                omega
            · split at h
              · rename_i rest' heq
                simp only [Res.ok.injEq] at h
                obtain ⟨_, rfl⟩ := h
                exact takeLiteral_length _ _ _ (by decide) heq
              · split at h
                · rename_i rest' heq
                  simp only [Res.ok.injEq] at h
                  obtain ⟨_, rfl⟩ := h
                  exact takeLiteral_length _ _ _ (by decide) heq
                · split at h
                  · rename_i rest' heq
                    simp only [Res.ok.injEq] at h
                    obtain ⟨_, rfl⟩ := h
                    exact takeLiteral_length _ _ _ (by decide) heq
                  · split at h
                    · simp at h
                    · rename_i tok rest' heq
                      simp only [Res.ok.injEq] at h
                      obtain ⟨_, rfl⟩ := h
                      exact scanNumber_length _ _ _ heq
    · intro s acc v r h
      rw [parseElements] at h
      split at h
      · simp at h
      · simp at h
      · rename_i v0 rest hv
        have h1 := ihv _ _ _ hv
        have hw := skipWs_length rest
        split at h
        · rename_i rest' heq
          have := ihe _ _ _ _ h
          have hw' := skipWs_length rest'
          rw [heq] at hw
          simp only [List.length_cons] at hw
          omega
        · rename_i rest' heq
          simp only [Res.ok.injEq] at h
          obtain ⟨_, rfl⟩ := h
          rw [heq] at hw
          simp only [List.length_cons] at hw
          omega
        · simp at h
    · intro s acc v r h
      rw [parseMembers.eq_def] at h
      simp only at h
      split at h
      · rename_i rest
        split at h
        · simp at h
        · rename_i key rest1 hk
          have h1 := parseChars_length _ _ _ hk
          have hw1 := skipWs_length rest1
          split at h
          · rename_i rest2 heq2
            rw [heq2] at hw1
            have hw2 := skipWs_length rest2
            split at h
            · simp at h
            · simp at h
            · rename_i v0 rest3 hv
              have h3 := ihv _ _ _ hv
              have hw3 := skipWs_length rest3
              split at h
              · rename_i rest4 heq4
                have := ihm _ _ _ _ h
                have hw4 := skipWs_length rest4
                rw [heq4] at hw3
                simp only [List.length_cons] at hw1 hw3 ⊢
                omega
              · rename_i rest4 heq4
                simp only [Res.ok.injEq] at h
                obtain ⟨_, rfl⟩ := h
                rw [heq4] at hw3
                simp only [List.length_cons] at hw1 hw3 ⊢
                omega
              · simp at h
          · simp at h
      · simp at h

theorem parse_fuel (toNumber : JSString → JSNumber) : ∀ fuel : Nat,
    (∀ s, 2 * s.length + 1 ≤ fuel → parseValue toNumber fuel s ≠ .outOfFuel)
    ∧ (∀ s acc, 2 * s.length + 2 ≤ fuel → parseElements toNumber fuel s acc ≠ .outOfFuel)
    ∧ (∀ s acc, 2 * s.length + 2 ≤ fuel → parseMembers toNumber fuel s acc ≠ .outOfFuel) := by
  intro fuel
  induction fuel with
  | zero =>
    refine ⟨?_, ?_, ?_⟩
    · intro s h; omega
    · intro s acc h; omega
    · intro s acc h; omega
  | succ fuel ih =>
    obtain ⟨ihv, ihe, ihm⟩ := ih
    refine ⟨?_, ?_, ?_⟩
    · intro s hf
      cases s with
      | nil => simp [parseValue]
      | cons c rest =>
        simp only [List.length_cons] at hf
        have hw := skipWs_length rest
        simp only [parseValue]
        split
        · split
          · simp
          · exact ihm _ _ (by omega)
        · split
          · split
            · simp
            · exact ihe _ _ (by omega)
          · split
            · split <;> simp
            · split
              · simp
              · split
                · simp
                · split
                  · simp
                  · split <;> simp
    · intro s acc hf
      rw [parseElements.eq_def]
      simp only
      have hv := ihv s (by omega)
      split
      · simp
      · rename_i heq
        exact absurd heq hv
      · rename_i v0 rest hv0
        have h1 := (parse_length toNumber fuel).1 _ _ _ hv0
        have hw := skipWs_length rest
        split
        · rename_i rest' heq
          rw [heq] at hw
          simp only [List.length_cons] at hw
          have hw' := skipWs_length rest'
          exact ihe _ _ (by omega)
        · simp
        · simp
    · intro s acc hf
      rw [parseMembers.eq_def]
      simp only
      split
      · rename_i rest
        simp only [List.length_cons] at hf
        split
        · simp
        · rename_i key rest1 hk
          have h1 := parseChars_length _ _ _ hk
          have hw1 := skipWs_length rest1
          split
          · rename_i rest2 heq2
            rw [heq2] at hw1
            simp only [List.length_cons] at hw1
            have hw2 := skipWs_length rest2
            have hv := ihv (skipWs rest2) (by omega)
            split
            · simp
            · rename_i heq
              exact absurd heq hv
            · rename_i v0 rest3 hv0
              have h3 := (parse_length toNumber fuel).1 _ _ _ hv0
              have hw3 := skipWs_length rest3
              split
              · rename_i rest4 heq4
                rw [heq4] at hw3
                simp only [List.length_cons] at hw3
                have hw4 := skipWs_length rest4
                exact ihm _ _ (by omega)
              · simp
              · simp
          · simp
      · simp

/-- The budget `JSON.parse` supplies is never used up. -/
theorem parseValue_fuel (toNumber : JSString → JSNumber) (text : JSString) :
    parseValue toNumber (2 * text.length + 1) (skipWs text) ≠ .outOfFuel := by
  have hw := skipWs_length text
  exact (parse_fuel toNumber _).1 _ (by omega)

/-! ## The feed parser -/

theorem mapLines_eq (toNumber : JSString → JSNumber) (validator : Option Validator) :
    ∀ (lines : List JSString) (k : Nat),
      mapLines toNumber validator lines k
        = (lines.map (fun l => (mapLine toNumber validator l).1),
           k + (lines.filter (fun l => (mapLine toNumber validator l).2)).length) := by
  intro lines
  induction lines with
  | nil => intro k; simp [mapLines]
  | cons l ls ih =>
    intro k
    simp only [mapLines, ih, List.map_cons, List.filter_cons]
    by_cases h : (mapLine toNumber validator l).2 = true
    · simp [h]; omega
    · simp [h]

theorem truthy_notNull {v : JSValue} (h : v.truthy = true) : v.notNull = true := by
  cases v <;> simp_all [JSValue.truthy, JSValue.notNull]

/-- The callback on one line, for a validator function: the line's accepted `cidr`
member is returned, and any other line is counted as skipped and gives `null`. -/
theorem mapLine_eq (toNumber : JSString → JSNumber) (v : Validator) (line : JSString) :
    mapLine toNumber (some v) line
      = match acceptedCidr toNumber v line with
        | some cidr => (cidr, false)
        | none => (.null, true) := by
  unfold mapLine tryLine acceptedCidr
  cases hp : JSON.parse toNumber (trim line) with
  | error e => rfl
  | ok obj =>
    cases obj with
    | null => rfl
    | bool b => rfl
    | num n => rfl
    | str s => rfl
    | arr items => rfl
    | obj members =>
      simp only [readCidr]
      cases hk : getKey "cidr".toList members with
      | none => rfl
      | some cidr =>
        simp only [callValidator]
        by_cases ht : cidr.truthy = true
        · simp only [ht, if_true, Bool.true_and]
          cases hc : v.call cidr with
          | error e => simp
          | ok b => cases b <;> simp
        · simp [ht]

theorem acceptedCidr_truthy {toNumber : JSString → JSNumber} {v : Validator}
    {line : JSString} {cidr : JSValue} (h : acceptedCidr toNumber v line = some cidr) :
    cidr.truthy = true ∧ v.call cidr = .ok true := by
  unfold acceptedCidr at h
  split at h
  · split at h
    · split at h
      · rename_i hc
        simp only [Option.some.injEq] at h
        subst h
        simpa using hc
      · simp at h
    · simp at h
  · simp at h

/-- The parser for a validator function: the entries are the accepted `cidr` members in
line order, and the skip count is the number of segments that give no entry. -/
theorem parseFeed_eq (toNumber : JSString → JSNumber) (v : Validator) (data : JSString) :
    parseFeed toNumber (some v) data
      = ((splitOn '\n' data).filterMap (acceptedCidr toNumber v),
         ((splitOn '\n' data).filter (fun l => (acceptedCidr toNumber v l).isNone)).length) := by
  unfold parseFeed
  rw [mapLines_eq]
  simp only [Nat.zero_add]
  generalize splitOn '\n' data = lines
  induction lines with
  | nil => rfl
  | cons l ls ih =>
    simp only [Prod.mk.injEq, mapLine_eq] at ih
    simp only [List.map_cons, List.filter_cons, List.filterMap_cons, mapLine_eq]
    cases h : acceptedCidr toNumber v l with
    | none => simp [JSValue.notNull, ih.1, ih.2]
    | some cidr =>
      have hn := truthy_notNull (acceptedCidr_truthy h).1
      simp [hn, ih.1, ih.2]

/-- The handler for a validator function: it logs the notices that apply and resolves
with the parser's entries. -/
theorem onEnd_fn (toNumber : JSString → JSNumber) (v : Validator) (data : JSString) :
    onEnd toNumber (some v) data
      = ((if (parseFeed toNumber (some v) data).1.length == 0 then [noValidNotice v.name]
            else [])
          ++ (if (parseFeed toNumber (some v) data).2 > 0 then
                [skippedNotice (parseFeed toNumber (some v) data).2 v.name]
              else []),
         .ok (parseFeed toNumber (some v) data).1) := by
  unfold onEnd
  simp only [validatorName, Except.map]
  by_cases h1 : ((parseFeed toNumber (some v) data).1.length == 0) = true
  · by_cases h2 : (parseFeed toNumber (some v) data).2 > 0
    · simp only [h1, h2, if_true]
    · simp only [h1, h2, if_true, if_false]
  · by_cases h2 : (parseFeed toNumber (some v) data).2 > 0
    · simp only [h1, h2, if_true, if_false, Bool.false_eq_true]
    · simp only [h1, h2, if_false, Bool.false_eq_true]

theorem parse_numbers (toNumber : JSString → JSNumber) (P : JSNumber → Prop)
    (hP : ∀ token, P (toNumber token)) : ∀ fuel : Nat,
    (∀ s v r, parseValue toNumber fuel s = .ok v r →
      (∀ n, v = .num n → P n)
      ∧ ∀ ms, v = .obj ms → ∀ p ∈ ms, ∀ n, p.2 = .num n → P n)
    ∧ (∀ s acc v r, parseElements toNumber fuel s acc = .ok v r → ∃ items, v = .arr items)
    ∧ (∀ s acc v r, parseMembers toNumber fuel s acc = .ok v r →
        (∀ p ∈ acc, ∀ n, p.2 = .num n → P n) →
        ∃ ms, v = .obj ms ∧ ∀ p ∈ ms, ∀ n, p.2 = .num n → P n) := by
  intro fuel
  induction fuel with
  | zero =>
    refine ⟨?_, ?_, ?_⟩
    · intro s v r h; simp [parseValue] at h
    · intro s acc v r h; simp [parseElements] at h
    · intro s acc v r h; simp [parseMembers] at h
  | succ fuel ih =>
    obtain ⟨ihv, ihe, ihm⟩ := ih
    refine ⟨?_, ?_, ?_⟩
    · intro s v r h
      cases s with
      | nil => simp [parseValue] at h
      | cons c rest =>
        simp only [parseValue] at h
        split at h
        · split at h
          · simp only [Res.ok.injEq] at h
            obtain ⟨rfl, _⟩ := h
            refine ⟨fun n hn => by simp at hn, fun ms hms p hp => ?_⟩
            simp only [JSValue.obj.injEq] at hms
            subst hms
            simp at hp
          · obtain ⟨ms, rfl, hms⟩ := ihm _ _ _ _ h (by simp)
            refine ⟨fun n hn => by simp at hn, fun ms' hms' => ?_⟩
            simp only [JSValue.obj.injEq] at hms'
            subst hms'
            exact hms
        · split at h
          · split at h
            · simp only [Res.ok.injEq] at h
              obtain ⟨rfl, _⟩ := h
              exact ⟨fun n hn => by simp at hn, fun ms hms => by simp at hms⟩
            · obtain ⟨items, rfl⟩ := ihe _ _ _ _ h
              exact ⟨fun n hn => by simp at hn, fun ms hms => by simp at hms⟩
          · split at h
            · split at h
              · simp at h
              · simp only [Res.ok.injEq] at h
                obtain ⟨rfl, _⟩ := h
                exact ⟨fun n hn => by simp at hn, fun ms hms => by simp at hms⟩
            · split at h
              · simp only [Res.ok.injEq] at h
                obtain ⟨rfl, _⟩ := h
                exact ⟨fun n hn => by simp at hn, fun ms hms => by simp at hms⟩
              · split at h
                · simp only [Res.ok.injEq] at h
                  obtain ⟨rfl, _⟩ := h
                  exact ⟨fun n hn => by simp at hn, fun ms hms => by simp at hms⟩
                · split at h
                  · simp only [Res.ok.injEq] at h
                    obtain ⟨rfl, _⟩ := h
                    exact ⟨fun n hn => by simp at hn, fun ms hms => by simp at hms⟩
                  · split at h
                    · simp at h
                    · simp only [Res.ok.injEq] at h
                      obtain ⟨rfl, _⟩ := h
                      refine ⟨fun n hn => ?_, fun ms hms => by simp at hms⟩
                      simp only [JSValue.num.injEq] at hn
                      subst hn
                      exact hP _
    · intro s acc v r h
      rw [parseElements] at h
      split at h
      · simp at h
      · simp at h
      · split at h
        · exact ihe _ _ _ _ h
        · simp only [Res.ok.injEq] at h
          obtain ⟨rfl, _⟩ := h
          exact ⟨_, rfl⟩
        · simp at h
    · intro s acc v r h hacc
      rw [parseMembers.eq_def] at h
      simp only at h
      split at h
      · split at h
        · simp at h
        · rename_i key rest1 hk
          split at h
          · split at h
            · simp at h
            · simp at h
            · rename_i v0 rest3 hv
              have h0 := (ihv _ _ _ hv).1
              have hacc' : ∀ p ∈ acc ++ [(key, v0)], ∀ n, p.2 = .num n → P n := by
                intro p hp n hn
                rcases List.mem_append.1 hp with hp | hp
                · exact hacc p hp n hn
                · simp only [List.mem_singleton] at hp
                  subst hp
                  exact h0 n hn
              split at h
              · exact ihm _ _ _ _ h hacc'
              · simp only [Res.ok.injEq] at h
                obtain ⟨rfl, _⟩ := h
                exact ⟨_, rfl, hacc'⟩
              · simp at h
          · simp at h
      · simp at h

theorem getKey_mem {key : JSString} {v : JSValue} :
    ∀ {ms : List (JSString × JSValue)}, getKey key ms = some v → ∃ p ∈ ms, p.2 = v := by
  intro ms
  induction ms with
  | nil => intro h; simp [getKey] at h
  | cons p rest ih =>
    intro h
    obtain ⟨k, w⟩ := p
    simp only [getKey] at h
    split at h
    · rename_i w' hw
      simp only [Option.some.injEq] at h
      subst h
      obtain ⟨q, hq, hq2⟩ := ih hw
      exact ⟨q, List.mem_cons_of_mem _ hq, hq2⟩
    · split at h
      · simp only [Option.some.injEq] at h
        subst h
        exact ⟨(k, w), List.mem_cons_self _ _, rfl⟩
      · simp at h

/-- A number read as a member of a parsed record is the conversion of a token. -/
theorem JSON.parse_member_number (toNumber : JSString → JSNumber) (P : JSNumber → Prop)
    (hP : ∀ token, P (toNumber token)) {text : JSString}
    {ms : List (JSString × JSValue)} (h : JSON.parse toNumber text = .ok (.obj ms))
    {key : JSString} {n : JSNumber} (hk : getKey key ms = some (.num n)) : P n := by
  unfold JSON.parse at h
  split at h
  · rename_i v rest hv
    split at h
    · simp only [Except.ok.injEq] at h
      subst h
      obtain ⟨p, hp, hp2⟩ := getKey_mem hk
      exact ((parse_numbers toNumber P hP _).1 _ _ _ hv).2 ms rfl p hp n hp2
    · simp at h
  · simp at h
  · simp at h

theorem falsy_mem_falsyValues {x : JSValue} (ht : x.truthy = false)
    (hn : ∀ n, x = .num n → n.truthy = false → n.text = "0".toList) : x ∈ falsyValues := by
  cases x with
  | null => simp [falsyValues]
  | bool b =>
    simp only [JSValue.truthy] at ht
    subst ht
    simp [falsyValues]
  | num n =>
    simp only [JSValue.truthy] at ht
    have := hn n rfl ht
    obtain ⟨t, s⟩ := n
    simp only at ht this
    subst ht this
    simp [falsyValues]
  | str s =>
    simp only [JSValue.truthy] at ht
    cases s with
    | nil => simp [falsyValues]
    | cons c r => simp at ht
  | arr items => simp [JSValue.truthy] at ht
  | obj members => simp [JSValue.truthy] at ht

theorem isIPv4Fn_falsy : ∀ x ∈ falsyValues, isIPv4Fn.call x = .ok false := by
  intro x hx
  simp only [falsyValues, List.mem_cons, List.mem_singleton, List.not_mem_nil, or_false] at hx
  rcases hx with rfl | rfl | rfl | rfl <;> decide

theorem isIPv6Fn_falsy : ∀ x ∈ falsyValues, isIPv6Fn.call x = .ok false := by
  intro x hx
  simp only [falsyValues, List.mem_cons, List.mem_singleton, List.not_mem_nil, or_false] at hx
  rcases hx with rfl | rfl | rfl | rfl <;> decide

/-- For a validator that rejects the falsy values, the truthiness guard drops nothing the
validator accepts: the code's reading of a line and the specification's agree. -/
theorem acceptedCidr_eq_validCidr (toNumber : JSString → JSNumber)
    (hzero : ∀ token, (toNumber token).truthy = false → (toNumber token).text = "0".toList)
    (v : Validator) (hv : ∀ x ∈ falsyValues, v.call x ≠ .ok true) (line : JSString) :
    acceptedCidr toNumber v line = validCidr toNumber v line := by
  unfold acceptedCidr validCidr
  cases hp : JSON.parse toNumber (trim line) with
  | error e => rfl
  | ok obj =>
    cases obj with
    | null => rfl
    | bool b => rfl
    | num n => rfl
    | str s => rfl
    | arr items => rfl
    | obj members =>
      simp only
      cases hk : getKey "cidr".toList members with
      | none => rfl
      | some cidr =>
        simp only
        by_cases ht : cidr.truthy = true
        · simp [ht]
        · have ht' : cidr.truthy = false := by simpa using ht
          have hmem : cidr ∈ falsyValues := by
            refine falsy_mem_falsyValues ht' ?_
            intro n hn
            subst hn
            exact JSON.parse_member_number toNumber
              (fun n => n.truthy = false → n.text = "0".toList) hzero hp hk
          have := hv cidr hmem
          simp [ht', this]

/-- C2: for every feed body and every validator that rejects the falsy values (`isIPv4`
and `isIPv6`, the two the program passes, both do), the entries the parser returns are
exactly, in line order, the `cidr` members of the lines (body split on newline, each line
trimmed) that decode as a record whose `cidr` member the validator accepts.  Every entry
passed the validator, no line with a valid `cidr` member is dropped, there are as many
entries as valid lines, and the same valid record on two lines gives two entries.  The
number conversion is any one under which a falsy number prints as `0`. -/
theorem parseFeed_entries (toNumber : JSString → JSNumber)
    (hzero : ∀ token, (toNumber token).truthy = false → (toNumber token).text = "0".toList)
    (v : Validator)
    (hv : v = isIPv4Fn ∨ v = isIPv6Fn ∨ ∀ x ∈ falsyValues, v.call x ≠ .ok true)
    (data : JSString) :
    (parseFeed toNumber (some v) data).1
        = (splitOn '\n' data).filterMap (validCidr toNumber v)
    ∧ (∀ e ∈ (parseFeed toNumber (some v) data).1, v.call e = .ok true)
    ∧ (∀ line ∈ splitOn '\n' data, ∀ cidr, validCidr toNumber v line = some cidr →
        cidr ∈ (parseFeed toNumber (some v) data).1)
    ∧ (parseFeed toNumber (some v) data).1.length
        = ((splitOn '\n' data).filter (fun l => (validCidr toNumber v l).isSome)).length
    ∧ (∀ x ∈ falsyValues, isIPv4Fn.call x = .ok false ∧ isIPv6Fn.call x = .ok false)
    ∧ (parseFeed toNumber (some isIPv4Fn)
          "\x7b\"cidr\":\"192.0.2.0/24\"\x7d\n\x7b\"cidr\":\"192.0.2.0/24\"\x7d".toList).1
        = [.str "192.0.2.0/24".toList, .str "192.0.2.0/24".toList] := by
  have hv' : ∀ x ∈ falsyValues, v.call x ≠ .ok true := by
    rcases hv with rfl | rfl | hv
    · intro x hx; rw [isIPv4Fn_falsy x hx]; simp
    · intro x hx; rw [isIPv6Fn_falsy x hx]; simp
    · exact hv
  have hfun : acceptedCidr toNumber v = validCidr toNumber v :=
    funext (acceptedCidr_eq_validCidr toNumber hzero v hv')
  have heq : (parseFeed toNumber (some v) data).1
      = (splitOn '\n' data).filterMap (validCidr toNumber v) := by
    rw [parseFeed_eq, hfun]
  refine ⟨heq, ?_, ?_, ?_, fun x hx => ⟨isIPv4Fn_falsy x hx, isIPv6Fn_falsy x hx⟩, rfl⟩
  · intro e he
    rw [heq, ← hfun] at he
    obtain ⟨l, _, hl⟩ := List.mem_filterMap.1 he
    exact (acceptedCidr_truthy hl).2
  · intro line hl cidr hc
    rw [heq]
    exact List.mem_filterMap.2 ⟨line, hl, hc⟩
  · rw [heq]
    generalize splitOn '\n' data = lines
    induction lines with
    | nil => rfl
    | cons l ls ih =>
      cases h : validCidr toNumber v l <;>
        simp [List.filterMap_cons, List.filter_cons, h, ih]

/-- An instance of C2: under `isIPv4`, a body with a valid record, a record whose address
is the number zero, a record with an empty address and the valid record again gives the
valid address twice. -/
theorem parseFeed_entries_witness :
    (∀ token, (zeroExactNumber token).truthy = false
        → (zeroExactNumber token).text = "0".toList)
    ∧ (parseFeed zeroExactNumber (some isIPv4Fn)
          ("\x7b\"cidr\":\"192.0.2.0/24\"\x7d\n\x7b\"cidr\":0\x7d\n"
            ++ "\x7b\"cidr\":\"\"\x7d\n\x7b\"cidr\":\"192.0.2.0/24\"\x7d").toList).1
        = (splitOn '\n'
            ("\x7b\"cidr\":\"192.0.2.0/24\"\x7d\n\x7b\"cidr\":0\x7d\n"
              ++ "\x7b\"cidr\":\"\"\x7d\n\x7b\"cidr\":\"192.0.2.0/24\"\x7d").toList).filterMap
            (validCidr zeroExactNumber isIPv4Fn)
    ∧ (parseFeed zeroExactNumber (some isIPv4Fn)
          ("\x7b\"cidr\":\"192.0.2.0/24\"\x7d\n\x7b\"cidr\":0\x7d\n"
            ++ "\x7b\"cidr\":\"\"\x7d\n\x7b\"cidr\":\"192.0.2.0/24\"\x7d").toList).1
        = [.str "192.0.2.0/24".toList, .str "192.0.2.0/24".toList] := by
  have hzero : ∀ token, (zeroExactNumber token).truthy = false
      → (zeroExactNumber token).text = "0".toList := by
    intro token h
    unfold zeroExactNumber at h ⊢
    split at h
    · simp at h
    · rename_i hc
      simp [hc]
  exact ⟨hzero,
    (parseFeed_entries zeroExactNumber hzero isIPv4Fn (Or.inl rfl) _).1, rfl⟩

/-- C8, as stated, fails: the body of scenario A gives the entry `192.0.2.0/24` and skip
count 2, not 1, because the empty segment after the last newline is counted too. -/
theorem parseFeed_scenarioA_skips_two :
    parseFeed decimalNumber (some isIPv4Fn)
        "\x7b\"cidr\":\"192.0.2.0/24\"\x7d\n\x7b\"cidr\":\"bad\"\x7d\n".toList
      = ([.str "192.0.2.0/24".toList], 2) :=
  rfl

/-- C8, amended: the skip count is the number of newline-separated segments of the body
that give no entry (malformed text, a record without a usable address, a record whose
address fails the validator), blank segments and the empty segment after a final newline
included; the body of scenario A gives the entry `192.0.2.0/24` and skip count 2. -/
theorem parseFeed_skip_count :
    (∀ (toNumber : JSString → JSNumber) (v : Validator) (data : JSString),
      (parseFeed toNumber (some v) data).2
        = ((splitOn '\n' data).filter (fun l => (acceptedCidr toNumber v l).isNone)).length)
    ∧ (∀ toNumber : JSString → JSNumber,
      splitOn '\n' "\x7b\"cidr\":\"192.0.2.0/24\"\x7d\n\x7b\"cidr\":\"bad\"\x7d\n".toList
        = ["\x7b\"cidr\":\"192.0.2.0/24\"\x7d".toList, "\x7b\"cidr\":\"bad\"\x7d".toList, []]
      ∧ parseFeed toNumber (some isIPv4Fn)
          "\x7b\"cidr\":\"192.0.2.0/24\"\x7d\n\x7b\"cidr\":\"bad\"\x7d\n".toList
        = ([.str "192.0.2.0/24".toList], 2)) := by
  refine ⟨fun toNumber v data => ?_, fun toNumber => ⟨by decide, rfl⟩⟩
  rw [parseFeed_eq]

/-- C9, as stated, fails: on the empty body the skip count is 1, not 0, and the
skipped-lines notice is raised after the no-valid-addresses notice. -/
theorem emptyBody_skip_count_is_one :
    parseFeed decimalNumber (some isIPv4Fn) [] = ([], 1)
    ∧ onEnd decimalNumber (some isIPv4Fn) []
        = ([noValidNotice "isIPv4".toList, skippedNotice 1 "isIPv4".toList], .ok []) :=
  ⟨rfl, rfl⟩

/-- C9, amended: for the empty body and any validator function the parser returns the
empty entry sequence with skip count 1 (the one empty segment), and the handler raises
the no-valid-addresses notice followed by the skipped-lines notice, and resolves with the
empty sequence. -/
theorem parseFeed_empty_body (toNumber : JSString → JSNumber) (v : Validator) :
    parseFeed toNumber (some v) [] = ([], 1)
    ∧ onEnd toNumber (some v) []
        = ([noValidNotice v.name, skippedNotice 1 v.name], .ok []) :=
  ⟨rfl, rfl⟩

/-- C10, as stated, fails: a record whose `cidr` is not a string is not always counted
as skipped.  Under `isIPv4` the line `{"cidr":["1.2.3.4"]}` is accepted, because the
test converts the one-element array to the string `1.2.3.4`; the array becomes an entry
and nothing is skipped. -/
theorem parseFeed_accepts_array_cidr :
    JSON.parse decimalNumber (trim "\x7b\"cidr\":[\"1.2.3.4\"]\x7d".toList)
        = .ok (.obj [("cidr".toList, .arr [.str "1.2.3.4".toList])])
    ∧ isIPv4Fn.call (.arr [.str "1.2.3.4".toList]) = .ok true
    ∧ parseFeed decimalNumber (some isIPv4Fn) "\x7b\"cidr\":[\"1.2.3.4\"]\x7d".toList
        = ([.arr [.str "1.2.3.4".toList]], 0) :=
  ⟨rfl, rfl, rfl⟩

/-- C10, amended: for every feed body and validator function the handler never fails, it
resolves with the parser's entries (the empty sequence when there is none), and a line is
only counted as skipped, its error swallowed, when it is not JSON text, when it decodes
to `null`, a boolean, a number, a string or an array, when it is a record without `cidr`
or with a falsy `cidr`, and when the validator raises or rejects; a record whose `cidr` is
a truthy value of any type that the validator accepts is an entry. -/
theorem onEnd_never_fails :
    (∀ (toNumber : JSString → JSNumber) (v : Validator) (data : JSString),
      (onEnd toNumber (some v) data).2 = .ok (parseFeed toNumber (some v) data).1)
    ∧ (∀ (toNumber : JSString → JSNumber) (v : Validator) (line : JSString),
      (∀ e, JSON.parse toNumber (trim line) = .error e →
        mapLine toNumber (some v) line = (.null, true))
      ∧ (∀ x, JSON.parse toNumber (trim line) = .ok x → (∀ members, x ≠ .obj members) →
        mapLine toNumber (some v) line = (.null, true))
      ∧ (∀ members, JSON.parse toNumber (trim line) = .ok (.obj members) →
        getKey "cidr".toList members = none →
        mapLine toNumber (some v) line = (.null, true))
      ∧ (∀ members cidr, JSON.parse toNumber (trim line) = .ok (.obj members) →
        getKey "cidr".toList members = some cidr → cidr.truthy = false →
        mapLine toNumber (some v) line = (.null, true))
      ∧ (∀ members cidr, JSON.parse toNumber (trim line) = .ok (.obj members) →
        getKey "cidr".toList members = some cidr → v.call cidr ≠ .ok true →
        mapLine toNumber (some v) line = (.null, true))
      ∧ (∀ members cidr, JSON.parse toNumber (trim line) = .ok (.obj members) →
        getKey "cidr".toList members = some cidr → cidr.truthy = true →
        v.call cidr = .ok true →
        mapLine toNumber (some v) line = (cidr, false))) := by
  refine ⟨fun toNumber v data => ?_, fun toNumber v line => ⟨?_, ?_, ?_, ?_, ?_, ?_⟩⟩
  · rw [onEnd_fn]
  · intro e h
    rw [mapLine_eq]; unfold acceptedCidr; rw [h]
  · intro x h hx
    rw [mapLine_eq]; unfold acceptedCidr; rw [h]
    cases x with
    | obj members => exact absurd rfl (hx members)
    | _ => rfl
  · intro members h hk
    rw [mapLine_eq]; unfold acceptedCidr; rw [h]; simp only [hk]
  · intro members cidr h hk ht
    rw [mapLine_eq]; unfold acceptedCidr; rw [h]; simp only [hk]
    simp [ht]
  · intro members cidr h hk hc
    rw [mapLine_eq]; unfold acceptedCidr; rw [h]; simp only [hk]
    simp [hc]
  · intro members cidr h hk ht hc
    rw [mapLine_eq]; unfold acceptedCidr; rw [h]; simp only [hk]
    simp [ht, hc]

/-- Instances of C10 as amended: the line `null`, on which reading `cidr` raises, and the
line `{"cidr":{"toString":1}}`, on which `isIPv4` itself raises, are skipped. -/
theorem onEnd_never_fails_witness :
    mapLine decimalNumber (some isIPv4Fn) "null".toList = (.null, true)
    ∧ isIPv4Fn.call (.obj [("toString".toList, .num (decimalNumber ['1']))])
        = .error cannotConvert
    ∧ mapLine decimalNumber (some isIPv4Fn)
        "\x7b\"cidr\":\x7b\"toString\":1\x7d\x7d".toList = (.null, true) :=
  ⟨(onEnd_never_fails.2 decimalNumber isIPv4Fn "null".toList).2.1 .null rfl
      (fun _ h => JSValue.noConfusion h),
    rfl,
    (onEnd_never_fails.2 decimalNumber isIPv4Fn
      "\x7b\"cidr\":\x7b\"toString\":1\x7d\x7d".toList).2.2.2.2.1
      [("cidr".toList, .obj [("toString".toList, .num (decimalNumber ['1']))])]
      (.obj [("toString".toList, .num (decimalNumber ['1']))]) rfl rfl
      (fun h => by cases h)⟩

/-! ## Fetch with retry -/

theorem fetchLoop_first_resolves (toNumber : JSString → JSNumber) (env : Nat → Attempt)
    (url : JSString) (validator : Option Validator) (ev0 : List Event) (l : List JSValue)
    (h0 : attemptPromise toNumber validator url (env 0) = (ev0, .ok l)) :
    fetchIPList toNumber env url validator = (ev0, .resolved l) := by
  simp [fetchIPList, fetchLoop, MAX_RETRIES, h0]

theorem fetchLoop_second_resolves (toNumber : JSString → JSNumber) (env : Nat → Attempt)
    (url : JSString) (validator : Option Validator) (ev0 ev1 : List Event) (e0 : JSError)
    (l : List JSValue)
    (h0 : attemptPromise toNumber validator url (env 0) = (ev0, .error e0))
    (h1 : attemptPromise toNumber validator url (env 1) = (ev1, .ok l)) :
    fetchIPList toNumber env url validator
      = (ev0 ++ [retryNotice 1 url e0.message, .sleep RETRY_DELAY] ++ ev1, .resolved l) := by
  simp [fetchIPList, fetchLoop, MAX_RETRIES, h0, h1]

theorem fetchLoop_third_resolves (toNumber : JSString → JSNumber) (env : Nat → Attempt)
    (url : JSString) (validator : Option Validator) (ev0 ev1 ev2 : List Event)
    (e0 e1 : JSError) (l : List JSValue)
    (h0 : attemptPromise toNumber validator url (env 0) = (ev0, .error e0))
    (h1 : attemptPromise toNumber validator url (env 1) = (ev1, .error e1))
    (h2 : attemptPromise toNumber validator url (env 2) = (ev2, .ok l)) :
    fetchIPList toNumber env url validator
      = (ev0 ++ [retryNotice 1 url e0.message, .sleep RETRY_DELAY]
          ++ (ev1 ++ [retryNotice 2 url e1.message, .sleep RETRY_DELAY] ++ ev2),
         .resolved l) := by
  simp [fetchIPList, fetchLoop, MAX_RETRIES, h0, h1, h2]

theorem fetchLoop_all_rejected (toNumber : JSString → JSNumber) (env : Nat → Attempt)
    (url : JSString) (validator : Option Validator) (ev0 ev1 ev2 : List Event)
    (e0 e1 e2 : JSError)
    (h0 : attemptPromise toNumber validator url (env 0) = (ev0, .error e0))
    (h1 : attemptPromise toNumber validator url (env 1) = (ev1, .error e1))
    (h2 : attemptPromise toNumber validator url (env 2) = (ev2, .error e2)) :
    fetchIPList toNumber env url validator
      = (ev0 ++ [retryNotice 1 url e0.message, .sleep RETRY_DELAY]
          ++ (ev1 ++ [retryNotice 2 url e1.message, .sleep RETRY_DELAY] ++ ev2),
         .thrown (exhausted e2.message)) := by
  simp [fetchIPList, fetchLoop, MAX_RETRIES, h0, h1, h2]

theorem attemptPromise_fails (toNumber : JSString → JSNumber) (validator : Option Validator)
    (url : JSString) (a : Attempt) (h : a.fails = true) :
    attemptPromise toNumber validator url a = ([.request url], .error ⟨a.rejection⟩) := by
  cases a with
  | requestError m => rfl
  | response statusCode body =>
    simp only [Attempt.fails] at h
    simp [attemptPromise, h, Attempt.rejection]

/-- The loop always ends within its budget, by a `return` or a `throw`: the call never
falls out of the `while` and never needs a fourth iteration. -/
theorem fetchIPList_settles (toNumber : JSString → JSNumber) (env : Nat → Attempt)
    (url : JSString) (validator : Option Validator) :
    (∃ ipList, (fetchIPList toNumber env url validator).2 = .resolved ipList)
    ∨ (∃ error, (fetchIPList toNumber env url validator).2 = .thrown error) := by
  rcases h0 : attemptPromise toNumber validator url (env 0) with ⟨ev0, _ | l0⟩
  · rcases h1 : attemptPromise toNumber validator url (env 1) with ⟨ev1, _ | l1⟩
    · rcases h2 : attemptPromise toNumber validator url (env 2) with ⟨ev2, _ | l2⟩
      · rw [fetchLoop_all_rejected _ _ _ _ _ _ _ _ _ _ h0 h1 h2]
        exact Or.inr ⟨_, rfl⟩
      · rw [fetchLoop_third_resolves _ _ _ _ _ _ _ _ _ _ h0 h1 h2]
        exact Or.inl ⟨_, rfl⟩
    · rw [fetchLoop_second_resolves _ _ _ _ _ _ _ _ h0 h1]
      exact Or.inl ⟨_, rfl⟩
  · rw [fetchLoop_first_resolves _ _ _ _ _ _ h0]
    exact Or.inl ⟨_, rfl⟩

theorem onEnd_events_are_logs (toNumber : JSString → JSNumber) (v : Validator)
    (data : JSString) :
    (onEnd toNumber (some v) data).1.filter Event.isRequest = []
    ∧ (onEnd toNumber (some v) data).1.filter Event.isSleep = [] := by
  rw [onEnd_fn]
  constructor <;> split <;> split <;>
    simp [noValidNotice, skippedNotice, Event.isRequest, Event.isSleep]

theorem attemptPromise_ok (toNumber : JSString → JSNumber) (v : Validator)
    (url body : JSString) :
    attemptPromise toNumber (some v) url (.response 200 body)
      = (.request url :: (onEnd toNumber (some v) body).1,
         .ok (parseFeed toNumber (some v) body).1) := by
  simp only [attemptPromise, bne_self_eq_false, Bool.false_eq_true, if_false]
  rw [onEnd_fn]

/-- C5: when every request attempt fails (transport error or a status other than 200),
`fetchIPList` makes exactly `MAX_RETRIES = 3` requests, all to the same URL, sleeps
`RETRY_DELAY = 1000` ms exactly twice, once after each of the first two attempts and not
after the third, and then throws; there is no fourth request. -/
theorem fetchIPList_retry_bound (toNumber : JSString → JSNumber) (env : Nat → Attempt)
    (url : JSString) (validator : Option Validator) (h : ∀ n, (env n).fails = true) :
    fetchIPList toNumber env url validator
      = ([.request url, retryNotice 1 url (env 0).rejection, .sleep 1000,
          .request url, retryNotice 2 url (env 1).rejection, .sleep 1000,
          .request url],
         .thrown (exhausted (env 2).rejection))
    ∧ (fetchIPList toNumber env url validator).1.filter Event.isRequest
        = List.replicate MAX_RETRIES (.request url)
    ∧ (fetchIPList toNumber env url validator).1.filter Event.isSleep
        = List.replicate (MAX_RETRIES - 1) (.sleep RETRY_DELAY)
    ∧ MAX_RETRIES = 3 ∧ RETRY_DELAY = 1000 := by
  have key := fetchLoop_all_rejected toNumber env url validator _ _ _ _ _ _
    (attemptPromise_fails toNumber validator url (env 0) (h 0))
    (attemptPromise_fails toNumber validator url (env 1) (h 1))
    (attemptPromise_fails toNumber validator url (env 2) (h 2))
  rw [key]
  refine ⟨rfl, ?_, ?_, rfl, rfl⟩
  · simp [retryNotice, Event.isRequest, MAX_RETRIES, List.replicate]
  · simp [retryNotice, Event.isSleep, MAX_RETRIES, RETRY_DELAY, List.replicate]

/-- An instance of C5: every request ends in a transport error. -/
theorem fetchIPList_retry_bound_witness :
    (fetchIPList decimalNumber (fun _ => .requestError "timeout".toList)
        "https://www.spamhaus.org/drop/drop_v4.json".toList (some isIPv4Fn)).1.filter
          Event.isRequest
      = List.replicate MAX_RETRIES
          (.request "https://www.spamhaus.org/drop/drop_v4.json".toList) :=
  (fetchIPList_retry_bound decimalNumber (fun _ => .requestError "timeout".toList)
    "https://www.spamhaus.org/drop/drop_v4.json".toList (some isIPv4Fn) (fun _ => rfl)).2.1

/-- C6: when the first attempt with status 200 is attempt `k`, `1 ≤ k ≤ 3`, and the
attempts before it fail (transport error or another status), `fetchIPList` resolves with
the parser's entries for the body of attempt `k`, after exactly `k` requests and `k - 1`
sleeps of 1000 ms; each earlier attempt contributes one request, one retry notice and one
sleep, and its body is not looked at. -/
theorem fetchIPList_first_success (toNumber : JSString → JSNumber) (env : Nat → Attempt)
    (url : JSString) (v : Validator) (k : Nat) (body : JSString)
    (hk1 : 1 ≤ k) (hk3 : k ≤ 3) (hfail : ∀ i, i + 1 < k → (env i).fails = true)
    (hok : env (k - 1) = .response 200 body) :
    fetchIPList toNumber env url (some v)
      = ((List.range (k - 1)).flatMap
            (fun i => [.request url, retryNotice (i + 1) url (env i).rejection, .sleep 1000])
          ++ .request url :: (onEnd toNumber (some v) body).1,
         .resolved (parseFeed toNumber (some v) body).1)
    ∧ (fetchIPList toNumber env url (some v)).1.filter Event.isRequest
        = List.replicate k (.request url)
    ∧ (fetchIPList toNumber env url (some v)).1.filter Event.isSleep
        = List.replicate (k - 1) (.sleep 1000) := by
  obtain ⟨hlr, hls⟩ := onEnd_events_are_logs toNumber v body
  have hk : k = 1 ∨ k = 2 ∨ k = 3 := by omega
  rcases hk with rfl | rfl | rfl
  · have key := fetchLoop_first_resolves toNumber env url (some v) _ _
      (by rw [show env 0 = .response 200 body from hok]; exact attemptPromise_ok ..)
    rw [key]
    refine ⟨rfl, ?_, ?_⟩
    · simp [Event.isRequest, hlr, List.filter_cons]
    · simp [Event.isSleep, hls, List.filter_cons]
  · have key := fetchLoop_second_resolves toNumber env url (some v) _ _ _ _
      (attemptPromise_fails toNumber (some v) url (env 0) (hfail 0 (by omega)))
      (by rw [show env 1 = .response 200 body from hok]; exact attemptPromise_ok ..)
    rw [key]
    refine ⟨by simp [List.range_succ, RETRY_DELAY], ?_, ?_⟩
    · simp [Event.isRequest, retryNotice, hlr, List.filter_cons, List.replicate]
    · simp [Event.isSleep, retryNotice, hls, List.filter_cons, List.replicate, RETRY_DELAY]
  · have key := fetchLoop_third_resolves toNumber env url (some v) _ _ _ _ _ _
      (attemptPromise_fails toNumber (some v) url (env 0) (hfail 0 (by omega)))
      (attemptPromise_fails toNumber (some v) url (env 1) (hfail 1 (by omega)))
      (by rw [show env 2 = .response 200 body from hok]; exact attemptPromise_ok ..)
    rw [key]
    refine ⟨by simp [List.range_succ, RETRY_DELAY], ?_, ?_⟩
    · simp [Event.isRequest, retryNotice, hlr, List.filter_cons, List.replicate]
    · simp [Event.isSleep, retryNotice, hls, List.filter_cons, List.replicate, RETRY_DELAY]

/-- An instance of C6: the first attempt answers 503 (with a body that is never read),
the second 200. -/
theorem fetchIPList_first_success_witness :
    fetchIPList decimalNumber
        (fun n => if n = 0 then .response 503 "\x7b\"cidr\":\"192.0.2.0/24\"\x7d".toList
          else .response 200 "\x7b\"cidr\":\"198.51.100.0/24\"\x7d".toList)
        "u".toList (some isIPv4Fn)
      = ([.request "u".toList,
          retryNotice 1 "u".toList "Request failed with status 503".toList, .sleep 1000,
          .request "u".toList],
         .resolved [.str "198.51.100.0/24".toList]) :=
  (fetchIPList_first_success decimalNumber
    (fun n => if n = 0 then .response 503 "\x7b\"cidr\":\"192.0.2.0/24\"\x7d".toList
      else .response 200 "\x7b\"cidr\":\"198.51.100.0/24\"\x7d".toList)
    "u".toList isIPv4Fn 2 "\x7b\"cidr\":\"198.51.100.0/24\"\x7d".toList
    (by decide) (by decide)
    (fun i hi => by
      have h0 : i = 0 := by omega
      subst h0
      rfl)
    rfl).1

theorem mapLine_undefined (toNumber : JSString → JSNumber) (line : JSString) :
    mapLine toNumber none line = (.null, true) := by
  unfold mapLine tryLine
  cases JSON.parse toNumber (trim line) with
  | error e => rfl
  | ok obj =>
    simp only
    cases readCidr obj with
    | error e => rfl
    | ok c =>
      cases c with
      | none => rfl
      | some cidr =>
        simp only [callValidator]
        by_cases ht : cidr.truthy = true
        · simp [ht]
        · simp [ht]

/-- With the validator argument `undefined` every line is skipped, and reading
`validator.name` for the notice raises inside the handler's outer `try`: the handling of
the body fails at parse level. -/
theorem onEnd_undefined (toNumber : JSString → JSNumber) (data : JSString) :
    onEnd toNumber none data
      = ([], .error ⟨"Failed to parse IP list: ".toList ++ cannotReadName.message⟩) := by
  have hl : (parseFeed toNumber none data).1 = [] := by
    unfold parseFeed
    rw [mapLines_eq]
    simp only [mapLine_undefined]
    generalize splitOn '\n' data = lines
    induction lines with
    | nil => rfl
    | cons l ls ih => simp [JSValue.notNull]
  unfold onEnd
  simp [hl, validatorName, Except.map]

/-- C7, as stated, fails: with the validator argument `undefined`, a status-200 attempt
fails at parse level (`Failed to parse IP list: ...`), and `fetchIPList` then increments
the counter, sleeps and requests again, three requests in all, before it throws. -/
theorem fetchIPList_retries_parse_failure :
    onEnd decimalNumber none []
        = ([], .error ⟨"Failed to parse IP list: ".toList ++ cannotReadName.message⟩)
    ∧ fetchIPList decimalNumber (fun _ => .response 200 []) "u".toList none
        = ([.request "u".toList,
            retryNotice 1 "u".toList
              ("Failed to parse IP list: ".toList ++ cannotReadName.message),
            .sleep 1000,
            .request "u".toList,
            retryNotice 2 "u".toList
              ("Failed to parse IP list: ".toList ++ cannotReadName.message),
            .sleep 1000,
            .request "u".toList],
           .thrown (exhausted ("Failed to parse IP list: ".toList ++ cannotReadName.message))) :=
  ⟨rfl, rfl⟩

/-- C7, amended: a parse-level failure is retried like a request failure.  When the
handling of a status-200 body fails at parse level (the validator argument is `undefined`
and reading its name raises), the promise is rejected with `Failed to parse IP list: ...`,
and if every attempt ends so, `fetchIPList` makes three requests with a retry notice and
a sleep of 1000 ms after the first and the second, and throws
`Failed after 3 retries: Failed to parse IP list: ...`. -/
theorem fetchIPList_parse_failure_retried (toNumber : JSString → JSNumber)
    (env : Nat → Attempt) (url : JSString) (h : ∀ n, ∃ body, env n = .response 200 body) :
    (∀ data, onEnd toNumber none data
        = ([], .error ⟨"Failed to parse IP list: ".toList ++ cannotReadName.message⟩))
    ∧ fetchIPList toNumber env url none
        = ([.request url,
            retryNotice 1 url ("Failed to parse IP list: ".toList ++ cannotReadName.message),
            .sleep 1000,
            .request url,
            retryNotice 2 url ("Failed to parse IP list: ".toList ++ cannotReadName.message),
            .sleep 1000,
            .request url],
           .thrown (exhausted ("Failed to parse IP list: ".toList ++ cannotReadName.message)))
    ∧ exhausted ("Failed to parse IP list: ".toList ++ cannotReadName.message)
        = ⟨("Failed after 3 retries: Failed to parse IP list: "
            ++ "Cannot read properties of undefined (reading 'name')").toList⟩ := by
  have hp : ∀ n, attemptPromise toNumber none url (env n)
      = ([.request url],
         .error ⟨"Failed to parse IP list: ".toList ++ cannotReadName.message⟩) := by
    intro n
    obtain ⟨body, hb⟩ := h n
    rw [hb]
    simp only [attemptPromise, bne_self_eq_false, Bool.false_eq_true, if_false]
    rw [onEnd_undefined]
  refine ⟨onEnd_undefined toNumber, ?_, by decide⟩
  rw [fetchLoop_all_rejected toNumber env url none _ _ _ _ _ _ (hp 0) (hp 1) (hp 2)]
  rfl

/-- An instance of C7 as amended: every attempt answers 200 with an empty body. -/
theorem fetchIPList_parse_failure_retried_witness :
    (fetchIPList decimalNumber (fun _ => .response 200 []) "u".toList none).2
      = .thrown (exhausted ("Failed to parse IP list: ".toList ++ cannotReadName.message)) :=
  congrArg Prod.snd
    (fetchIPList_parse_failure_retried decimalNumber (fun _ => .response 200 []) "u".toList
      (fun _ => ⟨[], rfl⟩)).2.1

/-! ## The validators: alphabet of the accepted strings -/

theorem isIPv4_chars {s : JSString} (h : isIPv4 s = true) :
    s ≠ [] ∧ ∀ c ∈ s, inRange '0' '9' c = true ∨ c = '.' ∨ c = '/' := by
  rw [isIPv4, RE.test_iff, matches_ipv4RE] at h
  obtain ⟨o1, o2, o3, o4, suf, rfl, h1, h2, h3, h4, hs⟩ := h
  refine ⟨by simp, ?_⟩
  intro c hc
  have hsuf : ∀ c ∈ suf, inRange '0' '9' c = true ∨ c = '.' ∨ c = '/' := by
    intro c hc
    rcases hs with rfl | ⟨ds, rfl, _, _, hds⟩
    · simp at hc
    · rcases List.mem_cons.1 hc with rfl | hc
      · exact Or.inr (Or.inr rfl)
      · exact Or.inl (hds c hc)
  simp only [List.mem_append, List.mem_cons] at hc
  rcases hc with hc | rfl | hc | rfl | hc | rfl | hc | hc
  · exact Or.inl (h1.2.2.1 c hc)
  · exact Or.inr (Or.inl rfl)
  · exact Or.inl (h2.2.2.1 c hc)
  · exact Or.inr (Or.inl rfl)
  · exact Or.inl (h3.2.2.1 c hc)
  · exact Or.inr (Or.inl rfl)
  · exact Or.inl (h4.2.2.1 c hc)
  · exact hsuf c hc

theorem isIPv6_chars {s : JSString} (h : isIPv6 s = true) :
    s ≠ [] ∧ ∀ c ∈ s, isHexChar c = true ∨ c = ':' ∨ c = '/' := by
  rw [isIPv6, RE.test_iff, matches_ipv6RE] at h
  obtain ⟨gs, last, suf, rfl, _, _, hgs, hlast, hs⟩ := h
  refine ⟨by simp, ?_⟩
  intro c hc
  simp only [List.mem_append, List.mem_cons] at hc
  rcases hc with hc | rfl | hc | hc
  · rcases mem_colonGroups hgs c hc with h | h
    · exact Or.inl h
    · exact Or.inr (Or.inl h)
  · exact Or.inr (Or.inl rfl)
  · rcases hlast with hl | rfl
    · exact Or.inl (hl.2.2 c hc)
    · simp at hc
  · rcases hs with rfl | ⟨ds, rfl, _, _, hds⟩
    · simp at hc
    · rcases List.mem_cons.1 hc with rfl | hc
      · exact Or.inr (Or.inr rfl)
      · have := hds c hc
        exact Or.inl (by simp [isHexChar, this])

theorem accepted_isAddressChar {s : JSString} (h : isIPv4 s = true ∨ isIPv6 s = true) :
    s ≠ [] ∧ ∀ c ∈ s, isAddressChar c = true := by
  rcases h with h | h
  · refine ⟨(isIPv4_chars h).1, fun c hc => ?_⟩
    rcases (isIPv4_chars h).2 c hc with h | rfl | rfl
    · simp [isAddressChar, isHexChar, h]
    · decide
    · decide
  · refine ⟨(isIPv6_chars h).1, fun c hc => ?_⟩
    rcases (isIPv6_chars h).2 c hc with h | rfl | rfl
    · simp [isAddressChar, h]
    · decide
    · decide

theorem isAddressChar_toNat {c : Char} (h : isAddressChar c = true) :
    (46 ≤ c.toNat ∧ c.toNat ≤ 58) ∨ (65 ≤ c.toNat ∧ c.toNat ≤ 70)
      ∨ (97 ≤ c.toNat ∧ c.toNat ≤ 102) := by
  simp only [isAddressChar, isHexChar, inRange, Bool.or_eq_true, Bool.and_eq_true,
    decide_eq_true_eq, beq_iff_eq, char_eq_iff_toNat] at h
  simp at h
  omega

theorem trimChar_not_addressChar {c : Char} (h : isTrimChar c = true) :
    isAddressChar c = false := by
  rw [Bool.eq_false_iff]
  intro ha
  have := isAddressChar_toNat ha
  simp only [isTrimChar, Bool.or_eq_true, Bool.and_eq_true, decide_eq_true_eq,
    beq_iff_eq] at h
  omega

/-- C11: on a string `isIPv4` and `isIPv6` return a boolean and never raise; both return
false for the empty string and for every string that contains a whitespace character
anywhere, such as ` 1.2.3.4`, `1.2.3.4 `, `1.2.3.4` followed by a newline, and
`2001:db8:: `. -/
theorem validators_reject_whitespace :
    (∀ s : JSString, isIPv4Fn.call (.str s) = .ok (isIPv4 s)
      ∧ isIPv6Fn.call (.str s) = .ok (isIPv6 s))
    ∧ isIPv4 [] = false ∧ isIPv6 [] = false
    ∧ (∀ (s : JSString) (c : Char), c ∈ s → isTrimChar c = true →
        isIPv4 s = false ∧ isIPv6 s = false)
    ∧ isIPv4 " 1.2.3.4".toList = false ∧ isIPv4 "1.2.3.4 ".toList = false
    ∧ isIPv4 "1.2.3.4\n".toList = false ∧ isIPv4 "1.2.3.4\t".toList = false
    ∧ isIPv4 "1.2.3.4\r".toList = false ∧ isIPv6 "2001:db8:: ".toList = false
    ∧ isIPv6 " 2001:db8::".toList = false ∧ isIPv6 "2001:db8::\n".toList = false := by
  refine ⟨fun s => ⟨rfl, rfl⟩, by decide, by decide, ?_, by decide, by decide, by decide,
    by decide, by decide, by decide, by decide, by decide⟩
  intro s c hc hw
  have hna := trimChar_not_addressChar hw
  constructor
  · rw [Bool.eq_false_iff]
    intro h
    have := (accepted_isAddressChar (Or.inl h)).2 c hc
    rw [hna] at this
    exact Bool.false_ne_true this
  · rw [Bool.eq_false_iff]
    intro h
    have := (accepted_isAddressChar (Or.inr h)).2 c hc
    rw [hna] at this
    exact Bool.false_ne_true this

/-- An instance of C11: a tab inside an address. -/
theorem validators_reject_whitespace_witness :
    isIPv4 "1.2.\t3.4".toList = false ∧ isIPv6 "1.2.\t3.4".toList = false :=
  validators_reject_whitespace.2.2.2.1 "1.2.\t3.4".toList '\t' (by decide) (by decide)

/-! ## Fetch with retry: the final error -/

theorem exhausted_message (message : JSString) :
    exhausted message = ⟨"Failed after 3 retries: ".toList ++ message⟩ := by
  have h : "Failed after ".toList ++ natText MAX_RETRIES ++ " retries: ".toList
      = "Failed after 3 retries: ".toList := by decide
  simp only [exhausted, h]

/-- C14: when the promises of all three attempts are rejected, with errors `e0`, `e1` and
`e2` in this order, `fetchIPList` throws the error `Failed after 3 retries: ` followed by
the message of `e2`, the error of the third attempt; the messages of the first two
attempts appear only in the retry notices. -/
theorem fetchIPList_exhausted_message (toNumber : JSString → JSNumber) (env : Nat → Attempt)
    (url : JSString) (validator : Option Validator) (ev0 ev1 ev2 : List Event)
    (e0 e1 e2 : JSError)
    (h0 : attemptPromise toNumber validator url (env 0) = (ev0, .error e0))
    (h1 : attemptPromise toNumber validator url (env 1) = (ev1, .error e1))
    (h2 : attemptPromise toNumber validator url (env 2) = (ev2, .error e2)) :
    (fetchIPList toNumber env url validator).2
        = .thrown ⟨"Failed after 3 retries: ".toList ++ e2.message⟩
    ∧ (fetchIPList toNumber env url validator).1
        = ev0 ++ [retryNotice 1 url e0.message, .sleep RETRY_DELAY]
          ++ (ev1 ++ [retryNotice 2 url e1.message, .sleep RETRY_DELAY] ++ ev2)
    ∧ natText MAX_RETRIES = ['3'] := by
  rw [fetchLoop_all_rejected toNumber env url validator _ _ _ _ _ _ h0 h1 h2,
    exhausted_message]
  exact ⟨rfl, rfl, by decide⟩

/-- An instance of C14: three transport errors with different messages. -/
theorem fetchIPList_exhausted_message_witness :
    (fetchIPList decimalNumber
        (fun n => if n = 0 then .requestError "first".toList
          else if n = 1 then .requestError "second".toList
          else .requestError "third".toList)
        "u".toList (some isIPv4Fn)).2
      = .thrown ⟨"Failed after 3 retries: Request error: third".toList⟩ :=
  (fetchIPList_exhausted_message decimalNumber
    (fun n => if n = 0 then .requestError "first".toList
      else if n = 1 then .requestError "second".toList
      else .requestError "third".toList)
    "u".toList (some isIPv4Fn) [.request "u".toList] [.request "u".toList]
    [.request "u".toList] ⟨"Request error: first".toList⟩ ⟨"Request error: second".toList⟩
    ⟨"Request error: third".toList⟩ rfl rfl rfl).1

/-! ## Renderer: the timestamp only reaches the first line -/

theorem forEachIp_append_left (len : Nat) (pre : JSString) : ∀ (ips : List JSValue) (i : Nat)
    (acc : JSString),
    forEachIp len ips i (pre ++ acc) = (forEachIp len ips i acc).map (fun t => pre ++ t) := by
  intro ips
  induction ips with
  | nil => intro i acc; rfl
  | cons ip rest ih =>
    intro i acc
    simp only [forEachIp]
    cases toStringJS ip with
    | error e => rfl
    | ok s =>
      simp only
      split
      · rw [← ih]; simp only [List.append_assoc]
      · rw [← ih]; simp only [List.append_assoc]

/-- The script is the timestamp line followed by a text, or an error, that does not
depend on the timestamp. -/
theorem generateRouterOSScript_timestamp (ips : List JSValue) (listName commandPath : JSString) :
    ∃ r : Except JSError JSString, ∀ dateTime : JSString,
      generateRouterOSScript dateTime ips listName commandPath
        = r.map (fun body => "# Generated on ".toList ++ dateTime ++ '\n' :: body) := by
  refine ⟨generateRouterOSScript [] ips listName commandPath |>.map
    (fun s => s.drop "# Generated on \n".toList.length), fun dateTime => ?_⟩
  simp only [generateRouterOSScript]
  have key : ∀ T : JSString,
      forEachIp ips.length ips 0
        ("# Generated on ".toList ++ T ++ ['\n']
          ++ (commandPath ++ " firewall address-list remove [find list=".toList ++ listName
            ++ "]\n".toList)
          ++ ":local ips \x7b \\\n".toList)
      = (forEachIp ips.length ips 0
          ((commandPath ++ " firewall address-list remove [find list=".toList ++ listName
            ++ "]\n".toList)
          ++ ":local ips \x7b \\\n".toList)).map
          (fun t => ("# Generated on ".toList ++ T ++ ['\n']) ++ t) := by
    intro T
    rw [← forEachIp_append_left]
    simp only [List.append_assoc]
  rw [key dateTime, key []]
  cases forEachIp ips.length ips 0
      ((commandPath ++ " firewall address-list remove [find list=".toList ++ listName
        ++ "]\n".toList) ++ ":local ips \x7b \\\n".toList) with
  | error e => rfl
  | ok t =>
    simp only [Except.map, List.append_assoc, List.append_nil]
    have hd : ∀ x : JSString,
        List.drop "# Generated on \n".toList.length ("# Generated on ".toList ++ (['\n'] ++ x))
          = x := by
      intro x
      rfl
    rw [hd]
    rfl

theorem splitOn_append_sep (sep : Char) : ∀ (a b : JSString), sep ∉ a →
    splitOn sep (a ++ sep :: b) = a :: splitOn sep b := by
  intro a
  induction a with
  | nil => intro b _; simp [splitOn]
  | cons c a ih =>
    intro b h
    have hc : (c == sep) = false := by
      rw [beq_eq_false_iff_ne]
      intro hcs
      exact h (by simp [hcs])
    have := ih b (fun hm => h (List.mem_cons_of_mem _ hm))
    simp [splitOn, hc, this]

/-- C15: for the same entries, list name and command path and two timestamps without a
newline, the two scripts have the same number of lines and the same lines after the first
one, which is `# Generated on ` followed by the timestamp (or both calls raise the same
error, when an entry has no string form); with equal timestamps the results are equal. -/
theorem generateRouterOSScript_determinism (ips : List JSValue)
    (listName commandPath T1 T2 : JSString) (h1 : '\n' ∉ T1) (h2 : '\n' ∉ T2) :
    ((∃ e, generateRouterOSScript T1 ips listName commandPath = .error e
        ∧ generateRouterOSScript T2 ips listName commandPath = .error e)
      ∨ (∃ (s1 s2 : JSString) (rest : List JSString),
          generateRouterOSScript T1 ips listName commandPath = .ok s1
          ∧ generateRouterOSScript T2 ips listName commandPath = .ok s2
          ∧ splitOn '\n' s1 = ("# Generated on ".toList ++ T1) :: rest
          ∧ splitOn '\n' s2 = ("# Generated on ".toList ++ T2) :: rest
          ∧ (splitOn '\n' s1).length = (splitOn '\n' s2).length))
    ∧ (T1 = T2 → generateRouterOSScript T1 ips listName commandPath
        = generateRouterOSScript T2 ips listName commandPath) := by
  refine ⟨?_, fun h => by rw [h]⟩
  obtain ⟨r, hr⟩ := generateRouterOSScript_timestamp ips listName commandPath
  have hg : ∀ T : JSString, '\n' ∉ T → '\n' ∉ "# Generated on ".toList ++ T := by
    intro T hT hm
    rcases List.mem_append.1 hm with hm | hm
    · revert hm; decide
    · exact hT hm
  cases r with
  | error e => exact Or.inl ⟨e, by rw [hr]; rfl, by rw [hr]; rfl⟩
  | ok body =>
    refine Or.inr ⟨_, _, splitOn '\n' body, by rw [hr]; rfl, by rw [hr]; rfl, ?_, ?_, ?_⟩
    · exact splitOn_append_sep '\n' _ _ (hg T1 h1)
    · exact splitOn_append_sep '\n' _ _ (hg T2 h2)
    · rw [splitOn_append_sep '\n' _ _ (hg T1 h1), splitOn_append_sep '\n' _ _ (hg T2 h2)]
      rfl

/-- An instance of C15: one entry rendered at two different times. -/
theorem generateRouterOSScript_determinism_witness :
    (∃ e, generateRouterOSScript "2024-01-01 00:00:00".toList [.str "192.0.2.0/24".toList]
          "spamhaus-drop-v4".toList "/ip".toList = .error e
        ∧ generateRouterOSScript "2024-06-30 12:00:00".toList [.str "192.0.2.0/24".toList]
          "spamhaus-drop-v4".toList "/ip".toList = .error e)
      ∨ (∃ (s1 s2 : JSString) (rest : List JSString),
          generateRouterOSScript "2024-01-01 00:00:00".toList [.str "192.0.2.0/24".toList]
            "spamhaus-drop-v4".toList "/ip".toList = .ok s1
          ∧ generateRouterOSScript "2024-06-30 12:00:00".toList [.str "192.0.2.0/24".toList]
            "spamhaus-drop-v4".toList "/ip".toList = .ok s2
          ∧ splitOn '\n' s1 = ("# Generated on ".toList ++ "2024-01-01 00:00:00".toList) :: rest
          ∧ splitOn '\n' s2 = ("# Generated on ".toList ++ "2024-06-30 12:00:00".toList) :: rest
          ∧ (splitOn '\n' s1).length = (splitOn '\n' s2).length) :=
  (generateRouterOSScript_determinism [.str "192.0.2.0/24".toList]
    "spamhaus-drop-v4".toList "/ip".toList "2024-01-01 00:00:00".toList
    "2024-06-30 12:00:00".toList (by decide) (by decide)).1

/-! ## The IPv6 validator: the compression `::` -/

theorem countDoubleColon_no_colon : ∀ t : JSString, ':' ∉ t → countDoubleColon t = 0 := by
  intro t
  induction t with
  | nil => intro _; rfl
  | cons c t ih =>
    intro h
    have hc : (c == ':') = false := by
      rw [beq_eq_false_iff_ne]
      intro hcs
      exact h (by simp [hcs])
    simp [countDoubleColon, hc, ih (fun hm => h (List.mem_cons_of_mem _ hm))]

theorem countDoubleColon_append_left : ∀ (g t : JSString), ':' ∉ g →
    countDoubleColon (g ++ t) = countDoubleColon t := by
  intro g
  induction g with
  | nil => intro t _; rfl
  | cons c g ih =>
    intro t h
    have hc : (c == ':') = false := by
      rw [beq_eq_false_iff_ne]
      intro hcs
      exact h (by simp [hcs])
    simp [countDoubleColon, hc, ih t (fun hm => h (List.mem_cons_of_mem _ hm))]

theorem countDoubleColon_le_append : ∀ (a t : JSString),
    countDoubleColon t ≤ countDoubleColon (a ++ t) := by
  intro a
  induction a with
  | nil => intro t; exact Nat.le_refl _
  | cons c a ih =>
    intro t
    simp only [List.cons_append, countDoubleColon, List.append_eq]
    have := ih t
    omega

theorem head_hexGroup_append {g : JSString} (hg : IsHexGroup g) (t : JSString) :
    ∃ c r, g ++ t = c :: r ∧ isHexChar c = true := by
  cases g with
  | nil => exact absurd hg.1 (by simp)
  | cons c g => exact ⟨c, g ++ t, rfl, hg.2.2 c (by simp)⟩

theorem countDoubleColon_colonGroups : ∀ (gs : List JSString) (t : JSString),
    (∀ g ∈ gs, IsHexGroup g) →
    countDoubleColon (colonGroups gs ++ t)
      = (if gs ≠ [] ∧ t.head? = some ':' then 1 else 0) + countDoubleColon t := by
  intro gs
  induction gs with
  | nil => intro t _; simp [colonGroups]
  | cons g gs ih =>
    intro t hgs
    have hg := hgs g (by simp)
    have ih' := ih t (fun y hy => hgs y (List.mem_cons_of_mem _ hy))
    have hcg : colonGroups (g :: gs) ++ t = g ++ ':' :: (colonGroups gs ++ t) := by
      simp [colonGroups]
    rw [hcg, countDoubleColon_append_left _ _ (colon_not_mem_hexGroup hg)]
    simp only [countDoubleColon, beq_self_eq_true, Bool.true_and]
    rw [ih']
    cases gs with
    | nil => simp [colonGroups]
    | cons g' gs' =>
      obtain ⟨c, r, hcr, hc⟩ := head_hexGroup_append (hgs g' (by simp))
        (':' :: (colonGroups gs' ++ t))
      have hcg' : colonGroups (g' :: gs') ++ t = c :: r := by
        rw [← hcr]; simp [colonGroups]
      have hne : c ≠ ':' := by
        intro h; rw [h] at hc; revert hc; decide
      rw [hcg']
      simp [hne]

theorem accepted_tail_no_colon {last suffix : JSString}
    (hlast : IsHexGroup last ∨ last = []) (hsuf : IsCidrSuffix 3 suffix) :
    ':' ∉ last ++ suffix := by
  intro hm
  rcases List.mem_append.1 hm with hm | hm
  · rcases hlast with hl | rfl
    · exact colon_not_mem_hexGroup hl hm
    · simp at hm
  · rcases hsuf with rfl | ⟨ds, rfl, _, _, hds⟩
    · simp at hm
    · rcases List.mem_cons.1 hm with h | hm
      · revert h; decide
      · have := hds _ hm
        revert this; decide

/-- Every accepted string contains `::` exactly once. -/
theorem isIPv6_countDoubleColon {s : JSString} (h : isIPv6 s = true) :
    countDoubleColon s = 1 := by
  rw [isIPv6, RE.test_iff, matches_ipv6RE] at h
  obtain ⟨gs, last, suf, rfl, h1, _, hgs, hlast, hsuf⟩ := h
  have hne : gs ≠ [] := by
    intro h0; rw [h0] at h1; simp at h1
  have hnc := accepted_tail_no_colon hlast hsuf
  rw [countDoubleColon_colonGroups gs _ hgs]
  have h0 := countDoubleColon_no_colon _ hnc
  have hh : (last ++ suf).head? ≠ some ':' := by
    intro hh
    cases hls : last ++ suf with
    | nil => rw [hls] at hh; simp at hh
    | cons c r =>
      rw [hls] at hh hnc
      simp only [List.head?_cons, Option.some.injEq] at hh
      exact hnc (by simp [hh])
  have hb : ((last ++ suf).head? == some ':') = false := by
    rw [beq_eq_false_iff_ne]; exact hh
  simp only [countDoubleColon, beq_self_eq_true, Bool.true_and, h0, List.head?_cons, hb]
  simp [hne]

theorem exists_doubleColon_of_count : ∀ s : JSString, 1 ≤ countDoubleColon s →
    ∃ a b, s = a ++ ':' :: ':' :: b := by
  intro s
  induction s with
  | nil => intro h; simp [countDoubleColon] at h
  | cons c rest ih =>
    intro h
    simp only [countDoubleColon] at h
    by_cases hi : (c == ':' && rest.head? == some ':') = true
    · simp only [Bool.and_eq_true, beq_iff_eq] at hi
      obtain ⟨rfl, hr⟩ := hi
      cases rest with
      | nil => simp at hr
      | cons d b =>
        simp only [List.head?_cons, Option.some.injEq] at hr
        subst hr
        exact ⟨[], b, rfl⟩
    · simp only [hi, Bool.false_eq_true, if_false, Nat.zero_add] at h
      obtain ⟨a, b, rfl⟩ := ih h
      exact ⟨c :: a, b, rfl⟩

theorem countDoubleColon_pos_of_contains (a b : JSString) :
    1 ≤ countDoubleColon (a ++ ':' :: ':' :: b) := by
  have h1 := countDoubleColon_le_append a (':' :: ':' :: b)
  have h2 : 1 ≤ countDoubleColon (':' :: ':' :: b) := by
    simp [countDoubleColon]
  omega

theorem exists_last_split (sep : Char) : ∀ b : JSString, sep ∈ b →
    ∃ x y, b = x ++ sep :: y ∧ sep ∉ y := by
  intro b
  induction b with
  | nil => intro h; simp at h
  | cons c b ih =>
    intro h
    by_cases hb : sep ∈ b
    · obtain ⟨x, y, rfl, hy⟩ := ih hb
      exact ⟨c :: x, y, rfl, hy⟩
    · rcases List.mem_cons.1 h with rfl | h
      · exact ⟨[], b, rfl, hb⟩
      · exact absurd h hb

/-- After the `::` of an accepted string there is no further colon. -/
theorem isIPv6_no_colon_after {a b : JSString} (h : isIPv6 (a ++ ':' :: ':' :: b) = true) :
    ':' ∉ b := by
  intro hb
  rw [isIPv6, RE.test_iff, matches_ipv6RE] at h
  obtain ⟨gs, last, suf, heq, _, _, hgs, hlast, hsuf⟩ := h
  have hnc := accepted_tail_no_colon hlast hsuf
  obtain ⟨x, y, rfl, hy⟩ := exists_last_split ':' b hb
  have hrev : y.reverse ++ ':' :: (x.reverse ++ ':' :: ':' :: a.reverse)
      = (last ++ suf).reverse ++ ':' :: (colonGroups gs).reverse := by
    have := congrArg List.reverse heq
    simpa using this
  have hy' : ':' ∉ y.reverse := by simpa using hy
  have hnc' : ':' ∉ (last ++ suf).reverse := by
    intro hm; exact hnc (List.mem_reverse.1 hm)
  have hsplit := split_unique ':' _ _ _ _ hy' hnc' hrev
  have hcg : colonGroups gs = a ++ ':' :: ':' :: x := by
    have := congrArg List.reverse hsplit.2
    simpa using this.symm
  have h0 := countDoubleColon_colonGroups gs [] hgs
  simp only [List.append_nil, List.head?_nil, countDoubleColon] at h0
  have h1 := countDoubleColon_pos_of_contains a x
  rw [← hcg] at h1
  simp at h0
  omega

/-- C16, as stated, fails: no string with two or more occurrences of `::` is accepted by
`isIPv6`, and the example `a::b::c` is rejected. -/
theorem isIPv6_rejects_two_compressions :
    isIPv6 "a::b::c".toList = false
    ∧ countDoubleColon "a::b::c".toList = 2
    ∧ ¬ ∃ s : JSString, 2 ≤ countDoubleColon s ∧ isIPv6 s = true := by
  refine ⟨by decide, by decide, ?_⟩
  rintro ⟨s, h2, hs⟩
  have := isIPv6_countDoubleColon hs
  omega

/-- C16, amended: the IPv6 validator does forbid multiple `::` compressions: every string
for which `isIPv6` returns true contains `::` exactly once, and `a::b::c` is rejected. -/
theorem isIPv6_exactly_one_compression :
    (∀ s : JSString, isIPv6 s = true → countDoubleColon s = 1)
    ∧ isIPv6 "a::b::c".toList = false :=
  ⟨fun _ h => isIPv6_countDoubleColon h, by decide⟩

/-- An instance of C16 as amended. -/
theorem isIPv6_exactly_one_compression_witness :
    countDoubleColon "2001:db8::1".toList = 1 :=
  isIPv6_exactly_one_compression.1 "2001:db8::1".toList (by decide)

theorem mapLine_rejected_string (toNumber : JSString → JSNumber) (v : Validator)
    (line : JSString) (members : List (JSString × JSValue)) (s : JSString)
    (hp : JSON.parse toNumber (trim line) = .ok (.obj members))
    (hk : getKey "cidr".toList members = some (.str s))
    (hv : v.call (.str s) = .ok false) :
    mapLine toNumber (some v) line = (.null, true) := by
  rw [mapLine_eq]
  unfold acceptedCidr
  rw [hp]
  simp only [hk, hv]
  simp

/-- C17: every string accepted by `isIPv6` contains `::` and begins with a hexadecimal
digit.  So `isIPv6` rejects every string without `::` (a fully written address such as
`2001:db8:0:0:0:0:0:1`, with or without a prefix length), every string with a colon
after the `::` (such as `2001:db8::1:2`) and every string that starts with a colon (such
as `::1` and `::/0`), and the parser skips a record whose `cidr` is such a string. -/
theorem isIPv6_needs_compression :
    (∀ s : JSString, isIPv6 s = true →
      (∃ a b, s = a ++ ':' :: ':' :: b) ∧ (∃ c t, s = c :: t ∧ isHexChar c = true))
    ∧ (∀ s : JSString, (¬ ∃ a b, s = a ++ ':' :: ':' :: b) → isIPv6 s = false)
    ∧ isIPv6 "2001:db8:0:0:0:0:0:1".toList = false
    ∧ isIPv6 "2001:db8:0:0:0:0:0:1/128".toList = false
    ∧ (∀ a b : JSString, ':' ∈ b → isIPv6 (a ++ ':' :: ':' :: b) = false)
    ∧ isIPv6 "2001:db8::1:2".toList = false
    ∧ (∀ t : JSString, isIPv6 (':' :: t) = false)
    ∧ isIPv6 "::1".toList = false
    ∧ isIPv6 "::/0".toList = false
    ∧ (∀ (toNumber : JSString → JSNumber) (line : JSString)
        (members : List (JSString × JSValue)) (s : JSString),
        JSON.parse toNumber (trim line) = .ok (.obj members) →
        getKey "cidr".toList members = some (.str s) → isIPv6 s = false →
        mapLine toNumber (some isIPv6Fn) line = (.null, true))
    ∧ parseFeed decimalNumber (some isIPv6Fn)
        "\x7b\"cidr\":\"::1\"\x7d\n\x7b\"cidr\":\"2001:db8:0:0:0:0:0:1/128\"\x7d".toList
      = ([], 2) := by
  have hfirst : ∀ s : JSString, isIPv6 s = true →
      (∃ a b, s = a ++ ':' :: ':' :: b) ∧ (∃ c t, s = c :: t ∧ isHexChar c = true) := by
    intro s h
    refine ⟨exists_doubleColon_of_count s (by rw [isIPv6_countDoubleColon h]), ?_⟩
    rw [isIPv6, RE.test_iff, matches_ipv6RE] at h
    obtain ⟨gs, last, suf, rfl, h1, _, hgs, _, _⟩ := h
    cases gs with
    | nil => simp at h1
    | cons g gs =>
      obtain ⟨c, r, hcr, hc⟩ := head_hexGroup_append (hgs g (by simp))
        (':' :: (colonGroups gs ++ ':' :: (last ++ suf)))
      refine ⟨c, r, ?_, hc⟩
      rw [← hcr]
      simp [colonGroups]
  refine ⟨hfirst, ?_, by decide, by decide, ?_, by decide, ?_, by decide, by decide, ?_, rfl⟩
  · intro s hs
    rw [Bool.eq_false_iff]
    intro h
    exact hs (hfirst s h).1
  · intro a b hb
    rw [Bool.eq_false_iff]
    intro h
    exact isIPv6_no_colon_after h hb
  · intro t
    rw [Bool.eq_false_iff]
    intro h
    obtain ⟨c, t', heq, hc⟩ := (hfirst _ h).2
    simp only [List.cons.injEq] at heq
    rw [← heq.1] at hc
    revert hc
    decide
  · intro toNumber line members s hp hk hs
    exact mapLine_rejected_string toNumber isIPv6Fn line members s hp hk
      (by simp [isIPv6Fn, toStringJS, Except.map, hs])

/-- Instances of C17: a string with a colon after the compression, and a record carrying
an address that starts with the compression. -/
theorem isIPv6_needs_compression_witness :
    isIPv6 "2001:db8::1:2:3".toList = false
    ∧ mapLine decimalNumber (some isIPv6Fn) "\x7b\"cidr\":\"::1\"\x7d".toList
        = (.null, true) :=
  ⟨isIPv6_needs_compression.2.2.2.2.1 "2001:db8".toList "1:2:3".toList (by decide),
    isIPv6_needs_compression.2.2.2.2.2.2.2.2.2.1 decimalNumber
      "\x7b\"cidr\":\"::1\"\x7d".toList [("cidr".toList, .str "::1".toList)] "::1".toList
      rfl rfl (by decide)⟩

/-! ## The feed parser: every segment is counted once -/

theorem splitOn_ne_nil (sep : Char) (s : JSString) : splitOn sep s ≠ [] := by
  cases s with
  | nil => simp [splitOn]
  | cons c rest =>
    simp only [splitOn]
    split
    · simp
    · split <;> simp

theorem splitOn_length (sep : Char) : ∀ s : JSString,
    (splitOn sep s).length = s.count sep + 1 := by
  intro s
  induction s with
  | nil => rfl
  | cons c rest ih =>
    simp only [splitOn]
    by_cases hc : (c == sep) = true
    · simp only [hc, if_true, List.length_cons, ih]
      have : c = sep := by simpa using hc
      simp [this]
    · simp only [hc, Bool.false_eq_true, if_false]
      have hne : c ≠ sep := by simpa using hc
      cases hs : splitOn sep rest with
      | nil => exact absurd hs (splitOn_ne_nil sep rest)
      | cons seg segs =>
        rw [hs] at ih
        simp only [List.length_cons] at ih ⊢
        rw [ih, List.count_cons_of_ne (Ne.symm hne)]

/-- The callback either returns a value that passes the filter and leaves the counter
alone, or returns `null` and increments the counter. -/
theorem mapLine_dichotomy (toNumber : JSString → JSNumber) (validator : Option Validator)
    (line : JSString) :
    ((mapLine toNumber validator line).2 = true
        ∧ (mapLine toNumber validator line).1.notNull = false)
    ∨ ((mapLine toNumber validator line).2 = false
        ∧ (mapLine toNumber validator line).1.notNull = true) := by
  cases validator with
  | none => rw [mapLine_undefined]; exact Or.inl ⟨rfl, rfl⟩
  | some v =>
    rw [mapLine_eq]
    cases h : acceptedCidr toNumber v line with
    | none => exact Or.inl ⟨rfl, rfl⟩
    | some cidr => exact Or.inr ⟨rfl, truthy_notNull (acceptedCidr_truthy h).1⟩

/-- C19: for every feed body and validator argument, the number of entries plus the skip
count is the number of segments of the body split on newline, which is the number of
newline characters plus one; each segment either gives an entry and leaves the counter
alone, or gives `null`, which the filter removes, and increments the counter. -/
theorem parseFeed_counts_every_segment (toNumber : JSString → JSNumber)
    (validator : Option Validator) (data : JSString) :
    (parseFeed toNumber validator data).1.length + (parseFeed toNumber validator data).2
        = (splitOn '\n' data).length
    ∧ (splitOn '\n' data).length = data.count '\n' + 1
    ∧ ∀ line ∈ splitOn '\n' data,
        ((mapLine toNumber validator line).2 = true
            ∧ (mapLine toNumber validator line).1.notNull = false)
        ∨ ((mapLine toNumber validator line).2 = false
            ∧ (mapLine toNumber validator line).1.notNull = true) := by
  refine ⟨?_, splitOn_length '\n' data, fun line _ => mapLine_dichotomy toNumber validator line⟩
  unfold parseFeed
  rw [mapLines_eq]
  simp only [Nat.zero_add]
  generalize splitOn '\n' data = lines
  induction lines with
  | nil => rfl
  | cons l ls ih =>
    simp only [List.map_cons, List.filter_cons, List.length_cons]
    rcases mapLine_dichotomy toNumber validator l with ⟨h2, h1⟩ | ⟨h2, h1⟩
    · simp only [h1, h2, Bool.false_eq_true, if_false, if_true, List.length_cons]
      omega
    · simp only [h1, h2, Bool.false_eq_true, if_false, if_true, List.length_cons]
      omega

/-! ## Renderer: entries that passed a validator -/

theorem forEachIp_cons (len : Nat) (ip : JSValue) (rest : List JSValue) (i : Nat)
    (script s : JSString) (h : toStringJS ip = .ok s) :
    forEachIp len (ip :: rest) i script
      = forEachIp len rest (i + 1)
          ((if i < len - 1 then script ++ "\x7b \"".toList ++ s ++ "\" \x7d".toList ++ [';']
            else script ++ "\x7b \"".toList ++ s ++ "\" \x7d".toList) ++ ['\\', '\n']) := by
  simp only [forEachIp, h]

theorem forEachIp_texts : ∀ (ips : List JSValue) (texts : List JSString) (i : Nat)
    (script : JSString), List.Forall₂ (fun e t => toStringJS e = .ok t) ips texts →
    forEachIp (i + ips.length) ips i script = .ok (script ++ unlines (entryLines texts)) := by
  intro ips
  induction ips with
  | nil =>
    intro texts i script h
    cases h
    simp [forEachIp, unlines, entryLines]
  | cons e rest ih =>
    intro texts i script h
    cases h with
    | cons he hrest =>
      rename_i t ts
      have hlen : i + (e :: rest).length = (i + 1) + rest.length := by
        simp only [List.length_cons]; omega
      cases hrest with
      | nil =>
        rw [forEachIp_cons _ _ _ _ _ _ he]
        simp [forEachIp, unlines, entryLines]
      | cons he' hrest' =>
        rename_i e' t' rest' ts'
        have hlt : i < i + 1 + (e' :: rest').length - 1 := by
          simp only [List.length_cons]; omega
        rw [hlen, forEachIp_cons _ _ _ _ _ _ he]
        simp only [hlt, if_true]
        rw [ih (t' :: ts') (i + 1) _ (List.Forall₂.cons he' hrest')]
        simp [unlines, entryLines]

theorem unlines_count (lines : List JSString) (h : ∀ l ∈ lines, '\n' ∉ l) :
    (unlines lines).count '\n' = lines.length := by
  induction lines with
  | nil => rfl
  | cons l ls ih =>
    have h1 : l.count '\n' = 0 := List.count_eq_zero.2 (h l (by simp))
    have h2 := ih (fun x hx => h x (List.mem_cons_of_mem _ hx))
    simp only [unlines, List.flatMap_cons, List.count_append, List.length_cons] at h2 ⊢
    rw [h1, h2]
    simp
    omega

theorem splitOn_unlines (lines : List JSString) (h : ∀ l ∈ lines, '\n' ∉ l) :
    splitOn '\n' (unlines lines) = lines ++ [[]] := by
  induction lines with
  | nil => rfl
  | cons l ls ih =>
    have h2 := ih (fun x hx => h x (List.mem_cons_of_mem _ hx))
    simp only [unlines, List.flatMap_cons, List.append_assoc, List.singleton_append,
      List.cons_append, List.nil_append] at h2 ⊢
    rw [splitOn_append_sep '\n' _ _ (h l (by simp)), h2]

set_option maxRecDepth 8000 in
/-- The script for entries that have string forms is the text of `scriptLines`. -/
theorem generateRouterOSScript_lines (dateTime listName commandPath : JSString)
    (ips : List JSValue) (texts : List JSString)
    (h : List.Forall₂ (fun e t => toStringJS e = .ok t) ips texts) :
    generateRouterOSScript dateTime ips listName commandPath
      = .ok (unlines (scriptLines dateTime listName commandPath texts)) := by
  have h0 : ips.length = 0 + ips.length := by omega
  have e1 : "]\n".toList = [']'] ++ ['\n'] := rfl
  have e2 : ":local ips \x7b \\\n".toList = ":local ips \x7b \\".toList ++ ['\n'] := by decide
  have e3 : "\x7d;\n".toList = "\x7d;".toList ++ ['\n'] := by decide
  have e4 : ":foreach ip in=$ips do=\x7b\n".toList
      = ":foreach ip in=$ips do=\x7b".toList ++ ['\n'] := by decide
  have e5 : " address=$ip dynamic=yes timeout=".toList ++ natText TIMEOUT ++ "d\n".toList
      = " address=$ip dynamic=yes timeout=1d".toList ++ ['\n'] := by decide
  have e6 : "\x7d\n".toList = "\x7d".toList ++ ['\n'] := by decide
  have e7 : ":set ips\n".toList = ":set ips".toList ++ ['\n'] := by decide
  simp only [generateRouterOSScript]
  rw [h0, forEachIp_texts ips texts 0 _ h]
  simp only [e1, e2, e3, e4, e6, e7, List.append_assoc, e5]
  refine congrArg Except.ok ?_
  simp only [scriptLines, unlines, List.flatMap_cons, List.flatMap_append, List.flatMap_nil,
    List.append_assoc, List.cons_append, List.nil_append, List.append_nil,
    List.singleton_append]

theorem addressChar_not_syntax {c : Char} (h : isAddressChar c = true) :
    c ∉ scriptSyntaxChars := by
  intro hm
  simp only [scriptSyntaxChars, List.mem_cons, List.mem_singleton, List.not_mem_nil,
    or_false] at hm
  rcases hm with rfl | rfl | rfl | rfl | rfl | rfl | rfl | rfl | rfl | rfl <;>
    exact absurd h (by decide)

theorem accepted_text {e : JSValue}
    (h : isIPv4Fn.call e = .ok true ∨ isIPv6Fn.call e = .ok true) :
    ∃ t, toStringJS e = .ok t ∧ (isIPv4 t = true ∨ isIPv6 t = true) := by
  cases ht : toStringJS e with
  | error err =>
    rcases h with h | h <;> simp [isIPv4Fn, isIPv6Fn, ht, Except.map] at h
  | ok t =>
    refine ⟨t, rfl, ?_⟩
    rcases h with h | h
    · left; simpa [isIPv4Fn, ht, Except.map] using h
    · right; simpa [isIPv6Fn, ht, Except.map] using h

theorem exists_texts : ∀ ips : List JSValue,
    (∀ e ∈ ips, isIPv4Fn.call e = .ok true ∨ isIPv6Fn.call e = .ok true) →
    ∃ texts : List JSString, List.Forall₂ (fun e t => toStringJS e = .ok t) ips texts
      ∧ ∀ t ∈ texts, isIPv4 t = true ∨ isIPv6 t = true := by
  intro ips
  induction ips with
  | nil => intro _; exact ⟨[], List.Forall₂.nil, by simp⟩
  | cons e rest ih =>
    intro h
    obtain ⟨t, ht, hacc⟩ := accepted_text (h e (by simp))
    obtain ⟨ts, hts, haccs⟩ := ih (fun x hx => h x (List.mem_cons_of_mem _ hx))
    refine ⟨t :: ts, List.Forall₂.cons ht hts, ?_⟩
    intro x hx
    rcases List.mem_cons.1 hx with rfl | hx
    · exact hacc
    · exact haccs x hx

theorem entryLines_length : ∀ texts : List JSString,
    (entryLines texts).length = texts.length := by
  intro texts
  induction texts with
  | nil => rfl
  | cons t ts ih =>
    cases ts with
    | nil => rfl
    | cons u us => simp only [entryLines, List.length_cons] at ih ⊢; omega

theorem mem_entryLines : ∀ (texts : List JSString) (line : JSString),
    line ∈ entryLines texts →
    ∃ t ∈ texts, line = "\x7b \"".toList ++ t ++ "\" \x7d\\".toList
      ∨ line = "\x7b \"".toList ++ t ++ "\" \x7d;\\".toList := by
  intro texts
  induction texts with
  | nil => intro line h; simp [entryLines] at h
  | cons t ts ih =>
    intro line h
    cases ts with
    | nil =>
      simp only [entryLines, List.mem_singleton] at h
      exact ⟨t, by simp, Or.inl h⟩
    | cons u us =>
      simp only [entryLines, List.mem_cons] at h
      rcases h with h | h
      · exact ⟨t, by simp, Or.inr h⟩
      · obtain ⟨x, hx, hl⟩ := ih line (by simpa [entryLines] using h)
        exact ⟨x, List.mem_cons_of_mem _ hx, hl⟩

theorem entryLine_shape {t line : JSString} (ht : ∀ c ∈ t, c ∉ scriptSyntaxChars)
    (hl : line = "\x7b \"".toList ++ t ++ "\" \x7d\\".toList
      ∨ line = "\x7b \"".toList ++ t ++ "\" \x7d;\\".toList) :
    line.count '"' = 2 ∧ '\n' ∉ line := by
  have hq : t.count '"' = 0 :=
    List.count_eq_zero.2 (fun hm => ht _ hm (by simp [scriptSyntaxChars]))
  have hn : '\n' ∉ t := fun hm => ht _ hm (by simp [scriptSyntaxChars])
  rcases hl with rfl | rfl
  · refine ⟨?_, ?_⟩
    · simp only [List.count_append, hq]
      decide
    · intro hm
      simp only [List.mem_append] at hm
      rcases hm with (hm | hm) | hm
      · revert hm; decide
      · exact hn hm
      · revert hm; decide
  · refine ⟨?_, ?_⟩
    · simp only [List.count_append, hq]
      decide
    · intro hm
      simp only [List.mem_append] at hm
      rcases hm with (hm | hm) | hm
      · revert hm; decide
      · exact hn hm
      · revert hm; decide

theorem scriptLines_no_newline (T L P : JSString) (texts : List JSString)
    (hT : '\n' ∉ T) (hL : '\n' ∉ L) (hP : '\n' ∉ P)
    (ht : ∀ t ∈ texts, ∀ c ∈ t, c ∉ scriptSyntaxChars) :
    ∀ l ∈ scriptLines T L P texts, '\n' ∉ l := by
  intro l hl
  simp only [scriptLines, List.mem_append, List.mem_cons, List.mem_singleton,
    List.not_mem_nil, or_false] at hl
  rcases hl with ((rfl | rfl | rfl) | hl) | (rfl | rfl | rfl | rfl | rfl)
  · intro hm
    rcases List.mem_append.1 hm with hm | hm
    · revert hm; decide
    · exact hT hm
  · intro hm
    simp only [List.mem_append, List.mem_singleton] at hm
    rcases hm with ((hm | hm) | hm) | hm
    · exact hP hm
    · revert hm; decide
    · exact hL hm
    · revert hm; decide
  · decide
  · obtain ⟨t, htm, hshape⟩ := mem_entryLines texts l hl
    exact (entryLine_shape (ht t htm) hshape).2
  · decide
  · decide
  · intro hm
    simp only [List.mem_append, List.mem_cons] at hm
    rcases hm with (((hm | hm) | hm) | hm) | hm
    · revert hm; decide
    · exact hP hm
    · revert hm; decide
    · exact hL hm
    · revert hm; decide
  · decide
  · decide

/-- C18: every string accepted by `isIPv4` or `isIPv6` is non-empty and made of the
characters `0-9`, `a-f`, `A-F`, `.`, `:` and `/`, none of which is a double quote,
backslash, semicolon, `$`, bracket, brace, space or newline.  Hence, for entries that
all pass a validator (and a timestamp, list name and command path without newline), the
script is `N + 8` lines each ended by one newline, of which the `N` entry lines hold
exactly two double quotes each. -/
theorem accepted_entries_script :
    (∀ s : JSString, isIPv4 s = true ∨ isIPv6 s = true →
      s ≠ [] ∧ ∀ c ∈ s, isAddressChar c = true ∧ c ∉ scriptSyntaxChars)
    ∧ (∀ (T L P : JSString) (ips : List JSValue), '\n' ∉ T → '\n' ∉ L → '\n' ∉ P →
        (∀ e ∈ ips, isIPv4Fn.call e = .ok true ∨ isIPv6Fn.call e = .ok true) →
        ∃ texts : List JSString,
          List.Forall₂ (fun e t => toStringJS e = .ok t) ips texts
          ∧ (∀ t ∈ texts, isIPv4 t = true ∨ isIPv6 t = true)
          ∧ generateRouterOSScript T ips L P = .ok (unlines (scriptLines T L P texts))
          ∧ splitOn '\n' (unlines (scriptLines T L P texts)) = scriptLines T L P texts ++ [[]]
          ∧ (scriptLines T L P texts).length = ips.length + 8
          ∧ (unlines (scriptLines T L P texts)).count '\n' = ips.length + 8
          ∧ (entryLines texts).length = ips.length
          ∧ ∀ line ∈ entryLines texts, line.count '"' = 2 ∧ '\n' ∉ line) := by
  have hchars : ∀ s : JSString, isIPv4 s = true ∨ isIPv6 s = true →
      s ≠ [] ∧ ∀ c ∈ s, isAddressChar c = true ∧ c ∉ scriptSyntaxChars := by
    intro s hs
    obtain ⟨hne, hc⟩ := accepted_isAddressChar hs
    exact ⟨hne, fun c hm => ⟨hc c hm, addressChar_not_syntax (hc c hm)⟩⟩
  refine ⟨hchars, ?_⟩
  intro T L P ips hT hL hP hips
  obtain ⟨texts, hF, hacc⟩ := exists_texts ips hips
  have htc : ∀ t ∈ texts, ∀ c ∈ t, c ∉ scriptSyntaxChars :=
    fun t ht c hc => ((hchars t (hacc t ht)).2 c hc).2
  have hnl := scriptLines_no_newline T L P texts hT hL hP htc
  have hlen : texts.length = ips.length := (List.Forall₂.length_eq hF).symm
  have hsl : (scriptLines T L P texts).length = ips.length + 8 := by
    simp only [scriptLines, List.length_append, List.length_cons, List.length_nil,
      entryLines_length, hlen]
    omega
  refine ⟨texts, hF, hacc, generateRouterOSScript_lines T L P ips texts hF,
    splitOn_unlines _ hnl, hsl, ?_, ?_, ?_⟩
  · rw [unlines_count _ hnl, hsl]
  · rw [entryLines_length, hlen]
  · intro line hl
    obtain ⟨t, htm, hshape⟩ := mem_entryLines texts line hl
    exact entryLine_shape (htc t htm) hshape

/-- An instance of C18: the two entries of the repository's scenario C, rendered. -/
theorem accepted_entries_script_witness :
    ∃ texts : List JSString,
      List.Forall₂ (fun e t => toStringJS e = .ok t)
        [.str "203.0.113.0/24".toList, .str "203.0.113.128/25".toList] texts
      ∧ (∀ t ∈ texts, isIPv4 t = true ∨ isIPv6 t = true)
      ∧ generateRouterOSScript "2024-01-01 00:00:00".toList
          [.str "203.0.113.0/24".toList, .str "203.0.113.128/25".toList]
          "spamhaus-drop-v4".toList "/ip".toList
        = .ok (unlines (scriptLines "2024-01-01 00:00:00".toList "spamhaus-drop-v4".toList
            "/ip".toList texts))
      ∧ splitOn '\n' (unlines (scriptLines "2024-01-01 00:00:00".toList
            "spamhaus-drop-v4".toList "/ip".toList texts))
        = scriptLines "2024-01-01 00:00:00".toList "spamhaus-drop-v4".toList "/ip".toList texts
          ++ [[]]
      ∧ (scriptLines "2024-01-01 00:00:00".toList "spamhaus-drop-v4".toList "/ip".toList
          texts).length = 2 + 8
      ∧ (unlines (scriptLines "2024-01-01 00:00:00".toList "spamhaus-drop-v4".toList
          "/ip".toList texts)).count '\n' = 2 + 8
      ∧ (entryLines texts).length = 2
      ∧ ∀ line ∈ entryLines texts, line.count '"' = 2 ∧ '\n' ∉ line :=
  accepted_entries_script.2 "2024-01-01 00:00:00".toList "spamhaus-drop-v4".toList
    "/ip".toList [.str "203.0.113.0/24".toList, .str "203.0.113.128/25".toList]
    (by decide) (by decide) (by decide)
    (by
      intro e he
      simp only [List.mem_cons, List.mem_singleton, List.not_mem_nil, or_false] at he
      rcases he with rfl | rfl
      · exact Or.inl (by decide)
      · exact Or.inl (by decide))

/-! ## Fetch: what a resolved call returns, and where its requests go -/

theorem attemptPromise_resolved {toNumber : JSString → JSNumber} {v : Validator}
    {url : JSString} {a : Attempt} {ev : List Event} {ips : List JSValue}
    (h : attemptPromise toNumber (some v) url a = (ev, .ok ips)) :
    ∀ e ∈ ips, e.truthy = true ∧ v.call e = .ok true := by
  cases a with
  | requestError m => simp [attemptPromise] at h
  | response statusCode body =>
    simp only [attemptPromise] at h
    split at h
    · simp at h
    · rw [onEnd_fn] at h
      simp only [Prod.mk.injEq, Except.ok.injEq] at h
      obtain ⟨_, rfl⟩ := h
      rw [parseFeed_eq]
      intro e he
      obtain ⟨l, _, hl⟩ := List.mem_filterMap.1 he
      exact acceptedCidr_truthy hl

/-- Every entry of a resolved fetch is truthy and was accepted by the validator. -/
theorem fetchIPList_resolved_accepted {toNumber : JSString → JSNumber} {env : Nat → Attempt}
    {url : JSString} {v : Validator} {ev : List Event} {ips : List JSValue}
    (h : fetchIPList toNumber env url (some v) = (ev, .resolved ips)) :
    ∀ e ∈ ips, e.truthy = true ∧ v.call e = .ok true := by
  rcases h0 : attemptPromise toNumber (some v) url (env 0) with ⟨ev0, _ | l0⟩
  · rcases h1 : attemptPromise toNumber (some v) url (env 1) with ⟨ev1, _ | l1⟩
    · rcases h2 : attemptPromise toNumber (some v) url (env 2) with ⟨ev2, _ | l2⟩
      · rw [fetchLoop_all_rejected _ _ _ _ _ _ _ _ _ _ h0 h1 h2] at h
        simp at h
      · rw [fetchLoop_third_resolves _ _ _ _ _ _ _ _ _ _ h0 h1 h2] at h
        simp only [Prod.mk.injEq, FetchResult.resolved.injEq] at h
        obtain ⟨_, rfl⟩ := h
        exact attemptPromise_resolved h2
    · rw [fetchLoop_second_resolves _ _ _ _ _ _ _ _ h0 h1] at h
      simp only [Prod.mk.injEq, FetchResult.resolved.injEq] at h
      obtain ⟨_, rfl⟩ := h
      exact attemptPromise_resolved h1
  · rw [fetchLoop_first_resolves _ _ _ _ _ _ h0] at h
    simp only [Prod.mk.injEq, FetchResult.resolved.injEq] at h
    obtain ⟨_, rfl⟩ := h
    exact attemptPromise_resolved h0

theorem attemptPromise_requests (toNumber : JSString → JSNumber)
    (validator : Option Validator) (url : JSString) (a : Attempt) :
    ∀ u, Event.request u ∈ (attemptPromise toNumber validator url a).1 → u = url := by
  intro u hu
  cases a with
  | requestError m => simpa [attemptPromise] using hu
  | response statusCode body =>
    simp only [attemptPromise] at hu
    split at hu
    · simpa using hu
    · simp only [List.mem_cons, Event.request.injEq] at hu
      rcases hu with h | h
      · exact h
      · exfalso
        cases validator with
        | none => rw [onEnd_undefined] at h; simp at h
        | some v =>
          rw [onEnd_fn] at h
          simp only [List.mem_append] at h
          rcases h with h | h <;> split at h <;>
            simp [noValidNotice, skippedNotice] at h

/-- Every request of a fetch goes to the URL of that fetch. -/
theorem fetchIPList_requests (toNumber : JSString → JSNumber) (env : Nat → Attempt)
    (url : JSString) (validator : Option Validator) :
    ∀ u, Event.request u ∈ (fetchIPList toNumber env url validator).1 → u = url := by
  intro u hu
  have ha := attemptPromise_requests toNumber validator url
  rcases h0 : attemptPromise toNumber validator url (env 0) with ⟨ev0, e0 | l0⟩
  · rcases h1 : attemptPromise toNumber validator url (env 1) with ⟨ev1, e1 | l1⟩
    · rcases h2 : attemptPromise toNumber validator url (env 2) with ⟨ev2, e2 | l2⟩
      · rw [fetchLoop_all_rejected _ _ _ _ _ _ _ _ _ _ h0 h1 h2] at hu
        simp only [List.mem_append, List.mem_cons, List.mem_singleton, retryNotice,
          List.not_mem_nil, or_false] at hu
        rcases hu with (hu | hu | hu) | (hu | hu | hu) | hu
        · exact ha (env 0) u (by rw [h0]; exact hu)
        · cases hu
        · cases hu
        · exact ha (env 1) u (by rw [h1]; exact hu)
        · cases hu
        · cases hu
        · exact ha (env 2) u (by rw [h2]; exact hu)
      · rw [fetchLoop_third_resolves _ _ _ _ _ _ _ _ _ _ h0 h1 h2] at hu
        simp only [List.mem_append, List.mem_cons, List.mem_singleton, retryNotice,
          List.not_mem_nil, or_false] at hu
        rcases hu with (hu | hu | hu) | (hu | hu | hu) | hu
        · exact ha (env 0) u (by rw [h0]; exact hu)
        · cases hu
        · cases hu
        · exact ha (env 1) u (by rw [h1]; exact hu)
        · cases hu
        · cases hu
        · exact ha (env 2) u (by rw [h2]; exact hu)
    · rw [fetchLoop_second_resolves _ _ _ _ _ _ _ _ h0 h1] at hu
      simp only [List.mem_append, List.mem_cons, List.mem_singleton, retryNotice,
        List.not_mem_nil, or_false] at hu
      rcases hu with (hu | hu | hu) | hu
      · exact ha (env 0) u (by rw [h0]; exact hu)
      · cases hu
      · cases hu
      · exact ha (env 1) u (by rw [h1]; exact hu)
  · rw [fetchLoop_first_resolves _ _ _ _ _ _ h0] at hu
    exact ha (env 0) u (by rw [h0]; exact hu)

/-! ## The orchestrator -/

/-- Entries of a resolved fetch under `isIPv4` or `isIPv6` always render. -/
theorem render_ok_of_accepted (T L P : JSString) (ips : List JSValue)
    (h : ∀ e ∈ ips, isIPv4Fn.call e = .ok true ∨ isIPv6Fn.call e = .ok true) :
    ∃ texts : List JSString, List.Forall₂ (fun e t => toStringJS e = .ok t) ips texts
      ∧ generateRouterOSScript T ips L P = .ok (unlines (scriptLines T L P texts)) := by
  obtain ⟨texts, hF, _⟩ := exists_texts ips h
  exact ⟨texts, hF, generateRouterOSScript_lines T L P ips texts hF⟩

theorem processLists_thrown (toNumber : JSString → JSNumber) (w : World)
    (list : ListConfig) (rest : List ListConfig) (index : Nat) (events : List Event)
    (error : JSError)
    (h : fetchIPList toNumber (w.net list.url) list.url (some list.validator)
      = (events, .thrown error)) :
    processLists toNumber w (list :: rest) index
      = (fetchingNotice list :: events.map .io, .threw error) := by
  simp only [processLists, h]

theorem processLists_empty (toNumber : JSString → JSNumber) (w : World)
    (list : ListConfig) (rest : List ListConfig) (index : Nat) (events : List Event)
    (h : fetchIPList toNumber (w.net list.url) list.url (some list.validator)
      = (events, .resolved [])) :
    processLists toNumber w (list :: rest) index
      = (fetchingNotice list :: events.map .io ++ [noAddressesNotice list]
          ++ (processLists toNumber w rest (index + 1)).1,
         (processLists toNumber w rest (index + 1)).2) := by
  simp only [processLists, h]
  simp

theorem processLists_written (toNumber : JSString → JSNumber) (w : World)
    (list : ListConfig) (rest : List ListConfig) (index : Nat) (events : List Event)
    (ipData : List JSValue) (script : JSString)
    (h : fetchIPList toNumber (w.net list.url) list.url (some list.validator)
      = (events, .resolved ipData))
    (hne : ipData ≠ [])
    (hr : generateRouterOSScript (w.now index) ipData list.listName list.commandPath
      = .ok script)
    (hw : w.writeError (outputFile list) = none) :
    processLists toNumber w (list :: rest) index
      = (fetchingNotice list :: events.map .io
          ++ [foundNotice list ipData.length,
              .render ipData list.listName list.commandPath,
              .writeFile (outputFile list) script,
              savedNotice (outputFile list)]
          ++ (processLists toNumber w rest (index + 1)).1,
         (processLists toNumber w rest (index + 1)).2) := by
  have hl : (ipData.length == 0) = false := by
    cases ipData with
    | nil => exact absurd rfl hne
    | cons a b => rfl
  simp only [processLists, h, hl, hr, hw]
  simp

/-- Every call of the renderer and every file written in the loop comes from a list
whose fetch resolved with a non-empty entry sequence; the file is that list's
`build/<listName>.rsc` and holds the script rendered from those entries. -/
theorem processLists_provenance (toNumber : JSString → JSNumber) (w : World) :
    ∀ (lists : List ListConfig) (index : Nat),
      (∀ ips L P, MainEvent.render ips L P ∈ (processLists toNumber w lists index).1 →
        ips ≠ [] ∧ ∃ list ∈ lists, ∃ events,
          fetchIPList toNumber (w.net list.url) list.url (some list.validator)
            = (events, .resolved ips)
          ∧ L = list.listName ∧ P = list.commandPath)
      ∧ (∀ path content,
        MainEvent.writeFile path content ∈ (processLists toNumber w lists index).1 →
        ∃ list ∈ lists, ∃ events ipData i,
          fetchIPList toNumber (w.net list.url) list.url (some list.validator)
            = (events, .resolved ipData)
          ∧ ipData ≠ [] ∧ path = outputFile list
          ∧ generateRouterOSScript (w.now i) ipData list.listName list.commandPath
            = .ok content) := by
  intro lists
  induction lists with
  | nil =>
    intro index
    constructor
    · intro ips L P h; simp [processLists] at h
    · intro path content h; simp [processLists] at h
  | cons list rest ih =>
    intro index
    obtain ⟨ihr, ihw⟩ := ih (index + 1)
    have liftr : ∀ ips L P, MainEvent.render ips L P ∈
        (processLists toNumber w rest (index + 1)).1 →
        ips ≠ [] ∧ ∃ l ∈ list :: rest, ∃ events,
          fetchIPList toNumber (w.net l.url) l.url (some l.validator)
            = (events, .resolved ips)
          ∧ L = l.listName ∧ P = l.commandPath := by
      intro ips L P h
      obtain ⟨hne, l, hl, rest'⟩ := ihr ips L P h
      exact ⟨hne, l, List.mem_cons_of_mem _ hl, rest'⟩
    have liftw : ∀ path content, MainEvent.writeFile path content ∈
        (processLists toNumber w rest (index + 1)).1 →
        ∃ l ∈ list :: rest, ∃ events ipData i,
          fetchIPList toNumber (w.net l.url) l.url (some l.validator)
            = (events, .resolved ipData)
          ∧ ipData ≠ [] ∧ path = outputFile l
          ∧ generateRouterOSScript (w.now i) ipData l.listName l.commandPath
            = .ok content := by
      intro path content h
      obtain ⟨l, hl, rest'⟩ := ihw path content h
      exact ⟨l, List.mem_cons_of_mem _ hl, rest'⟩
    rcases hf : fetchIPList toNumber (w.net list.url) list.url (some list.validator)
      with ⟨events, r⟩
    cases r with
    | outOfFuel =>
      constructor
      · intro ips L P h
        simp [processLists, hf, fetchingNotice] at h
      · intro path content h
        simp [processLists, hf, fetchingNotice] at h
    | thrown error =>
      constructor
      · intro ips L P h
        simp [processLists, hf, fetchingNotice] at h
      · intro path content h
        simp [processLists, hf, fetchingNotice] at h
    | undefinedResult =>
      constructor
      · intro ips L P h
        simp [processLists, hf, fetchingNotice] at h
      · intro path content h
        simp [processLists, hf, fetchingNotice] at h
    | resolved ipData =>
      cases ipData with
      | nil =>
        rw [processLists_empty toNumber w list rest index events hf]
        constructor
        · intro ips L P h
          simp [fetchingNotice, noAddressesNotice] at h
          exact liftr ips L P h
        · intro path content h
          simp [fetchingNotice, noAddressesNotice] at h
          exact liftw path content h
      | cons a b =>
        cases hr : generateRouterOSScript (w.now index) (a :: b) list.listName
            list.commandPath with
        | error e =>
          constructor
          · intro ips L P h
            simp [processLists, hf, hr, fetchingNotice, foundNotice] at h
            obtain ⟨rfl, rfl, rfl⟩ := h
            exact ⟨by simp, list, by simp, events, hf, rfl, rfl⟩
          · intro path content h
            simp [processLists, hf, hr, fetchingNotice, foundNotice] at h
        | ok script =>
          cases hw : w.writeError (outputFile list) with
          | some e =>
            constructor
            · intro ips L P h
              simp [processLists, hf, hr, hw, fetchingNotice, foundNotice] at h
              obtain ⟨rfl, rfl, rfl⟩ := h
              exact ⟨by simp, list, by simp, events, hf, rfl, rfl⟩
            · intro path content h
              simp [processLists, hf, hr, hw, fetchingNotice, foundNotice] at h
          | none =>
            rw [processLists_written toNumber w list rest index events (a :: b) script hf
              (by simp) hr hw]
            constructor
            · intro ips L P h
              simp [fetchingNotice, foundNotice, savedNotice] at h
              rcases h with ⟨rfl, rfl, rfl⟩ | h
              · exact ⟨by simp, list, by simp, events, hf, rfl, rfl⟩
              · exact liftr ips L P h
            · intro path content h
              simp [fetchingNotice, foundNotice, savedNotice] at h
              rcases h with ⟨rfl, rfl⟩ | h
              · exact ⟨list, by simp, events, a :: b, index, hf, by simp, rfl, hr⟩
              · exact liftw path content h

theorem attemptPromise_head (toNumber : JSString → JSNumber) (validator : Option Validator)
    (url : JSString) (a : Attempt) :
    Event.request url ∈ (attemptPromise toNumber validator url a).1 := by
  cases a with
  | requestError m => simp [attemptPromise]
  | response statusCode body =>
    simp only [attemptPromise]
    split <;> simp

/-- Every fetch makes a request to its URL. -/
theorem fetchIPList_head (toNumber : JSString → JSNumber) (env : Nat → Attempt)
    (url : JSString) (validator : Option Validator) :
    Event.request url ∈ (fetchIPList toNumber env url validator).1 := by
  have ha := attemptPromise_head toNumber validator url (env 0)
  rcases h0 : attemptPromise toNumber validator url (env 0) with ⟨ev0, e0 | l0⟩
  · rw [h0] at ha
    rcases h1 : attemptPromise toNumber validator url (env 1) with ⟨ev1, e1 | l1⟩
    · rcases h2 : attemptPromise toNumber validator url (env 2) with ⟨ev2, e2 | l2⟩
      · rw [fetchLoop_all_rejected _ _ _ _ _ _ _ _ _ _ h0 h1 h2]
        simp [ha]
      · rw [fetchLoop_third_resolves _ _ _ _ _ _ _ _ _ _ h0 h1 h2]
        simp [ha]
    · rw [fetchLoop_second_resolves _ _ _ _ _ _ _ _ h0 h1]
      simp [ha]
  · rw [h0] at ha
    rw [fetchLoop_first_resolves _ _ _ _ _ _ h0]
    exact ha

theorem fetchIPList_not_outOfFuel (toNumber : JSString → JSNumber) (env : Nat → Attempt)
    (url : JSString) (validator : Option Validator) (events : List Event) :
    fetchIPList toNumber env url validator ≠ (events, .outOfFuel)
    ∧ fetchIPList toNumber env url validator ≠ (events, .undefinedResult) := by
  rcases fetchIPList_settles toNumber env url validator with ⟨l, h⟩ | ⟨e, h⟩
  · constructor <;> intro hc <;> rw [hc] at h <;> cases h
  · constructor <;> intro hc <;> rw [hc] at h <;> cases h

/-- The loop starts each list with a request to that list's URL. -/
theorem processLists_requests_head (toNumber : JSString → JSNumber) (w : World)
    (list : ListConfig) (rest : List ListConfig) (index : Nat) :
    MainEvent.io (.request list.url) ∈ (processLists toNumber w (list :: rest) index).1 := by
  have hh := fetchIPList_head toNumber (w.net list.url) list.url (some list.validator)
  have hio : ∀ events : List Event, Event.request list.url ∈ events →
      MainEvent.io (.request list.url) ∈ events.map MainEvent.io :=
    fun events h => List.mem_map.2 ⟨_, h, rfl⟩
  rcases hf : fetchIPList toNumber (w.net list.url) list.url (some list.validator)
    with ⟨events, r⟩
  rw [hf] at hh
  have hm := hio events hh
  simp only [processLists, hf]
  cases r with
  | outOfFuel => simp [hm]
  | thrown error => simp [hm]
  | undefinedResult => simp [hm]
  | resolved ipData =>
    simp only
    split
    · simp [hm]
    · split
      · simp [hm]
      · split <;> simp [hm]

theorem writtenFiles_append (xs ys : List MainEvent) :
    writtenFiles (xs ++ ys) = writtenFiles xs ++ writtenFiles ys := by
  induction xs with
  | nil => rfl
  | cons x xs ih =>
    cases x <;> simp [writtenFiles, ih]

theorem writtenFiles_io (events : List Event) :
    writtenFiles (events.map MainEvent.io) = [] := by
  induction events with
  | nil => rfl
  | cons e es ih => simp [writtenFiles, ih]

theorem ensureOutputDir_events (w : World) :
    writtenFiles (ensureOutputDir w).1 = []
    ∧ (∀ ips L P, MainEvent.render ips L P ∉ (ensureOutputDir w).1)
    ∧ (∀ e, MainEvent.io e ∉ (ensureOutputDir w).1)
    ∧ (∀ p c, MainEvent.writeFile p c ∉ (ensureOutputDir w).1) := by
  unfold ensureOutputDir
  split
  · simp [writtenFiles]
  · split <;> simp [writtenFiles]

/-- With the output directory in place, the run is the loop over `LISTS`, followed by the
error report and `process.exit(1)` when the loop threw. -/
theorem main_of_setup (toNumber : JSString → JSNumber) (w : World)
    (hs : (ensureOutputDir w).2 = none) :
    main toNumber w
      = match processLists toNumber w LISTS 0 with
        | (events, .done) => ((ensureOutputDir w).1 ++ events, .completed)
        | (events, .threw error) =>
          ((ensureOutputDir w).1 ++ events ++ [.errorLog error.message, .exit 1], .exited 1)
        | (events, .outOfFuel) => ((ensureOutputDir w).1 ++ events, .outOfFuel) := by
  unfold main
  rcases he : ensureOutputDir w with ⟨setup, err⟩
  rw [he] at hs
  simp only at hs
  subst hs
  rfl

theorem main_of_setup_error (toNumber : JSString → JSNumber) (w : World) (error : JSError)
    (hs : (ensureOutputDir w).2 = some error) :
    main toNumber w
      = ((ensureOutputDir w).1 ++ [.errorLog error.message, .exit 1], .exited 1) := by
  unfold main
  rcases he : ensureOutputDir w with ⟨setup, err⟩
  rw [he] at hs
  simp only at hs
  subst hs
  rfl

theorem main_mem_loop (toNumber : JSString → JSNumber) (w : World) :
    (∀ ips L P, MainEvent.render ips L P ∈ (main toNumber w).1 →
      MainEvent.render ips L P ∈ (processLists toNumber w LISTS 0).1)
    ∧ (∀ p c, MainEvent.writeFile p c ∈ (main toNumber w).1 →
      MainEvent.writeFile p c ∈ (processLists toNumber w LISTS 0).1)
    ∧ (∀ e, MainEvent.io e ∈ (main toNumber w).1 →
      MainEvent.io e ∈ (processLists toNumber w LISTS 0).1) := by
  obtain ⟨_, hr, hio, hw⟩ := ensureOutputDir_events w
  cases hs : (ensureOutputDir w).2 with
  | some error =>
    rw [main_of_setup_error toNumber w error hs]
    refine ⟨fun ips L P h => ?_, fun p c h => ?_, fun e h => ?_⟩
    · simp at h; exact absurd h (hr ips L P)
    · simp at h; exact absurd h (hw p c)
    · simp at h; exact absurd h (hio e)
  | none =>
    rw [main_of_setup toNumber w hs]
    rcases processLists toNumber w LISTS 0 with ⟨events, r⟩
    cases r with
    | done =>
      refine ⟨fun ips L P h => ?_, fun p c h => ?_, fun e h => ?_⟩
      · simp at h; rcases h with h | h
        · exact absurd h (hr ips L P)
        · exact h
      · simp at h; rcases h with h | h
        · exact absurd h (hw p c)
        · exact h
      · simp at h; rcases h with h | h
        · exact absurd h (hio e)
        · exact h
    | threw error =>
      refine ⟨fun ips L P h => ?_, fun p c h => ?_, fun e h => ?_⟩
      · simp at h; rcases h with h | h
        · exact absurd h (hr ips L P)
        · exact h
      · simp at h; rcases h with h | h
        · exact absurd h (hw p c)
        · exact h
      · simp at h; rcases h with h | h
        · exact absurd h (hio e)
        · exact h
    | outOfFuel =>
      refine ⟨fun ips L P h => ?_, fun p c h => ?_, fun e h => ?_⟩
      · simp at h; rcases h with h | h
        · exact absurd h (hr ips L P)
        · exact h
      · simp at h; rcases h with h | h
        · exact absurd h (hw p c)
        · exact h
      · simp at h; rcases h with h | h
        · exact absurd h (hio e)
        · exact h

theorem main_loop_mem (toNumber : JSString → JSNumber) (w : World)
    (hs : (ensureOutputDir w).2 = none) :
    ∀ ev ∈ (processLists toNumber w LISTS 0).1, ev ∈ (main toNumber w).1 := by
  intro ev hev
  rw [main_of_setup toNumber w hs]
  rcases hp : processLists toNumber w LISTS 0 with ⟨events, r⟩
  rw [hp] at hev
  cases r <;> simp [hev]

theorem LISTS_eq : LISTS = [listConfig "v4".toList, listConfig "v6".toList] := rfl

/-- Under the validators of `LISTS` the entries of a resolved fetch always render. -/
theorem LISTS_render_ok (toNumber : JSString → JSNumber) (w : World) (list : ListConfig)
    (hl : list ∈ LISTS) (events : List Event) (ipData : List JSValue) (T : JSString)
    (hf : fetchIPList toNumber (w.net list.url) list.url (some list.validator)
      = (events, .resolved ipData)) :
    ∃ script, generateRouterOSScript T ipData list.listName list.commandPath = .ok script := by
  have hacc := fetchIPList_resolved_accepted hf
  have hv : list.validator = isIPv4Fn ∨ list.validator = isIPv6Fn := by
    simp only [LISTS_eq, List.mem_cons, List.mem_singleton, List.not_mem_nil, or_false] at hl
    rcases hl with rfl | rfl
    · exact Or.inl rfl
    · exact Or.inr rfl
  obtain ⟨texts, _, hr⟩ := render_ok_of_accepted T list.listName list.commandPath ipData
    (fun e he => by
      rcases hv with hv | hv
      · exact Or.inl (hv ▸ (hacc e he).2)
      · exact Or.inr (hv ▸ (hacc e he).2))
  exact ⟨_, hr⟩

/-- C12: in a run, whatever the two fetches return, `generateRouterOSScript` is only
called with a non-empty entry sequence, and a file is only written for a list of `LISTS`
whose fetch resolved with a non-empty sequence: the file `build/<listName>.rsc`, holding
the script rendered from those entries.  The lists are processed in the order v4, v6.
When the v4 fetch resolves with no entry, no file is written for v4 and the v6 feed is
requested.  A non-empty v4 result is rendered and written to
`build/spamhaus-drop-v4.rsc`, and, v4 having gone through, a non-empty v6 result to
`build/spamhaus-drop-v6.rsc`.  No list of `LISTS` whose fetch resolves with no entry gets
a file `build/<listName>.rsc`. -/
theorem main_skips_empty_lists (toNumber : JSString → JSNumber) (w : World) :
    (∀ ips L P, MainEvent.render ips L P ∈ (main toNumber w).1 → ips ≠ [])
    ∧ (∀ path content, MainEvent.writeFile path content ∈ (main toNumber w).1 →
        ∃ list ∈ LISTS, ∃ events ipData i,
          fetchIPList toNumber (w.net list.url) list.url (some list.validator)
            = (events, .resolved ipData)
          ∧ ipData ≠ []
          ∧ path = "build/".toList ++ list.listName ++ ".rsc".toList
          ∧ generateRouterOSScript (w.now i) ipData list.listName list.commandPath
            = .ok content)
    ∧ LISTS.map (fun l => l.listName) = ["spamhaus-drop-v4".toList, "spamhaus-drop-v6".toList]
    ∧ (∀ events4, (ensureOutputDir w).2 = none →
        fetchIPList toNumber (w.net (listConfig "v4".toList).url) (listConfig "v4".toList).url
            (some isIPv4Fn) = (events4, .resolved []) →
        (∀ content, MainEvent.writeFile "build/spamhaus-drop-v4.rsc".toList content
            ∉ (main toNumber w).1)
        ∧ MainEvent.io (.request "https://www.spamhaus.org/drop/drop_v6.json".toList)
            ∈ (main toNumber w).1)
    ∧ (∀ events4 ip4, (ensureOutputDir w).2 = none →
        fetchIPList toNumber (w.net (listConfig "v4".toList).url) (listConfig "v4".toList).url
            (some isIPv4Fn) = (events4, .resolved ip4) →
        ip4 ≠ [] → w.writeError "build/spamhaus-drop-v4.rsc".toList = none →
        ∃ script,
          generateRouterOSScript (w.now 0) ip4 "spamhaus-drop-v4".toList "/ip".toList
            = .ok script
          ∧ MainEvent.writeFile "build/spamhaus-drop-v4.rsc".toList script
            ∈ (main toNumber w).1)
    ∧ (∀ events4 ip4 events6 ip6, (ensureOutputDir w).2 = none →
        fetchIPList toNumber (w.net (listConfig "v4".toList).url) (listConfig "v4".toList).url
            (some isIPv4Fn) = (events4, .resolved ip4) →
        (ip4 = [] ∨ w.writeError "build/spamhaus-drop-v4.rsc".toList = none) →
        fetchIPList toNumber (w.net (listConfig "v6".toList).url) (listConfig "v6".toList).url
            (some isIPv6Fn) = (events6, .resolved ip6) →
        ip6 ≠ [] → w.writeError "build/spamhaus-drop-v6.rsc".toList = none →
        ∃ script,
          generateRouterOSScript (w.now 1) ip6 "spamhaus-drop-v6".toList "/ipv6".toList
            = .ok script
          ∧ MainEvent.writeFile "build/spamhaus-drop-v6.rsc".toList script
            ∈ (main toNumber w).1)
    ∧ (∀ list ∈ LISTS, ∀ events,
        fetchIPList toNumber (w.net list.url) list.url (some list.validator)
          = (events, .resolved []) →
        ∀ content, MainEvent.writeFile ("build/".toList ++ list.listName ++ ".rsc".toList)
          content ∉ (main toNumber w).1) := by
  obtain ⟨hmr, hmw, hmio⟩ := main_mem_loop toNumber w
  obtain ⟨hpr, hpw⟩ := processLists_provenance toNumber w LISTS 0
  have hwrite : ∀ path content, MainEvent.writeFile path content ∈ (main toNumber w).1 →
      ∃ list ∈ LISTS, ∃ events ipData i,
        fetchIPList toNumber (w.net list.url) list.url (some list.validator)
          = (events, .resolved ipData)
        ∧ ipData ≠ []
        ∧ path = "build/".toList ++ list.listName ++ ".rsc".toList
        ∧ generateRouterOSScript (w.now i) ipData list.listName list.commandPath
          = .ok content := by
    intro path content h
    obtain ⟨list, hl, events, ipData, i, hf, hne, hp, hr⟩ := hpw path content (hmw _ _ h)
    exact ⟨list, hl, events, ipData, i, hf, hne, by rw [hp]; rfl, hr⟩
  have step4 : ∀ events4 ip4,
      fetchIPList toNumber (w.net (listConfig "v4".toList).url) (listConfig "v4".toList).url
          (some isIPv4Fn) = (events4, .resolved ip4) →
      ip4 ≠ [] → w.writeError "build/spamhaus-drop-v4.rsc".toList = none →
      ∃ script,
        generateRouterOSScript (w.now 0) ip4 "spamhaus-drop-v4".toList "/ip".toList
          = .ok script
        ∧ processLists toNumber w LISTS 0
          = (fetchingNotice (listConfig "v4".toList) :: events4.map .io
              ++ [foundNotice (listConfig "v4".toList) ip4.length,
                  .render ip4 "spamhaus-drop-v4".toList "/ip".toList,
                  .writeFile "build/spamhaus-drop-v4.rsc".toList script,
                  savedNotice "build/spamhaus-drop-v4.rsc".toList]
              ++ (processLists toNumber w [listConfig "v6".toList] 1).1,
             (processLists toNumber w [listConfig "v6".toList] 1).2) := by
    intro events4 ip4 h4 hne hw
    obtain ⟨script, hr⟩ := LISTS_render_ok toNumber w (listConfig "v4".toList)
      (by simp [LISTS_eq]) events4 ip4 (w.now 0) h4
    exact ⟨script, hr, processLists_written toNumber w (listConfig "v4".toList)
      [listConfig "v6".toList] 0 events4 ip4 script h4 hne hr hw⟩
  have hnofile : ∀ list ∈ LISTS, ∀ events,
      fetchIPList toNumber (w.net list.url) list.url (some list.validator)
        = (events, .resolved []) →
      ∀ content, MainEvent.writeFile ("build/".toList ++ list.listName ++ ".rsc".toList)
        content ∉ (main toNumber w).1 := by
    intro list hl events hf content hc
    obtain ⟨list', hl', events', ipData, i, hf', hne, hp, _⟩ := hwrite _ _ hc
    simp only [LISTS_eq, List.mem_cons, List.mem_singleton, List.not_mem_nil,
      or_false] at hl hl'
    have hsame : list = list' → False := by
      intro h
      subst h
      have : (events', FetchResult.resolved ipData) = (events, FetchResult.resolved []) :=
        hf'.symm.trans hf
      simp only [Prod.mk.injEq, FetchResult.resolved.injEq] at this
      exact hne this.2
    rcases hl with rfl | rfl <;> rcases hl' with rfl | rfl
    · exact hsame rfl
    · revert hp; decide
    · revert hp; decide
    · exact hsame rfl
  refine ⟨fun ips L P h => (hpr ips L P (hmr _ _ _ h)).1, hwrite, by decide, ?_, ?_, ?_,
    hnofile⟩
  · intro events4 hs h4
    constructor
    · intro content hc
      obtain ⟨list, hl, events, ipData, i, hf, hne, hp, _⟩ := hwrite _ _ hc
      simp only [LISTS_eq, List.mem_cons, List.mem_singleton, List.not_mem_nil,
        or_false] at hl
      rcases hl with rfl | rfl
      · have : (events, FetchResult.resolved ipData) = (events4, FetchResult.resolved []) :=
          hf.symm.trans h4
        simp only [Prod.mk.injEq, FetchResult.resolved.injEq] at this
        exact hne this.2
      · revert hp; decide
    · apply main_loop_mem toNumber w hs
      rw [LISTS_eq, processLists_empty toNumber w _ _ 0 events4 h4]
      have := processLists_requests_head toNumber w (listConfig "v6".toList) [] 1
      simp only [List.mem_append]
      exact Or.inr this
  · intro events4 ip4 hs h4 hne hw
    obtain ⟨script, hr, hp⟩ := step4 events4 ip4 h4 hne hw
    refine ⟨script, hr, main_loop_mem toNumber w hs _ ?_⟩
    rw [hp]
    simp
  · intro events4 ip4 events6 ip6 hs h4 hgo h6 hne6 hw6
    obtain ⟨script, hr⟩ := LISTS_render_ok toNumber w (listConfig "v6".toList)
      (by simp [LISTS_eq]) events6 ip6 (w.now 1) h6
    have ho : outputFile (listConfig "v6".toList) = "build/spamhaus-drop-v6.rsc".toList := by
      decide
    have h6' := processLists_written toNumber w (listConfig "v6".toList) [] 1 events6 ip6
      script h6 hne6 hr hw6
    rw [ho] at h6'
    refine ⟨script, hr, main_loop_mem toNumber w hs _ ?_⟩
    by_cases he : ip4 = []
    · subst he
      rw [LISTS_eq, processLists_empty toNumber w _ _ 0 events4 h4, h6']
      simp
    · rcases hgo with h | hw4
      · exact absurd h he
      · obtain ⟨script4, _, hp⟩ := step4 events4 ip4 h4 he hw4
        rw [hp, h6']
        simp

/-- An instance of C12: the v4 feed is empty and the v6 feed has one record. -/
theorem main_skips_empty_lists_witness :
    (∀ content, MainEvent.writeFile "build/spamhaus-drop-v4.rsc".toList content
        ∉ (main decimalNumber worldV4Empty).1)
    ∧ MainEvent.io (.request "https://www.spamhaus.org/drop/drop_v6.json".toList)
        ∈ (main decimalNumber worldV4Empty).1 :=
  (main_skips_empty_lists decimalNumber worldV4Empty).2.2.2.1
    [.request "https://www.spamhaus.org/drop/drop_v4.json".toList,
      noValidNotice "isIPv4".toList, skippedNotice 1 "isIPv4".toList]
    rfl rfl

/-- A fetch that throws for any list of the loop makes the loop end by a throw. -/
theorem processLists_threw (toNumber : JSString → JSNumber) (w : World) :
    ∀ (lists : List ListConfig) (index : Nat),
      (∃ list ∈ lists, ∃ events error,
        fetchIPList toNumber (w.net list.url) list.url (some list.validator)
          = (events, .thrown error)) →
      ∃ e, (processLists toNumber w lists index).2 = .threw e := by
  intro lists
  induction lists with
  | nil => rintro index ⟨list, hl, _⟩; simp at hl
  | cons l rest ih =>
    rintro index ⟨list, hl, events, error, hf⟩
    rcases hfl : fetchIPList toNumber (w.net l.url) l.url (some l.validator)
      with ⟨ev, r⟩
    cases r with
    | outOfFuel => exact absurd hfl (fetchIPList_not_outOfFuel _ _ _ _ _).1
    | undefinedResult => exact absurd hfl (fetchIPList_not_outOfFuel _ _ _ _ _).2
    | thrown e => exact ⟨e, by rw [processLists_thrown toNumber w l rest index ev e hfl]⟩
    | resolved ipData =>
      have hrest : ∃ list ∈ rest, ∃ events error,
          fetchIPList toNumber (w.net list.url) list.url (some list.validator)
            = (events, .thrown error) := by
        rcases List.mem_cons.1 hl with rfl | hl
        · rw [hfl] at hf; cases hf
        · exact ⟨list, hl, events, error, hf⟩
      obtain ⟨e, he⟩ := ih (index + 1) hrest
      cases ipData with
      | nil =>
        exact ⟨e, by rw [processLists_empty toNumber w l rest index ev hfl]; exact he⟩
      | cons a b =>
        cases hr : generateRouterOSScript (w.now index) (a :: b) l.listName l.commandPath with
        | error e' => exact ⟨e', by simp [processLists, hfl, hr]⟩
        | ok script =>
          cases hw : w.writeError (outputFile l) with
          | some e' => exact ⟨e', by simp [processLists, hfl, hr, hw]⟩
          | none =>
            exact ⟨e, by
              rw [processLists_written toNumber w l rest index ev (a :: b) script hfl
                (by simp) hr hw]
              exact he⟩

/-- C13: a fetch that fails is fatal to the run.  In the loop a thrown fetch ends the
loop at once, whatever lists follow, so no later list is fetched, rendered or written;
the run then reports the error and exits with code 1, for the failure of any list of
`LISTS`.  When the v4 fetch fails, the v6 feed is never requested, the renderer is never
called and no file is written. -/
theorem main_fetch_failure_is_fatal (toNumber : JSString → JSNumber) (w : World) :
    (∀ (list : ListConfig) (rest : List ListConfig) (index : Nat) (events : List Event)
        (error : JSError),
        fetchIPList toNumber (w.net list.url) list.url (some list.validator)
          = (events, .thrown error) →
        processLists toNumber w (list :: rest) index
          = (fetchingNotice list :: events.map .io, .threw error))
    ∧ (∀ list ∈ LISTS, ∀ (events : List Event) (error : JSError),
        fetchIPList toNumber (w.net list.url) list.url (some list.validator)
          = (events, .thrown error) →
        (main toNumber w).2 = .exited 1
        ∧ MainEvent.exit 1 ∈ (main toNumber w).1)
    ∧ (∀ (events : List Event) (error : JSError),
        fetchIPList toNumber (w.net (listConfig "v4".toList).url)
            (listConfig "v4".toList).url (some isIPv4Fn) = (events, .thrown error) →
        MainEvent.io (.request "https://www.spamhaus.org/drop/drop_v6.json".toList)
            ∉ (main toNumber w).1
        ∧ (∀ ips L P, MainEvent.render ips L P ∉ (main toNumber w).1)
        ∧ (∀ path content, MainEvent.writeFile path content ∉ (main toNumber w).1)
        ∧ ((ensureOutputDir w).2 = none →
            (main toNumber w).1
              = (ensureOutputDir w).1 ++ fetchingNotice (listConfig "v4".toList)
                  :: events.map .io ++ [.errorLog error.message, .exit 1])) := by
  obtain ⟨hmr, hmw, hmio⟩ := main_mem_loop toNumber w
  refine ⟨fun list rest index events error h =>
    processLists_thrown toNumber w list rest index events error h, ?_, ?_⟩
  · intro list hl events error hf
    cases hs : (ensureOutputDir w).2 with
    | some e =>
      rw [main_of_setup_error toNumber w e hs]
      exact ⟨rfl, by simp⟩
    | none =>
      obtain ⟨e, he⟩ := processLists_threw toNumber w LISTS 0 ⟨list, hl, events, error, hf⟩
      rw [main_of_setup toNumber w hs]
      rcases hp : processLists toNumber w LISTS 0 with ⟨evs, r⟩
      rw [hp] at he
      simp only at he
      subst he
      exact ⟨rfl, by simp⟩
  · intro events error hf
    have hp : processLists toNumber w LISTS 0
        = (fetchingNotice (listConfig "v4".toList) :: events.map .io, .threw error) :=
      processLists_thrown toNumber w (listConfig "v4".toList) [listConfig "v6".toList] 0
        events error hf
    refine ⟨?_, ?_, ?_, ?_⟩
    · intro h
      have h' := hmio _ h
      rw [hp] at h'
      simp only [fetchingNotice, List.mem_cons, MainEvent.io.injEq, List.mem_map] at h'
      rcases h' with h' | ⟨e, he, h'⟩
      · cases h'
      · subst h'
        have hu := fetchIPList_requests toNumber _ _ _ _ (by rw [hf]; exact he)
        revert hu
        decide
    · intro ips L P h
      have h' := hmr _ _ _ h
      rw [hp] at h'
      simp [fetchingNotice] at h'
    · intro path content h
      have h' := hmw _ _ h
      rw [hp] at h'
      simp [fetchingNotice] at h'
    · intro hs
      rw [main_of_setup toNumber w hs, hp]

/-- An instance of C13: every request for the v4 feed answers 503. -/
theorem main_fetch_failure_is_fatal_witness :
    (main decimalNumber worldV4Down).2 = .exited 1
    ∧ MainEvent.exit 1 ∈ (main decimalNumber worldV4Down).1 :=
  (main_fetch_failure_is_fatal decimalNumber worldV4Down).2.1 (listConfig "v4".toList)
    (by simp [LISTS_eq])
    [.request "https://www.spamhaus.org/drop/drop_v4.json".toList,
      retryNotice 1 "https://www.spamhaus.org/drop/drop_v4.json".toList
        "Request failed with status 503".toList,
      .sleep 1000,
      .request "https://www.spamhaus.org/drop/drop_v4.json".toList,
      retryNotice 2 "https://www.spamhaus.org/drop/drop_v4.json".toList
        "Request failed with status 503".toList,
      .sleep 1000,
      .request "https://www.spamhaus.org/drop/drop_v4.json".toList]
    (exhausted "Request failed with status 503".toList) rfl

theorem writtenFiles_ensureOutputDir (w : World) : writtenFiles (ensureOutputDir w).1 = [] :=
  (ensureOutputDir_events w).1

/-- C20: the run is not atomic.  When the v4 fetch resolves with a non-empty sequence and
its file can be written, and the v6 fetch then fails, the run has written
`build/spamhaus-drop-v4.rsc` with the rendered v4 script before the v6 fetch starts, and
ends with the error report and exit code 1 without touching that file again: the files
written are exactly that one.  When v4 resolved with no entry and v6 fails, or when v4
itself fails, no file has been written. -/
theorem main_not_atomic (toNumber : JSString → JSNumber) (w : World) :
    (∀ (events4 events6 : List Event) (ip4 : List JSValue) (error : JSError),
        (ensureOutputDir w).2 = none →
        fetchIPList toNumber (w.net (listConfig "v4".toList).url)
            (listConfig "v4".toList).url (some isIPv4Fn) = (events4, .resolved ip4) →
        ip4 ≠ [] → w.writeError "build/spamhaus-drop-v4.rsc".toList = none →
        fetchIPList toNumber (w.net (listConfig "v6".toList).url)
            (listConfig "v6".toList).url (some isIPv6Fn) = (events6, .thrown error) →
        ∃ script,
          generateRouterOSScript (w.now 0) ip4 "spamhaus-drop-v4".toList "/ip".toList
            = .ok script
          ∧ main toNumber w
            = ((ensureOutputDir w).1
                ++ (fetchingNotice (listConfig "v4".toList) :: events4.map .io
                  ++ [foundNotice (listConfig "v4".toList) ip4.length,
                      .render ip4 "spamhaus-drop-v4".toList "/ip".toList,
                      .writeFile "build/spamhaus-drop-v4.rsc".toList script,
                      savedNotice "build/spamhaus-drop-v4.rsc".toList]
                  ++ fetchingNotice (listConfig "v6".toList) :: events6.map .io)
                ++ [.errorLog error.message, .exit 1],
               .exited 1)
          ∧ writtenFiles (main toNumber w).1
            = [("build/spamhaus-drop-v4.rsc".toList, script)])
    ∧ (∀ (events4 events6 : List Event) (error : JSError),
        fetchIPList toNumber (w.net (listConfig "v4".toList).url)
            (listConfig "v4".toList).url (some isIPv4Fn) = (events4, .resolved []) →
        fetchIPList toNumber (w.net (listConfig "v6".toList).url)
            (listConfig "v6".toList).url (some isIPv6Fn) = (events6, .thrown error) →
        (main toNumber w).2 = .exited 1 ∧ writtenFiles (main toNumber w).1 = [])
    ∧ (∀ (events4 : List Event) (error : JSError),
        fetchIPList toNumber (w.net (listConfig "v4".toList).url)
            (listConfig "v4".toList).url (some isIPv4Fn) = (events4, .thrown error) →
        (main toNumber w).2 = .exited 1 ∧ writtenFiles (main toNumber w).1 = []) := by
  have hsetup_err : ∀ e, (ensureOutputDir w).2 = some e →
      (main toNumber w).2 = .exited 1 ∧ writtenFiles (main toNumber w).1 = [] := by
    intro e hs
    rw [main_of_setup_error toNumber w e hs]
    refine ⟨rfl, ?_⟩
    simp [writtenFiles_append, writtenFiles_ensureOutputDir, writtenFiles]
  refine ⟨?_, ?_, ?_⟩
  · intro events4 events6 ip4 error hs h4 hne hw h6
    obtain ⟨script, hr⟩ := LISTS_render_ok toNumber w (listConfig "v4".toList)
      (by simp [LISTS_eq]) events4 ip4 (w.now 0) h4
    have hp4 := processLists_written toNumber w (listConfig "v4".toList)
      [listConfig "v6".toList] 0 events4 ip4 script h4 hne hr hw
    have hp6 := processLists_thrown toNumber w (listConfig "v6".toList) [] 1 events6 error h6
    have ho : outputFile (listConfig "v4".toList) = "build/spamhaus-drop-v4.rsc".toList := by
      decide
    rw [hp6, ho] at hp4
    have hm : main toNumber w
        = ((ensureOutputDir w).1
            ++ (fetchingNotice (listConfig "v4".toList) :: events4.map .io
              ++ [foundNotice (listConfig "v4".toList) ip4.length,
                  .render ip4 "spamhaus-drop-v4".toList "/ip".toList,
                  .writeFile "build/spamhaus-drop-v4.rsc".toList script,
                  savedNotice "build/spamhaus-drop-v4.rsc".toList]
              ++ fetchingNotice (listConfig "v6".toList) :: events6.map .io)
            ++ [.errorLog error.message, .exit 1],
           .exited 1) := by
      rw [main_of_setup toNumber w hs, LISTS_eq, hp4]
      rfl
    refine ⟨script, hr, hm, ?_⟩
    rw [hm]
    simp [writtenFiles_append, writtenFiles_ensureOutputDir, writtenFiles_io, writtenFiles,
      fetchingNotice, foundNotice, savedNotice]
  · intro events4 events6 error h4 h6
    cases hs : (ensureOutputDir w).2 with
    | some e => exact hsetup_err e hs
    | none =>
      have hp4 := processLists_empty toNumber w (listConfig "v4".toList)
        [listConfig "v6".toList] 0 events4 h4
      have hp6 := processLists_thrown toNumber w (listConfig "v6".toList) [] 1 events6 error
        h6
      rw [hp6] at hp4
      rw [main_of_setup toNumber w hs, LISTS_eq, hp4]
      refine ⟨rfl, ?_⟩
      simp [writtenFiles_append, writtenFiles_ensureOutputDir, writtenFiles_io, writtenFiles,
        fetchingNotice, noAddressesNotice]
  · intro events4 error h4
    cases hs : (ensureOutputDir w).2 with
    | some e => exact hsetup_err e hs
    | none =>
      have hp4 := processLists_thrown toNumber w (listConfig "v4".toList)
        [listConfig "v6".toList] 0 events4 error h4
      rw [main_of_setup toNumber w hs, LISTS_eq, hp4]
      refine ⟨rfl, ?_⟩
      simp [writtenFiles_append, writtenFiles_ensureOutputDir, writtenFiles_io, writtenFiles,
        fetchingNotice]

set_option maxRecDepth 8000 in
/-- An instance of C20: the v4 feed has one record and every request for the v6 feed
fails. -/
theorem main_not_atomic_witness :
    (main decimalNumber worldV6Down).2 = .exited 1
    ∧ writtenFiles (main decimalNumber worldV6Down).1
      = [("build/spamhaus-drop-v4.rsc".toList,
          ("# Generated on 2024-01-01 00:00:00\n"
            ++ "/ip firewall address-list remove [find list=spamhaus-drop-v4]\n"
            ++ ":local ips \x7b \\\n"
            ++ "\x7b \"192.0.2.0/24\" \x7d\\\n"
            ++ "\x7d;\n"
            ++ ":foreach ip in=$ips do=\x7b\n"
            ++ "\t/ip firewall address-list add list=spamhaus-drop-v4 address=$ip dynamic=yes timeout=1d\n"
            ++ "\x7d\n"
            ++ ":set ips\n").toList)] := by
  obtain ⟨script, hr, hm, hw⟩ := (main_not_atomic decimalNumber worldV6Down).1
    [.request "https://www.spamhaus.org/drop/drop_v4.json".toList]
    [.request "https://www.spamhaus.org/drop/drop_v6.json".toList,
      retryNotice 1 "https://www.spamhaus.org/drop/drop_v6.json".toList
        "Request error: down".toList,
      .sleep 1000,
      .request "https://www.spamhaus.org/drop/drop_v6.json".toList,
      retryNotice 2 "https://www.spamhaus.org/drop/drop_v6.json".toList
        "Request error: down".toList,
      .sleep 1000,
      .request "https://www.spamhaus.org/drop/drop_v6.json".toList]
    [.str "192.0.2.0/24".toList] (exhausted "Request error: down".toList)
    rfl rfl (by simp) rfl rfl
  have hs : script = ("# Generated on 2024-01-01 00:00:00\n"
      ++ "/ip firewall address-list remove [find list=spamhaus-drop-v4]\n"
      ++ ":local ips \x7b \\\n"
      ++ "\x7b \"192.0.2.0/24\" \x7d\\\n"
      ++ "\x7d;\n"
      ++ ":foreach ip in=$ips do=\x7b\n"
      ++ "\t/ip firewall address-list add list=spamhaus-drop-v4 address=$ip dynamic=yes timeout=1d\n"
      ++ "\x7d\n"
      ++ ":set ips\n").toList := by
    have : generateRouterOSScript "2024-01-01 00:00:00".toList [.str "192.0.2.0/24".toList]
        "spamhaus-drop-v4".toList "/ip".toList = .ok script := hr
    have h2 : generateRouterOSScript "2024-01-01 00:00:00".toList
        [.str "192.0.2.0/24".toList] "spamhaus-drop-v4".toList "/ip".toList
        = .ok ("# Generated on 2024-01-01 00:00:00\n"
          ++ "/ip firewall address-list remove [find list=spamhaus-drop-v4]\n"
          ++ ":local ips \x7b \\\n"
          ++ "\x7b \"192.0.2.0/24\" \x7d\\\n"
          ++ "\x7d;\n"
          ++ ":foreach ip in=$ips do=\x7b\n"
          ++ "\t/ip firewall address-list add list=spamhaus-drop-v4 address=$ip dynamic=yes timeout=1d\n"
          ++ "\x7d\n"
          ++ ":set ips\n").toList := by decide
    rw [h2] at this
    exact (Except.ok.inj this).symm
  rw [← hs]
  exact ⟨by rw [hm], hw⟩

end RosSpamhaus
